import Mathlib

/-!
# wspranalysis: grouping, ranking and distance filtering of WSPR reception reports

A shallow embedding of `internal/wspranalysis/types.go` and
`internal/wspranalysis/processing.go`, followed by theorems about it.

Conventions of the embedding.

* Go slices are lists; the nil slice and the empty slice are both `[]`.
* `int8` and `uint16` values are integers and naturals; every arithmetic
  operation that can leave the machine range is followed by an explicit
  reduction (`wrapInt8`, `% 65536`).
* A Go function returning `(T, error)` returns a pair whose second component
  is `none` for the nil error.
* A function that can index out of range, or whose loop is run on fuel,
  returns an `Outcome`.
* The standard library is not part of the repository: `time.Parse` is a
  parameter `parse`, and `slices.SortFunc` is a parameter `S : SlicesSort`
  carrying only what the library documents (the result is a rearrangement of
  the input, ordered by the comparison function).
-/

namespace Wspr

/-! ## Standard-library stand-ins -/

/-- Go `time.Time`, read as an instant: seconds elapsed since the zero time
`time.Time{}` (January 1, year 1, 00:00:00 UTC). -/
structure GoTime where
  sec : Int
deriving DecidableEq, Repr

/-- The zero value `time.Time{}`. -/
def GoTime.zero : GoTime := ⟨0⟩

/-- Result of running a piece of Go code in the embedding. -/
inductive Outcome (α : Type) where
  /-- the function returned normally with this value -/
  | ret (v : α) : Outcome α
  /-- a run-time panic (index out of range) -/
  | panic : Outcome α
  /-- the fuel of the embedding was exhausted (never a behaviour of the code) -/
  | outOfFuel : Outcome α
deriving DecidableEq, Repr

/-- Go `cmp.Compare` on integers: `-1` if `x < y`, `0` if `x = y`, `+1` if `x > y`. -/
def cmpCompare (x y : Int) : Int :=
  if x < y then -1 else if x > y then 1 else 0

/-- Reduction of an integer to the `int8` range `[-128, 127]` (two's complement). -/
def wrapInt8 (x : Int) : Int := (x + 128) % 256 - 128

/-! ## types.go -/

/-- A single WSPR reception report (`type ReceptionReport struct`).
`Power_dBm` and `Snr_dB` are `int8`, `Distance_km` and `RxAzimuth` are `uint16`. -/
structure ReceptionReport where
  TimeStr : String
  RxSign : String
  TxSign : String
  Power_dBm : Int
  Snr_dB : Int
  Distance_km : Nat
  RxAzimuth : Nat
deriving DecidableEq, Repr

/-- The field ranges that the Go types `int8` and `uint16` impose on a report. -/
def ReceptionReport.InRange (r : ReceptionReport) : Prop :=
  -128 ≤ r.Power_dBm ∧ r.Power_dBm ≤ 127 ∧ -128 ≤ r.Snr_dB ∧ r.Snr_dB ≤ 127 ∧
    r.Distance_km < 65536 ∧ r.RxAzimuth < 65536

instance (r : ReceptionReport) : Decidable r.InRange := by
  unfold ReceptionReport.InRange; infer_instance

/-- Method `(r *ReceptionReport) Time()`: parse `TimeStr`, and return the zero
time when parsing fails. `parse` stands for `time.Parse(time.DateTime, ·)`,
`none` being its error result. -/
def ReceptionReport.Time (parse : String → Option GoTime) (r : ReceptionReport) : GoTime :=
  match parse r.TimeStr with
  | none => GoTime.zero
  | some t => t

/-- Method `(r *ReceptionReport) SnrNorm_dB(txRefPower_dBm int8) int8`:
`r.Snr_dB + txRefPower_dBm - r.Power_dBm`, each `int8` operation wrapping. -/
def ReceptionReport.SnrNorm_dB (r : ReceptionReport) (txRefPower_dBm : Int) : Int :=
  wrapInt8 (wrapInt8 (r.Snr_dB + txRefPower_dBm) - r.Power_dBm)

/-- The reports received by one station at one time (`type ReceptionReportGroup struct`).
`TargetIndex` is a Go `int`. -/
structure ReceptionReportGroup where
  RxSign : String
  Time : GoTime
  Reports : List ReceptionReport
  TargetIndex : Int
deriving DecidableEq, Repr

/-- The zero value that `new(ReceptionReportGroup)` points to. -/
def ReceptionReportGroup.zero : ReceptionReportGroup :=
  { RxSign := "", Time := GoTime.zero, Reports := [], TargetIndex := 0 }

/-! ## processing.go -/

/-- The error values built with `fmt.Errorf` in `processing.go`, one constructor
per message, carrying the values the message is formatted from. -/
inductive Error where
  /-- "target transmitter %s not found in report group for receiver %s at time %s" -/
  | targetNotFound (targetCallsign rxSign : String) (time : GoTime) : Error
  /-- "generated nil/empty report group. This should not happen" -/
  | emptyGroup : Error
  /-- "error building filtered report group (%w)" -/
  | filterBuild (inner : Error) : Error
  /-- "cannot calculate median of empty slice" -/
  | emptyMedian : Error
deriving DecidableEq, Repr

/-- The `for i, report := range newGroup.Reports` loop of `newReceptionReportGroup`:
`targetIndex` keeps its incoming value unless some report has
`TxSign == targetCallsign`, in which case the loop stores that index and breaks.
`i` is the index of the head of the list still to be visited. -/
def findTargetIndex (targetCallsign : String) :
    List ReceptionReport → Nat → Int → Int
  | [], _, targetIndex => targetIndex
  | report :: rest, i, targetIndex =>
    if report.TxSign = targetCallsign then (i : Int)
    else findTargetIndex targetCallsign rest (i + 1) targetIndex

/-- Function `newReceptionReportGroup(reports, targetCallsign)`; the first
component is the returned pointer (`none` for nil). -/
def newReceptionReportGroup (parse : String → Option GoTime)
    (reports : List ReceptionReport) (targetCallsign : String) :
    Option ReceptionReportGroup × Option Error :=
  match reports with
  | [] => (some ReceptionReportGroup.zero, none)
  | first :: _ =>
    let targetIndex := findTargetIndex targetCallsign reports 0 (-1)
    if targetIndex = -1 then
      (none, some (Error.targetNotFound targetCallsign first.RxSign (first.Time parse)))
    else
      (some { RxSign := first.RxSign, Time := first.Time parse,
              Reports := reports, TargetIndex := targetIndex }, none)

/-- The comparison function handed to `slices.SortFunc` by `processRawRxReports`:
`cmp.Compare(b.SnrNorm_dB(normTxPwr_dBm), a.SnrNorm_dB(normTxPwr_dBm))`. -/
def snrCmp (normTxPwr_dBm : Int) (a b : ReceptionReport) : Int :=
  cmpCompare (b.SnrNorm_dB normTxPwr_dBm) (a.SnrNorm_dB normTxPwr_dBm)

/-- What the standard library promises of `slices.SortFunc` (an unstable
pattern-defeating quicksort): the slice afterwards holds the same elements, and
for a comparison function that is a strict weak ordering (transitive, total,
and with `cmp a b` negative exactly when `cmp b a` is positive) they are
ordered so that no element compares greater than a later one. Nothing is
promised about the order of elements that compare equal. -/
structure SlicesSort where
  /-- the contents of the slice after `slices.SortFunc(slice, cmp)` -/
  SortFunc : (ReceptionReport → ReceptionReport → Int) →
    List ReceptionReport → List ReceptionReport
  /-- the result is a rearrangement of the input -/
  perm : ∀ cmp l, (SortFunc cmp l).Perm l
  /-- the result is ordered by `cmp` -/
  sorted : ∀ cmp : ReceptionReport → ReceptionReport → Int,
    (∀ a b c, cmp a b ≤ 0 → cmp b c ≤ 0 → cmp a c ≤ 0) →
    (∀ a b, cmp a b ≤ 0 ∨ cmp b a ≤ 0) →
    (∀ a b, cmp a b < 0 ↔ 0 < cmp b a) →
    ∀ l, (SortFunc cmp l).Pairwise (fun a b => cmp a b ≤ 0)

/-- The loop `for i, j := 0, 1; j <= len(rawRxReports); j++ { ... }` of
`processRawRxReports`, one iteration per unit of fuel. `raw` is the current
content of the caller's slice (the sort works in place on `raw[i:j]`),
`rxReports` the groups appended so far. -/
def processLoop (S : SlicesSort) (parse : String → Option GoTime)
    (targetCallsign : String) (normTxPwr_dBm : Int) :
    Nat → List ReceptionReport → Nat → Nat → List ReceptionReportGroup →
    Outcome (List ReceptionReportGroup × Option Error)
  | 0, _, _, _, _ => Outcome.outOfFuel
  | fuel + 1, raw, i, j, rxReports =>
    if j ≤ raw.length then
      -- `boundary` is `none` when an index expression panics
      let boundary : Option Bool :=
        if j = raw.length then some true
        else
          match raw[j]?, raw[i]? with
          | some rj, some ri =>
            some (decide (rj.TimeStr ≠ ri.TimeStr) || decide (rj.RxSign ≠ ri.RxSign))
          | _, _ => none
      match boundary with
      | none => Outcome.panic
      | some false => processLoop S parse targetCallsign normTxPwr_dBm fuel raw i (j + 1) rxReports
      | some true =>
        if i ≤ j then
          let reportsForGroup := S.SortFunc (snrCmp normTxPwr_dBm) ((raw.drop i).take (j - i))
          let raw' := raw.take i ++ reportsForGroup ++ raw.drop j
          match newReceptionReportGroup parse reportsForGroup targetCallsign with
          | (_, some err) => Outcome.ret ([], some err)
          | (none, none) => Outcome.ret ([], some Error.emptyGroup)
          | (some newGroup, none) =>
            if newGroup.Reports.length = 0 then Outcome.ret ([], some Error.emptyGroup)
            else
              processLoop S parse targetCallsign normTxPwr_dBm fuel raw' j (j + 1)
                (rxReports ++ [newGroup])
        else Outcome.panic
    else Outcome.ret (rxReports, none)

/-- Function `processRawRxReports(rawRxReports, targetCallsign, normTxPwr_dBm)`.
The loop runs at most `len(rawRxReports)` iterations and one final test. -/
def processRawRxReports (S : SlicesSort) (parse : String → Option GoTime)
    (rawRxReports : List ReceptionReport) (targetCallsign : String) (normTxPwr_dBm : Int) :
    Outcome (List ReceptionReportGroup × Option Error) :=
  processLoop S parse targetCallsign normTxPwr_dBm (rawRxReports.length + 1)
    rawRxReports 0 1 []

/-- The conversion `uint16(float64(d) * 0.75)` of `filterRxReports`. For a
`uint16` value `d` the product is the exact rational `3d/4` (it has at most 18
significant bits); the conversion drops the fraction and keeps the low 16 bits. -/
def distanceMin_km (d : Nat) : Nat := (3 * d / 4) % 65536

/-- The value `max(uint16(float64(d) * 1.25), 50)` of `filterRxReports`. For a
`uint16` value `d` the product is the exact rational `5d/4`, at most `81918.75`;
the Go compiler converts it through a 32-bit integer and truncates that to 16
bits, so the conversion drops the fraction and keeps the low 16 bits. -/
def distanceMax_km (d : Nat) : Nat := max ((5 * d / 4) % 65536) 50

/-- The index expression `reports[idx]` for a Go `int` index: `none` is the
index-out-of-range panic. -/
def indexReports (reports : List ReceptionReport) (idx : Int) : Option ReceptionReport :=
  if idx < 0 then none else reports[idx.toNat]?

/-- The inner loop of `filterRxReports`: the reports of the group whose distance
lies in the window around the target distance `d`, in their original order. -/
def filteredListForGroup (d : Nat) (reports : List ReceptionReport) : List ReceptionReport :=
  reports.filter (fun report =>
    decide (report.Distance_km ≥ distanceMin_km d) && decide (report.Distance_km ≤ distanceMax_km d))

/-- The loop `for _, reportGroup := range rxReports { ... }` of `filterRxReports`;
`filteredReports` are the groups appended so far. -/
def filterLoop (parse : String → Option GoTime) (targetCallsign : String) :
    List ReceptionReportGroup → List ReceptionReportGroup →
    Outcome (List ReceptionReportGroup × Option Error)
  | [], filteredReports => Outcome.ret (filteredReports, none)
  | reportGroup :: rest, filteredReports =>
    match indexReports reportGroup.Reports reportGroup.TargetIndex with
    | none => Outcome.panic
    | some targetReport =>
      match newReceptionReportGroup parse
          (filteredListForGroup targetReport.Distance_km reportGroup.Reports) targetCallsign with
      | (_, some err) => Outcome.ret ([], some (Error.filterBuild err))
      | (none, none) => filterLoop parse targetCallsign rest filteredReports
      | (some newReportGroup, none) =>
        if newReportGroup.Reports.length < 2 then
          filterLoop parse targetCallsign rest filteredReports
        else
          filterLoop parse targetCallsign rest (filteredReports ++ [newReportGroup])

/-- Function `filterRxReports(rxReports, targetCallsign)`. -/
def filterRxReports (parse : String → Option GoTime)
    (rxReports : List ReceptionReportGroup) (targetCallsign : String) :
    Outcome (List ReceptionReportGroup × Option Error) :=
  filterLoop parse targetCallsign rxReports []

/-! ## Runs of the input -/

/-- Two reports belong to the same run: same `TimeStr` and same `RxSign`. -/
def sameKey (a b : ReceptionReport) : Bool :=
  decide (a.TimeStr = b.TimeStr) && decide (a.RxSign = b.RxSign)

/-- The maximal contiguous runs of the input that share `(TimeStr, RxSign)`. -/
def runs (raw : List ReceptionReport) : List (List ReceptionReport) :=
  raw.splitBy sameKey

/-- A stable insertion sort ordered by `cmp a b ≤ 0`. -/
def insertionSortFunc (cmp : ReceptionReport → ReceptionReport → Int)
    (l : List ReceptionReport) : List ReceptionReport :=
  l.insertionSort (fun a b => cmp a b ≤ 0)

/-! ## processing.go: `median` -/

/-- Number of low bits that a natural number loses when it is stored with a
53-bit significand: the number of halvings that bring it below `2^53`. -/
def droppedBits : Nat → Nat → Nat
  | 0, _ => 0
  | fuel + 1, n => if n < 2 ^ 53 then 0 else droppedBits fuel (n / 2) + 1

/-- The integer nearest to `x` that a `float64` represents (53-bit significand,
round to nearest, ties to even). Every integer of a Go integer type is below
`2^64` in magnitude, far from the overflow threshold of `float64`. -/
def roundInt53 (x : Int) : Int :=
  let n := x.natAbs
  let e := droppedBits 1024 n
  let q := n / 2 ^ e
  let rem := n % 2 ^ e
  let q' := if 2 * rem > 2 ^ e ∨ (2 * rem = 2 ^ e ∧ q % 2 = 1) then q + 1 else q
  Int.sign x * ((q' * 2 ^ e : Nat) : Int)

/-- The conversion `float64(v)` of an integer `v`; the value of the result,
which is an integer. -/
def float64OfInt (v : Int) : Int := roundInt53 v

/-- The `float64` sum `a + b` of two integer-valued floats: the exact sum,
rounded. -/
def float64Add (a b : Int) : Int := roundInt53 (a + b)

/-- The function `slices.Sort` on a slice of integers: the ascending rearrangement
of the slice (there is only one). -/
def slicesSort (values : List Int) : List Int :=
  values.insertionSort (fun a b => a ≤ b)

/-- Function `median(values, preSorted)` at an integer element type. The result
holds the caller's slice after the call (it is sorted in place unless
`preSorted`), the returned `float64` as the rational it stands for, and the
returned error. Halving a `float64` of this size is exact. -/
def median (values : List Int) (preSorted : Bool) :
    Outcome (List Int × ℚ × Option Error) :=
  if values.length = 0 then
    Outcome.ret (values, 0, some Error.emptyMedian)
  else
    let values := if !preSorted then slicesSort values else values
    if values.length = 1 then
      match values[0]? with
      | some v => Outcome.ret (values, (float64OfInt v : ℚ), none)
      | none => Outcome.panic
    else if values.length % 2 = 0 then
      let midIndexA := values.length / 2 - 1
      let midIndexB := values.length / 2
      match values[midIndexA]?, values[midIndexB]? with
      | some a, some b =>
        Outcome.ret (values, (float64Add (float64OfInt a) (float64OfInt b) : ℚ) / 2, none)
      | _, _ => Outcome.panic
    else
      let midIndex := values.length / 2
      match values[midIndex]? with
      | some v => Outcome.ret (values, (float64OfInt v : ℚ), none)
      | none => Outcome.panic

/-! ## types.go: the band table -/

/-- The error value of `BandNameToCode`: "unrecognised band name: %s". -/
inductive BandError where
  /-- "unrecognised band name: %s" -/
  | unrecognisedBandName (bandName : String) : BandError
deriving DecidableEq, Repr

/-- The map `bandNameToCode`, as the list of its entries (the keys of a map
literal are distinct). -/
def bandNameToCode : List (String × Int) :=
  [ ("lf", -1), ("mf", 0), ("160m", 1), ("80m", 3), ("60m", 5), ("40m", 7),
    ("30m", 10), ("20m", 14), ("17m", 18), ("15m", 21), ("12m", 24), ("10m", 28),
    ("6m", 50), ("4m", 70), ("2m", 144), ("70cm", 432), ("23cm", 1296) ]

/-- The order in which a `for k := range m` loop visits the entries of a map:
unspecified, but each entry is visited once. -/
structure MapRange where
  /-- the entries in the order of the visit -/
  order : List (String × Int) → List (String × Int)
  /-- every entry is visited exactly once -/
  perm : ∀ m, (order m).Perm m

/-- Function `BandNames()`: the keys of the map, appended in the order of the visit. -/
def BandNames (range : MapRange) : List String :=
  (range.order bandNameToCode).map (fun entry => entry.1)

/-- Function `BandNameToCode(bandName)`: the map index expression
`bandNameToCode[bandName]` with its `ok` flag. -/
def BandNameToCode (bandName : String) : Int × Option BandError :=
  match bandNameToCode.lookup bandName with
  | some code => (code, none)
  | none => (0, some (BandError.unrecognisedBandName bandName))

/-! ## processing.go: `PrintReportsAndStats` -/

/-- What `PrintReportsAndStats` prints, one constructor per `fmt.Printf` call,
carrying the values that are formatted. -/
inductive Printed where
  /-- "Received by %s (distance %dkm) at %s:" -/
  | receivedBy (rxSign : String) (distance_km : Nat) (time : GoTime) : Printed
  /-- the arrow in front of the target's line -/
  | targetMarker : Printed
  /-- the blanks in front of another transmitter's line -/
  | otherMarker : Printed
  /-- "%d: Transmitter: %s, Power: %ddBm, Distance: %dkm, RX Azimuth: ..., SNR: %+ddB,
  Normalised SNR: %+ddB" -/
  | reportLine (position : Int) (report : ReceptionReport) (snrNorm_dB : Int) : Printed
  /-- "%d out of %d transmitters; Normalised SNR: %+ddB, %+ddBmedian" -/
  | groupStats (rank : Int) (count : Nat) (targetSnrNorm targetSnrNorm_dBmedian : Int) : Printed
  /-- "Offset from median of relative normalised SNR of all other transmitters: " -/
  | offsetHeading : Printed
  /-- "%+.1fdBmedian (%d samples)" -/
  | offsetValue (negatedMedian : ℚ) (samples : Nat) : Printed
deriving DecidableEq, Repr

/-- The loop `for i, report := range reportGroup.Reports` of `PrintReportsAndStats`.
`i` is the index of the head of the list still to be visited, `printed` and
`aggregated` what has been printed and collected so far; `none` is a panic. -/
def printReportsLoop (reportGroup : ReceptionReportGroup) (normTxPwr_dBm : Int) (verbose : Bool) :
    List ReceptionReport → Nat → List Printed → List Int → Option (List Printed × List Int)
  | [], _, printed, aggregated => some (printed, aggregated)
  | report :: rest, i, printed, aggregated =>
    let printed :=
      if verbose then
        printed ++ [if (i : Int) = reportGroup.TargetIndex then Printed.targetMarker
                    else Printed.otherMarker,
                    Printed.reportLine ((i : Int) + 1) report (report.SnrNorm_dB normTxPwr_dBm)]
      else printed
    if (i : Int) ≠ reportGroup.TargetIndex then
      match indexReports reportGroup.Reports reportGroup.TargetIndex with
      | none => none
      | some targetReport =>
        let relativeSnrNorm :=
          wrapInt8 (report.SnrNorm_dB normTxPwr_dBm - targetReport.SnrNorm_dB normTxPwr_dBm)
        printReportsLoop reportGroup normTxPwr_dBm verbose rest (i + 1) printed
          (aggregated ++ [relativeSnrNorm])
    else
      printReportsLoop reportGroup normTxPwr_dBm verbose rest (i + 1) printed aggregated

/-- The value that `PrintReportsAndStats` assigns to `medianSnrNorm_dB` for a
group: `int8` arithmetic, the sum wrapping and the division truncating
toward zero; `none` is a panic. -/
def groupMedianSnrNorm_dB (reports : List ReceptionReport) (normTxPwr_dBm : Int) : Option Int :=
  if reports.length % 2 = 0 then
    match reports[reports.length / 2 - 1]?, reports[reports.length / 2]? with
    | some a, some b =>
      some (Int.tdiv (wrapInt8 (a.SnrNorm_dB normTxPwr_dBm + b.SnrNorm_dB normTxPwr_dBm)) 2)
    | _, _ => none
  else
    match reports[reports.length / 2]? with
    | some m => some (m.SnrNorm_dB normTxPwr_dBm)
    | none => none

/-- The loop `for _, reportGroup := range rxReports` of `PrintReportsAndStats`. -/
def printGroupsLoop (normTxPwr_dBm : Int) (verbose : Bool) :
    List ReceptionReportGroup → List Printed → List Int → Option (List Printed × List Int)
  | [], printed, aggregated => some (printed, aggregated)
  | reportGroup :: rest, printed, aggregated =>
    match indexReports reportGroup.Reports reportGroup.TargetIndex with
    | none => none
    | some targetReport =>
      let printed := printed ++
        [Printed.receivedBy reportGroup.RxSign targetReport.Distance_km reportGroup.Time]
      match printReportsLoop reportGroup normTxPwr_dBm verbose reportGroup.Reports 0
          printed aggregated with
      | none => none
      | some (printed, aggregated) =>
        if reportGroup.Reports.length > 1 then
          match groupMedianSnrNorm_dB reportGroup.Reports normTxPwr_dBm with
          | none => none
          | some medianSnrNorm_dB =>
            let targetSnrNorm := targetReport.SnrNorm_dB normTxPwr_dBm
            let targetSnrNorm_dBmedian := wrapInt8 (targetSnrNorm - medianSnrNorm_dB)
            printGroupsLoop normTxPwr_dBm verbose rest
              (printed ++ [Printed.groupStats (reportGroup.TargetIndex + 1)
                reportGroup.Reports.length targetSnrNorm targetSnrNorm_dBmedian])
              aggregated
        else printGroupsLoop normTxPwr_dBm verbose rest printed aggregated

/-- Function `PrintReportsAndStats(rxReports, targetCallsign, normTxPwr_dBm, verbose)`:
what it prints. The error of `median` is discarded and `targetCallsign` is not
used, as in the source. -/
def PrintReportsAndStats (rxReports : List ReceptionReportGroup) (targetCallsign : String)
    (normTxPwr_dBm : Int) (verbose : Bool) : Outcome (List Printed) :=
  match printGroupsLoop normTxPwr_dBm verbose rxReports [] [] with
  | none => Outcome.panic
  | some (printed, aggregatedRelativeSnrNorms) =>
    let printed := printed ++ [Printed.offsetHeading]
    if aggregatedRelativeSnrNorms.length > 1 then
      match median aggregatedRelativeSnrNorms false with
      | Outcome.ret (_, aggregatedMedian, _) =>
        Outcome.ret (printed ++
          [Printed.offsetValue (-aggregatedMedian) aggregatedRelativeSnrNorms.length])
      | _ => Outcome.panic
    else Outcome.ret printed

/-! ## Definitions used in the statements -/

/-- Position of the first report whose `TxSign` is the target callsign
(the length of the list when there is none). -/
def targetPos (targetCallsign : String) (reports : List ReceptionReport) : Nat :=
  reports.findIdx (fun report => decide (report.TxSign = targetCallsign))

/-- Some report of the list was transmitted by the target callsign. -/
def HasTarget (targetCallsign : String) (reports : List ReceptionReport) : Prop :=
  ∃ report ∈ reports, report.TxSign = targetCallsign

instance (c : String) (l : List ReceptionReport) : Decidable (HasTarget c l) := by
  unfold HasTarget; infer_instance

/-- The group `g` is what one boundary of `processRawRxReports` appends for the
run `run`: the constructor succeeded on the sorted run and the emptiness test passed. -/
def GroupOfRun (S : SlicesSort) (parse : String → Option GoTime)
    (targetCallsign : String) (normTxPwr_dBm : Int)
    (run : List ReceptionReport) (g : ReceptionReportGroup) : Prop :=
  newReceptionReportGroup parse (S.SortFunc (snrCmp normTxPwr_dBm) run) targetCallsign
    = (some g, none) ∧ g.Reports ≠ []

/-- The work done at the boundaries of `processRawRxReports`, run by run: sort,
construct, test, append, stopping at the first error. -/
def buildGroups (S : SlicesSort) (parse : String → Option GoTime)
    (targetCallsign : String) (normTxPwr_dBm : Int) :
    List (List ReceptionReport) → List ReceptionReportGroup →
    List ReceptionReportGroup × Option Error
  | [], acc => (acc, none)
  | run :: rest, acc =>
    match newReceptionReportGroup parse (S.SortFunc (snrCmp normTxPwr_dBm) run) targetCallsign with
    | (_, some err) => ([], some err)
    | (none, none) => ([], some Error.emptyGroup)
    | (some newGroup, none) =>
      if newGroup.Reports.length = 0 then ([], some Error.emptyGroup)
      else buildGroups S parse targetCallsign normTxPwr_dBm rest (acc ++ [newGroup])

/-- The reports of a group that `filterRxReports` keeps: those inside the
distance window of the report at `TargetIndex` (none when the index is out of range). -/
def keptReports (g : ReceptionReportGroup) : List ReceptionReport :=
  match indexReports g.Reports g.TargetIndex with
  | some targetReport => filteredListForGroup targetReport.Distance_km g.Reports
  | none => []

/-- The group that `filterRxReports` appends for an input group, if any. -/
def rebuild (parse : String → Option GoTime) (targetCallsign : String)
    (g : ReceptionReportGroup) : Option ReceptionReportGroup :=
  match newReceptionReportGroup parse (keptReports g) targetCallsign with
  | (some newReportGroup, none) =>
    if newReportGroup.Reports.length < 2 then none else some newReportGroup
  | _ => none

/-- The window `0.75 D ≤ d ≤ max(1.25 D, 50)` in exact arithmetic (both sides
multiplied by four). -/
def ExactWindow (D d : Nat) : Prop := 3 * D ≤ 4 * d ∧ 4 * d ≤ max (5 * D) 200

/-- The window `floor(0.75 D) ≤ d ≤ max(floor(1.25 D), 50)`. -/
def FloorWindow (D d : Nat) : Prop := 3 * D / 4 ≤ d ∧ d ≤ max (5 * D / 4) 50

instance (D d : Nat) : Decidable (ExactWindow D d) := by
  unfold ExactWindow; infer_instance

instance (D d : Nat) : Decidable (FloorWindow D d) := by
  unfold FloorWindow; infer_instance

/-- The report at `TargetIndex` exists and was transmitted by the target callsign. -/
def PointsAtTarget (targetCallsign : String) (g : ReceptionReportGroup) : Prop :=
  (indexReports g.Reports g.TargetIndex).map (fun t => t.TxSign) = some targetCallsign

instance (c : String) (g : ReceptionReportGroup) : Decidable (PointsAtTarget c g) := by
  unfold PointsAtTarget; infer_instance

/-- The group has a report of the target callsign and `TargetIndex` is the
smallest index of such a report, as `newReceptionReportGroup` sets it. -/
def TargetFirst (targetCallsign : String) (g : ReceptionReportGroup) : Prop :=
  HasTarget targetCallsign g.Reports ∧
    g.TargetIndex = (targetPos targetCallsign g.Reports : Nat)

instance (c : String) (g : ReceptionReportGroup) : Decidable (TargetFirst c g) := by
  unfold TargetFirst; infer_instance

/-- Every report of the group carries the group's `RxSign` and parses to the
group's `Time`, as in the groups that `processRawRxReports` builds. -/
def Coherent (parse : String → Option GoTime) (g : ReceptionReportGroup) : Prop :=
  ∀ x ∈ g.Reports, x.RxSign = g.RxSign ∧ x.Time parse = g.Time

instance (parse : String → Option GoTime) (g : ReceptionReportGroup) :
    Decidable (Coherent parse g) := by
  unfold Coherent; infer_instance

/-- The receiver and timestamp of a group. -/
def groupKey (g : ReceptionReportGroup) : String × GoTime := (g.RxSign, g.Time)

/-- The value that `median` computes from the slice once it is in order: the
code's `float64` arithmetic on the middle element or the two middle elements. -/
def medianOfSorted (s : List Int) : ℚ :=
  if s.length % 2 = 0 then
    (float64Add (float64OfInt (s.getD (s.length / 2 - 1) 0))
      (float64OfInt (s.getD (s.length / 2) 0)) : ℚ) / 2
  else (float64OfInt (s.getD (s.length / 2) 0) : ℚ)

/-- The standard median of an ascending list `s` of length `n`: `s[n/2]` when
`n` is odd, the exact average `(s[n/2-1] + s[n/2]) / 2` when `n` is even. -/
def standardMedian (s : List Int) : ℚ :=
  if s.length % 2 = 1 then (s.getD (s.length / 2) 0 : ℚ)
  else ((s.getD (s.length / 2 - 1) 0 : ℚ) + (s.getD (s.length / 2) 0 : ℚ)) / 2

/-- The `TargetIndex` of the group is a valid index of its `Reports`. -/
def TargetInRange (g : ReceptionReportGroup) : Prop :=
  0 ≤ g.TargetIndex ∧ g.TargetIndex < g.Reports.length

instance (g : ReceptionReportGroup) : Decidable (TargetInRange g) := by
  unfold TargetInRange; infer_instance

/-- The item is the numeric offset line "%+.1fdBmedian (%d samples)". -/
def Printed.isOffsetValue : Printed → Bool
  | Printed.offsetValue _ _ => true
  | _ => false

/-- The relative normalised SNRs of a group: one sample per report other than
the one at `TargetIndex`, in report order, each the report's normalised SNR
minus the target's in `int8` arithmetic (none when the index is out of range). -/
def groupSamples (normTxPwr_dBm : Int) (g : ReceptionReportGroup) : List Int :=
  match indexReports g.Reports g.TargetIndex with
  | some targetReport =>
    (g.Reports.eraseIdx g.TargetIndex.toNat).map (fun report =>
      wrapInt8 (report.SnrNorm_dB normTxPwr_dBm - targetReport.SnrNorm_dB normTxPwr_dBm))
  | none => []

/-- The aggregate collection: the samples of the groups, in group order. -/
def aggregateSamples (normTxPwr_dBm : Int) (gs : List ReceptionReportGroup) : List Int :=
  gs.flatMap (groupSamples normTxPwr_dBm)

/-- The calls of `median` that a run of `PrintReportsAndStats` makes: for each
call its argument and the error it returns (which the call site discards).
Same control flow as `PrintReportsAndStats`. -/
def medianCalls (rxReports : List ReceptionReportGroup) (normTxPwr_dBm : Int) (verbose : Bool) :
    Outcome (List (List Int × Option Error)) :=
  match printGroupsLoop normTxPwr_dBm verbose rxReports [] [] with
  | none => Outcome.panic
  | some (_, aggregatedRelativeSnrNorms) =>
    if aggregatedRelativeSnrNorms.length > 1 then
      match median aggregatedRelativeSnrNorms false with
      | Outcome.ret (_, _, err) => Outcome.ret [(aggregatedRelativeSnrNorms, err)]
      | _ => Outcome.panic
    else Outcome.ret []

/-- The loop of `processRawRxReports` with a record of its slice expressions:
same control flow as `processLoop`, and each time the expression
`rawRxReports[i:j]` is reached the pair `(i, j)` is appended to `slices`. -/
def processLoopTraced (S : SlicesSort) (parse : String → Option GoTime)
    (targetCallsign : String) (normTxPwr_dBm : Int) :
    Nat → List ReceptionReport → Nat → Nat → List ReceptionReportGroup → List (Nat × Nat) →
    Outcome (List ReceptionReportGroup × Option Error) × List (Nat × Nat)
  | 0, _, _, _, _, slices => (Outcome.outOfFuel, slices)
  | fuel + 1, raw, i, j, rxReports, slices =>
    if j ≤ raw.length then
      let boundary : Option Bool :=
        if j = raw.length then some true
        else
          match raw[j]?, raw[i]? with
          | some rj, some ri =>
            some (decide (rj.TimeStr ≠ ri.TimeStr) || decide (rj.RxSign ≠ ri.RxSign))
          | _, _ => none
      match boundary with
      | none => (Outcome.panic, slices)
      | some false =>
        processLoopTraced S parse targetCallsign normTxPwr_dBm fuel raw i (j + 1) rxReports slices
      | some true =>
        if i ≤ j then
          let reportsForGroup := S.SortFunc (snrCmp normTxPwr_dBm) ((raw.drop i).take (j - i))
          let raw' := raw.take i ++ reportsForGroup ++ raw.drop j
          match newReceptionReportGroup parse reportsForGroup targetCallsign with
          | (_, some err) => (Outcome.ret ([], some err), slices ++ [(i, j)])
          | (none, none) => (Outcome.ret ([], some Error.emptyGroup), slices ++ [(i, j)])
          | (some newGroup, none) =>
            if newGroup.Reports.length = 0 then
              (Outcome.ret ([], some Error.emptyGroup), slices ++ [(i, j)])
            else
              processLoopTraced S parse targetCallsign normTxPwr_dBm fuel raw' j (j + 1)
                (rxReports ++ [newGroup]) (slices ++ [(i, j)])
        else (Outcome.panic, slices ++ [(i, j)])
    else (Outcome.ret (rxReports, none), slices)

/-- The function `processRawRxReports` with the record of its slice expressions. -/
def processRawRxReportsTraced (S : SlicesSort) (parse : String → Option GoTime)
    (rawRxReports : List ReceptionReport) (targetCallsign : String) (normTxPwr_dBm : Int) :
    Outcome (List ReceptionReportGroup × Option Error) × List (Nat × Nat) :=
  processLoopTraced S parse targetCallsign normTxPwr_dBm (rawRxReports.length + 1)
    rawRxReports 0 1 [] []

/-! ## A concrete sort and concrete inputs -/

/-- The 17 band names of the table. -/
def bandNameList : List String :=
  ["lf", "mf", "160m", "80m", "60m", "40m", "30m", "20m", "17m", "15m", "12m", "10m",
    "6m", "4m", "2m", "70cm", "23cm"]

/-- A string with its ASCII letters upper-cased. -/
def upperCased (s : String) : String := String.mk (s.toList.map Char.toUpper)

/-- The visit of a map in the order of its literal. -/
def literalRange : MapRange where
  order := fun m => m
  perm := fun m => List.Perm.refl m

/-- The visit of a map in the reverse order of its literal. -/
def reverseRange : MapRange where
  order := fun m => m.reverse
  perm := fun m => List.reverse_perm m

/-- The stable insertion sort as an instance of `SlicesSort`; it is what
`slices.SortFunc` runs on slices shorter than 12 elements. -/
def insertionSorter : SlicesSort where
  SortFunc := insertionSortFunc
  perm := fun _ l => List.perm_insertionSort _ l
  sorted := by
    intro cmp htrans htotal _ l
    haveI : IsTotal ReceptionReport (fun a b => cmp a b ≤ 0) := ⟨htotal⟩
    haveI : IsTrans ReceptionReport (fun a b => cmp a b ≤ 0) := ⟨htrans⟩
    exact List.sorted_insertionSort _ l

/-- A parser that rejects every string. -/
def noParse : String → Option GoTime := fun _ => none

/-- A report with the fields the grouping tests set (distance and azimuth zero). -/
def rawReport (timeStr rxSign txSign : String) (power snr : Int) : ReceptionReport :=
  { TimeStr := timeStr, RxSign := rxSign, TxSign := txSign, Power_dBm := power,
    Snr_dB := snr, Distance_km := 0, RxAzimuth := 0 }

/-- A report with the fields the filter tests set (a transmitter and a distance). -/
def distReport (txSign : String) (distance : Nat) : ReceptionReport :=
  { TimeStr := "", RxSign := "", TxSign := txSign, Power_dBm := 0,
    Snr_dB := 0, Distance_km := distance, RxAzimuth := 0 }

/-- The input of `TestProcessRawRxReports_MultipleGroups`. -/
def multipleGroupsInput : List ReceptionReport :=
  [ rawReport "2024-12-14 15:30:45" "W5ABC" "W5XYZ" 10 (-10),
    rawReport "2024-12-14 15:30:45" "W5ABC" "N0OTH" 20 (-15),
    rawReport "2024-12-14 15:31:45" "W5ABC" "W5XYZ" 12 (-8),
    rawReport "2024-12-14 15:31:45" "W5ABC" "G3ABC" 25 (-12),
    rawReport "2024-12-14 15:31:45" "W5DEF" "W5XYZ" 15 (-11),
    rawReport "2024-12-14 15:31:45" "W5DEF" "N0OTH" 18 (-14) ]

/-- The groups that `processRawRxReports` returns on `multipleGroupsInput`. -/
def multipleGroupsOutput : List ReceptionReportGroup :=
  [ { RxSign := "W5ABC", Time := GoTime.zero, TargetIndex := 0,
      Reports := [ rawReport "2024-12-14 15:30:45" "W5ABC" "W5XYZ" 10 (-10),
                   rawReport "2024-12-14 15:30:45" "W5ABC" "N0OTH" 20 (-15) ] },
    { RxSign := "W5ABC", Time := GoTime.zero, TargetIndex := 0,
      Reports := [ rawReport "2024-12-14 15:31:45" "W5ABC" "W5XYZ" 12 (-8),
                   rawReport "2024-12-14 15:31:45" "W5ABC" "G3ABC" 25 (-12) ] },
    { RxSign := "W5DEF", Time := GoTime.zero, TargetIndex := 0,
      Reports := [ rawReport "2024-12-14 15:31:45" "W5DEF" "W5XYZ" 15 (-11),
                   rawReport "2024-12-14 15:31:45" "W5DEF" "N0OTH" 18 (-14) ] } ]

/-- The input of `TestProcessRawRxReports_SortedBySnr`: one run of three reports,
the target second. -/
def sortedBySnrInput : List ReceptionReport :=
  [ rawReport "2024-12-14 15:30:45" "W5ABC" "N0OTH" 20 (-5),
    rawReport "2024-12-14 15:30:45" "W5ABC" "W5XYZ" 10 (-10),
    rawReport "2024-12-14 15:30:45" "W5ABC" "G3ABC" 30 (-20) ]

/-- The group that `processRawRxReports` returns on `sortedBySnrInput` with
reference power 43: the normalised SNRs are 23, 18 and -7. -/
def sortedBySnrOutput : List ReceptionReportGroup :=
  [ { RxSign := "W5ABC", Time := GoTime.zero, TargetIndex := 0,
      Reports := [ rawReport "2024-12-14 15:30:45" "W5ABC" "W5XYZ" 10 (-10),
                   rawReport "2024-12-14 15:30:45" "W5ABC" "N0OTH" 20 (-5),
                   rawReport "2024-12-14 15:30:45" "W5ABC" "G3ABC" 30 (-20) ] } ]

/-- The input of the case "target not in reports" of `TestProcessRawRxReports`. -/
def targetMissingInput : List ReceptionReport :=
  [ rawReport "2024-12-14 15:30:45" "W5ABC" "N0OTH" 20 (-15) ]

/-- The input of the case "multiple times and receivers" of `TestProcessRawRxReports`. -/
def twoGroupsInput : List ReceptionReport :=
  [ rawReport "2024-12-14 15:30:45" "W5ABC" "W5XYZ" 10 (-10),
    rawReport "2024-12-14 15:30:45" "W5ABC" "N0OTH" 20 (-15),
    rawReport "2024-12-14 15:31:45" "W5DEF" "W5XYZ" 15 (-8),
    rawReport "2024-12-14 15:31:45" "W5DEF" "G3ABC" 25 (-12) ]

/-- The groups that `processRawRxReports` returns on `twoGroupsInput`. -/
def twoGroupsOutput : List ReceptionReportGroup :=
  [ { RxSign := "W5ABC", Time := GoTime.zero, TargetIndex := 0,
      Reports := [ rawReport "2024-12-14 15:30:45" "W5ABC" "W5XYZ" 10 (-10),
                   rawReport "2024-12-14 15:30:45" "W5ABC" "N0OTH" 20 (-15) ] },
    { RxSign := "W5DEF", Time := GoTime.zero, TargetIndex := 0,
      Reports := [ rawReport "2024-12-14 15:31:45" "W5DEF" "W5XYZ" 15 (-8),
                   rawReport "2024-12-14 15:31:45" "W5DEF" "G3ABC" 25 (-12) ] } ]

/-- The input of the case "single time and receiver" of `TestProcessRawRxReports`. -/
def singleGroupInput : List ReceptionReport :=
  [ rawReport "2024-12-14 15:30:45" "W5ABC" "W5XYZ" 10 (-10),
    rawReport "2024-12-14 15:30:45" "W5ABC" "N0OTH" 20 (-15),
    rawReport "2024-12-14 15:30:45" "W5ABC" "G3ABC" 30 (-5) ]

/-- The group that `processRawRxReports` returns on `singleGroupInput` with
reference power 43: the normalised SNRs are 23, 8 and 8. -/
def singleGroupOutput : List ReceptionReportGroup :=
  [ { RxSign := "W5ABC", Time := GoTime.zero, TargetIndex := 0,
      Reports := [ rawReport "2024-12-14 15:30:45" "W5ABC" "W5XYZ" 10 (-10),
                   rawReport "2024-12-14 15:30:45" "W5ABC" "N0OTH" 20 (-15),
                   rawReport "2024-12-14 15:30:45" "W5ABC" "G3ABC" 30 (-5) ] } ]

/-- The instant `time.Date(2024, 12, 14, 15, 30, 45, 0, time.UTC)` of the filter tests. -/
def targetTime : GoTime := ⟨63869787045⟩

/-- A parser that accepts the one timestamp string of the tests. -/
def testParse : String → Option GoTime :=
  fun s => if s = "2024-12-14 15:30:45" then some targetTime else none

/-- A group as the filter tests build it: receiver `W5ABC` at `targetTime`. -/
def testGroup (targetIndex : Int) (reports : List ReceptionReport) : ReceptionReportGroup :=
  { RxSign := "W5ABC", Time := targetTime, Reports := reports, TargetIndex := targetIndex }

/-- The group that `filterRxReports` rebuilds from reports made with `distReport`:
their `RxSign` and `TimeStr` are empty. -/
def rebuiltGroup (targetIndex : Int) (reports : List ReceptionReport) : ReceptionReportGroup :=
  { RxSign := "", Time := GoTime.zero, Reports := reports, TargetIndex := targetIndex }

/-- The input of the case "outside distance range" of `TestFilterRxReports`. -/
def outsideRangeInput : List ReceptionReportGroup :=
  [testGroup 0 [distReport "W5XYZ" 200, distReport "N0OTH" 500]]

/-- The input of the case "within distance range" of `TestFilterRxReports`. -/
def withinRangeInput : List ReceptionReportGroup :=
  [testGroup 0 [distReport "W5XYZ" 200, distReport "N0OTH" 225, distReport "G3ABC" 150]]

/-- The input of `TestFilterRxReports_DistanceRangeCalculation`. -/
def distanceRangeInput : List ReceptionReportGroup :=
  [testGroup 0 [distReport "W5XYZ" 100, distReport "N0OTH" 75, distReport "G3ABC" 125]]

/-- The group that `filterRxReports` returns on `distanceRangeInput`. -/
def distanceRangeOutput : List ReceptionReportGroup :=
  [rebuiltGroup 0 [distReport "W5XYZ" 100, distReport "N0OTH" 75, distReport "G3ABC" 125]]

/-- A target at 101 km and another transmitter at 75 km. -/
def floorInput : List ReceptionReportGroup :=
  [testGroup 0 [distReport "W5XYZ" 101, distReport "N0OTH" 75]]

/-- Two reports of the target callsign, `TargetIndex` at the second. -/
def duplicateTargetInput : List ReceptionReportGroup :=
  [testGroup 1 [distReport "W5XYZ" 160, distReport "W5XYZ" 200, distReport "N0OTH" 250]]

/-- A target and another transmitter, both at 60000 km. -/
def overflowInput : List ReceptionReportGroup :=
  [testGroup 0 [distReport "W5XYZ" 60000, distReport "N0OTH" 60000]]

/-- A target at 60000 km on its own. -/
def overflowTargetInput : List ReceptionReportGroup :=
  [testGroup 0 [distReport "W5XYZ" 60000]]

/-- A report of the receiver `W5ABC` at the timestamp of the tests. -/
def fullReport (txSign : String) (distance : Nat) : ReceptionReport :=
  { TimeStr := "2024-12-14 15:30:45", RxSign := "W5ABC", TxSign := txSign, Power_dBm := 0,
    Snr_dB := 0, Distance_km := distance, RxAzimuth := 0 }

/-- Two groups whose reports carry the receiver and timestamp of their group;
the second has no comparable transmitter. -/
def coherentInput : List ReceptionReportGroup :=
  [ testGroup 0 [fullReport "W5XYZ" 200, fullReport "N0OTH" 225, fullReport "G3ABC" 150],
    testGroup 0 [fullReport "W5XYZ" 200, fullReport "N0OTH" 500] ]

/-- The groups that `filterRxReports` returns on `coherentInput`. -/
def coherentOutput : List ReceptionReportGroup :=
  [ testGroup 0 [fullReport "W5XYZ" 200, fullReport "N0OTH" 225, fullReport "G3ABC" 150] ]

/-- Three reports of the receiver `W5ABC` at the timestamp of the tests, as the
query returns them. -/
def pipelineInput : List ReceptionReport :=
  [fullReport "W5XYZ" 200, fullReport "N0OTH" 225, fullReport "G3ABC" 150]

/-- The reports of the second group of `multipleGroupsOutput`: with reference
power 43 their normalised SNRs are 23 and 6. -/
def oddSumReports : List ReceptionReport :=
  [ rawReport "2024-12-14 15:31:45" "W5ABC" "W5XYZ" 12 (-8),
    rawReport "2024-12-14 15:31:45" "W5ABC" "G3ABC" 25 (-12) ]

/-- The reports of the group of `sortedBySnrOutput`: with reference power 43 their
normalised SNRs are 23, 18 and -7. -/
def threeReports : List ReceptionReport :=
  [ rawReport "2024-12-14 15:30:45" "W5ABC" "W5XYZ" 10 (-10),
    rawReport "2024-12-14 15:30:45" "W5ABC" "N0OTH" 20 (-5),
    rawReport "2024-12-14 15:30:45" "W5ABC" "G3ABC" 30 (-20) ]

/-- The reports of the case "valid group with target" of `TestNewReceptionReportGroup`. -/
def targetFirstReports : List ReceptionReport :=
  [ rawReport "2024-12-14 15:30:45" "W5ABC" "W5XYZ" 10 0,
    rawReport "2024-12-14 15:30:45" "W5ABC" "N0OTH" 20 0 ]

/-- The reports of the case "target at end of group" of `TestNewReceptionReportGroup`. -/
def targetSecondReports : List ReceptionReport :=
  [ rawReport "2024-12-14 15:30:45" "W5ABC" "N0OTH" 20 0,
    rawReport "2024-12-14 15:30:45" "W5ABC" "W5XYZ" 10 0,
    rawReport "2024-12-14 15:30:45" "W5ABC" "G3ABC" 30 0 ]

/-- A group with the target at 200 km and three other transmitters, one of them
too far away. -/
def mixedInput : List ReceptionReportGroup :=
  [testGroup 0 [distReport "W5XYZ" 200, distReport "N0OTH" 225, distReport "F4FAR" 500,
    distReport "G3ABC" 150]]

/-- The group that `filterRxReports` returns on `mixedInput`. -/
def mixedOutput : List ReceptionReportGroup :=
  [rebuiltGroup 0 [distReport "W5XYZ" 200, distReport "N0OTH" 225, distReport "G3ABC" 150]]

/-- A single group of two reports, as the grouping builds it. -/
def oneGroupOfTwo : List ReceptionReportGroup :=
  [{ RxSign := "W5ABC", Time := GoTime.zero, Reports := oddSumReports, TargetIndex := 0 }]

/-- The relative normalised SNRs of a group in the spec's words: one value per report
other than the one at `TargetIndex`, in report order, each the report's normalised SNR
minus the target's, as an integer (no 8-bit reduction of the difference). -/
def specGroupSamples (normTxPwr_dBm : Int) (g : ReceptionReportGroup) : List Int :=
  match indexReports g.Reports g.TargetIndex with
  | some targetReport =>
    (g.Reports.eraseIdx g.TargetIndex.toNat).map (fun report =>
      report.SnrNorm_dB normTxPwr_dBm - targetReport.SnrNorm_dB normTxPwr_dBm)
  | none => []

/-- The aggregate collection in the spec's words: the differences of the groups, in
group order. -/
def specAggregateSamples (normTxPwr_dBm : Int) (gs : List ReceptionReportGroup) : List Int :=
  gs.flatMap (specGroupSamples normTxPwr_dBm)

/-- Three reports of one receiver at one time: two transmitters heard at +127 dB and the
target `W5XYZ` at -128 dB, all with power 0 dBm. -/
def wideSpreadInput : List ReceptionReport :=
  [ rawReport "2024-12-14 15:30:45" "W5ABC" "W5XYZ" 0 (-128),
    rawReport "2024-12-14 15:30:45" "W5ABC" "N0OTH" 0 127,
    rawReport "2024-12-14 15:30:45" "W5ABC" "G3ABC" 0 127 ]

/-- The group that `processRawRxReports` builds from `wideSpreadInput` with reference
power 0: normalised SNRs 127, 127 and -128, the target last. -/
def wideSpreadGroups : List ReceptionReportGroup :=
  [ testGroup 2
      [ rawReport "2024-12-14 15:30:45" "W5ABC" "N0OTH" 0 127,
        rawReport "2024-12-14 15:30:45" "W5ABC" "G3ABC" 0 127,
        rawReport "2024-12-14 15:30:45" "W5ABC" "W5XYZ" 0 (-128) ] ]

/-! ## Lemmas -/

/-! ### The grouping loop -/

/-- The groups already completed by `List.splitBy.loop` come out in front, unchanged. -/
theorem splitBy_loop_append (R : ReceptionReport → ReceptionReport → Bool) :
    ∀ (l : List ReceptionReport) (a : ReceptionReport) (g : List ReceptionReport)
      (gs : List (List ReceptionReport)),
      List.splitBy.loop R l a g gs = gs.reverse ++ List.splitBy.loop R l a g [] := by
  intro l
  induction l with
  | nil => intro a g gs; simp [List.splitBy.loop]
  | cons b l ih =>
    intro a g gs
    simp only [List.splitBy.loop]
    cases R a b with
    | true => exact ih b (a :: g) gs
    | false =>
      simp only
      rw [ih b [] ((a :: g).reverse :: gs), ih b [] [(a :: g).reverse]]
      simp

/-- Reports with the same key as `a` compare alike with any third report. -/
theorem sameKey_trans_left {a b c : ReceptionReport} (h : sameKey a b = true) :
    sameKey b c = sameKey a c := by
  simp only [sameKey, Bool.and_eq_true, decide_eq_true_eq] at h
  simp [sameKey, h.1, h.2]

/-- A report has its own key. -/
theorem sameKey_self (a : ReceptionReport) : sameKey a a = true := by
  simp [sameKey]

/-- With the slice split as `pre ++ first :: mid ++ rest`, index `len(pre)` holds `first`.
-/
theorem raw_getElem_i (pre mid rest : List ReceptionReport) (first : ReceptionReport) :
    (pre ++ (first :: mid) ++ rest)[pre.length]? = some first := by
  rw [List.append_assoc, List.getElem?_append_right (le_refl _)]
  simp

/-- With the slice split as `pre ++ first :: mid ++ rest`, index `len(pre) + len(mid) + 1`
holds the head of `rest`. -/
theorem raw_getElem_j (pre mid rest : List ReceptionReport) (first : ReceptionReport) :
    (pre ++ (first :: mid) ++ rest)[pre.length + (mid.length + 1)]? = rest[0]? := by
  rw [List.getElem?_append_right (by simp)]
  simp

/-- The slice expression `raw[i:j]` at the split `pre ++ first :: mid ++ rest`. -/
theorem raw_slice (pre mid rest : List ReceptionReport) (first : ReceptionReport) :
    ((pre ++ (first :: mid) ++ rest).drop pre.length).take
      (pre.length + (mid.length + 1) - pre.length) = first :: mid := by
  rw [List.append_assoc, List.drop_left, Nat.add_sub_cancel_left]
  have : mid.length + 1 = (first :: mid).length := by simp
  rw [this, List.take_left]

/-- The part of the slice before index `i`. -/
theorem raw_take (pre mid rest : List ReceptionReport) (first : ReceptionReport) :
    (pre ++ (first :: mid) ++ rest).take pre.length = pre := by
  rw [List.append_assoc, List.take_left]

/-- The part of the slice from index `j` on. -/
theorem raw_drop (pre mid rest : List ReceptionReport) (first : ReceptionReport) :
    (pre ++ (first :: mid) ++ rest).drop (pre.length + (mid.length + 1)) = rest := by
  have : pre.length + (mid.length + 1) = (pre ++ (first :: mid)).length := by simp
  rw [this, List.drop_left]

/-- The boundary test of the loop is the negation of `sameKey`. -/
theorem sameKey_eq_false_iff (a b : ReceptionReport) :
    (decide (b.TimeStr ≠ a.TimeStr) || decide (b.RxSign ≠ a.RxSign)) = !(sameKey a b) := by
  simp only [sameKey]
  by_cases h1 : a.TimeStr = b.TimeStr <;> by_cases h2 : a.RxSign = b.RxSign <;>
    simp [h1, h2, eq_comm]

/-- One iteration at a boundary (end of input, or a report with another key): the run `first
:: mid` is sorted in place and turned into a group. -/
theorem processLoop_boundary (S : SlicesSort) (parse : String → Option GoTime)
    (c : String) (r : Int) (pre mid rest : List ReceptionReport) (first : ReceptionReport)
    (fuel : Nat) (acc : List ReceptionReportGroup)
    (hb : rest = [] ∨ ∃ a as, rest = a :: as ∧ sameKey first a = false) :
    processLoop S parse c r (fuel + 1) (pre ++ (first :: mid) ++ rest) pre.length
        (pre.length + (mid.length + 1)) acc
      = match newReceptionReportGroup parse (S.SortFunc (snrCmp r) (first :: mid)) c with
        | (_, some err) => Outcome.ret ([], some err)
        | (none, none) => Outcome.ret ([], some Error.emptyGroup)
        | (some newGroup, none) =>
          if newGroup.Reports.length = 0 then Outcome.ret ([], some Error.emptyGroup)
          else processLoop S parse c r fuel
            (pre ++ S.SortFunc (snrCmp r) (first :: mid) ++ rest)
            (pre.length + (mid.length + 1)) (pre.length + (mid.length + 1) + 1)
            (acc ++ [newGroup]) := by
  rw [processLoop]
  have hlen : (pre ++ (first :: mid) ++ rest).length
      = pre.length + (mid.length + 1) + rest.length := by simp; omega
  have hj : pre.length + (mid.length + 1) ≤ (pre ++ (first :: mid) ++ rest).length := by
    rw [hlen]; omega
  rw [if_pos hj, raw_getElem_i, raw_getElem_j, raw_slice, raw_take, raw_drop, hlen]
  rcases hb with rfl | ⟨a, as, rfl, hk⟩
  · simp
  · have : ¬ (pre.length + (mid.length + 1)
        = pre.length + (mid.length + 1) + (a :: as).length) := by simp
    simp only [this, if_false, List.getElem?_cons_zero, sameKey_eq_false_iff, hk]
    simp

/-- One iteration inside a run: only `j` advances. -/
theorem processLoop_continue (S : SlicesSort) (parse : String → Option GoTime)
    (c : String) (r : Int) (pre mid rest : List ReceptionReport) (first a : ReceptionReport)
    (fuel : Nat) (acc : List ReceptionReportGroup)
    (hk : sameKey first a = true) :
    processLoop S parse c r (fuel + 1) (pre ++ (first :: mid) ++ a :: rest) pre.length
        (pre.length + (mid.length + 1)) acc
      = processLoop S parse c r fuel (pre ++ (first :: mid) ++ a :: rest) pre.length
        (pre.length + (mid.length + 1) + 1) acc := by
  rw [processLoop]
  have hlen : (pre ++ (first :: mid) ++ a :: rest).length
      = pre.length + (mid.length + 1) + (a :: rest).length := by simp; omega
  have hj : pre.length + (mid.length + 1) ≤ (pre ++ (first :: mid) ++ a :: rest).length := by
    rw [hlen]; omega
  rw [if_pos hj, raw_getElem_i, raw_getElem_j, hlen]
  have : ¬ (pre.length + (mid.length + 1)
      = pre.length + (mid.length + 1) + (a :: rest).length) := by simp
  simp only [this, if_false, List.getElem?_cons_zero, sameKey_eq_false_iff, hk]
  simp

/-- The loop ends once `j` exceeds the length. -/
theorem processLoop_exit (S : SlicesSort) (parse : String → Option GoTime)
    (c : String) (r : Int) (raw : List ReceptionReport) (i j fuel : Nat)
    (acc : List ReceptionReportGroup) (hj : raw.length < j) :
    processLoop S parse c r (fuel + 1) raw i j acc = Outcome.ret (acc, none) := by
  rw [processLoop, if_neg (by omega)]

/-- One step of `buildGroups`, in the shape of the loop body. -/
theorem buildGroups_cons (S : SlicesSort) (parse : String → Option GoTime)
    (c : String) (r : Int) (run : List ReceptionReport) (rest : List (List ReceptionReport))
    (acc : List ReceptionReportGroup) :
    Outcome.ret (buildGroups S parse c r (run :: rest) acc)
      = match newReceptionReportGroup parse (S.SortFunc (snrCmp r) run) c with
        | (_, some err) => Outcome.ret ([], some err)
        | (none, none) => Outcome.ret ([], some Error.emptyGroup)
        | (some newGroup, none) =>
          if newGroup.Reports.length = 0 then Outcome.ret ([], some Error.emptyGroup)
          else Outcome.ret (buildGroups S parse c r rest (acc ++ [newGroup])) := by
  rw [buildGroups]
  split <;> simp_all
  split <;> simp_all

/-- The loop, started inside a run whose reports so far are `first :: mid` (`ag :: g`
reversed), with enough fuel, returns what `buildGroups` computes on the runs that
`List.splitBy.loop` completes from there. -/
theorem processLoop_eq (S : SlicesSort) (parse : String → Option GoTime)
    (c : String) (r : Int) :
    ∀ (rest pre : List ReceptionReport) (ag first : ReceptionReport)
      (g mid : List ReceptionReport) (fuel : Nat) (acc : List ReceptionReportGroup),
      rest.length + 2 ≤ fuel →
      (ag :: g).reverse = first :: mid →
      sameKey first ag = true →
      processLoop S parse c r fuel (pre ++ (first :: mid) ++ rest) pre.length
          (pre.length + (mid.length + 1)) acc
        = Outcome.ret (buildGroups S parse c r (List.splitBy.loop sameKey rest ag g []) acc) := by
  intro rest
  induction rest with
  | nil =>
    intro pre ag first g mid fuel acc hfuel hcur hkey
    obtain ⟨fuel, rfl⟩ : ∃ f, fuel = f + 2 := ⟨fuel - 2, by simp at hfuel; omega⟩
    rw [processLoop_boundary S parse c r pre mid [] first (fuel + 1) acc (Or.inl rfl)]
    simp only [List.splitBy.loop, hcur, List.reverse_cons, List.reverse_nil, List.nil_append]
    rw [buildGroups_cons]
    have hlen : (S.SortFunc (snrCmp r) (first :: mid)).length = mid.length + 1 := by
      rw [(S.perm _ _).length_eq]; simp
    have hex : ∀ acc', processLoop S parse c r (fuel + 1)
        (pre ++ S.SortFunc (snrCmp r) (first :: mid) ++ [])
        (pre.length + (mid.length + 1)) (pre.length + (mid.length + 1) + 1) acc'
        = Outcome.ret (buildGroups S parse c r [] acc') := by
      intro acc'
      rw [processLoop_exit _ _ _ _ _ _ _ _ _ (by simp [hlen])]
      rfl
    simp only [hex]
  | cons a rest ih =>
    intro pre ag first g mid fuel acc hfuel hcur hkey
    obtain ⟨fuel, rfl⟩ : ∃ f, fuel = f + 1 := ⟨fuel - 1, by simp at hfuel; omega⟩
    have hfuel' : rest.length + 2 ≤ fuel := by simp at hfuel; omega
    rw [List.splitBy.loop, sameKey_trans_left hkey]
    cases hk : sameKey first a with
    | true =>
      rw [processLoop_continue S parse c r pre mid rest first a fuel acc hk]
      have h := ih pre a first (ag :: g) (mid ++ [a]) fuel acc hfuel'
        (by rw [List.reverse_cons, hcur]; rfl) hk
      simp only [List.length_append, List.length_cons, List.length_nil, List.cons_append,
        List.append_assoc, List.nil_append, Nat.zero_add] at h
      simp only [List.cons_append, List.append_assoc]
      exact h
    | false =>
      rw [processLoop_boundary S parse c r pre mid (a :: rest) first fuel acc
        (Or.inr ⟨a, rest, rfl, hk⟩)]
      simp only
      rw [splitBy_loop_append, hcur]
      simp only [List.reverse_cons, List.reverse_nil, List.nil_append, List.singleton_append]
      rw [buildGroups_cons]
      have hlen : (S.SortFunc (snrCmp r) (first :: mid)).length = mid.length + 1 := by
        rw [(S.perm _ _).length_eq]; simp
      have hstep : ∀ acc', processLoop S parse c r fuel
          (pre ++ S.SortFunc (snrCmp r) (first :: mid) ++ a :: rest)
          (pre.length + (mid.length + 1)) (pre.length + (mid.length + 1) + 1) acc'
          = Outcome.ret (buildGroups S parse c r (List.splitBy.loop sameKey rest a [] []) acc') := by
        intro acc'
        have h := ih (pre ++ S.SortFunc (snrCmp r) (first :: mid)) a a [] [] fuel acc' hfuel'
          rfl (sameKey_self a)
        simp only [List.length_append, hlen, List.length_nil, Nat.zero_add,
          List.append_assoc] at h
        simp only [List.append_assoc]
        exact h
      simp only [hstep]

/-- The function `processRawRxReports` always returns, and returns `buildGroups` of the
maximal runs of its input. -/
theorem processRawRxReports_eq (S : SlicesSort) (parse : String → Option GoTime)
    (raw : List ReceptionReport) (c : String) (r : Int) :
    processRawRxReports S parse raw c r
      = Outcome.ret (buildGroups S parse c r (runs raw) []) := by
  cases raw with
  | nil =>
    simp only [processRawRxReports, List.length_nil, Nat.zero_add]
    rw [processLoop_exit _ _ _ _ _ _ _ _ _ (by simp)]
    rfl
  | cons a rest =>
    have h := processLoop_eq S parse c r rest [] a a [] [] (rest.length + 2) []
      (le_refl _) rfl (sameKey_self a)
    simpa [processRawRxReports, runs, List.splitBy] using h

/-! ### The constructor `newReceptionReportGroup` -/

/-- The position of the target is in range exactly when the target occurs. -/
theorem targetPos_lt_iff (c : String) (l : List ReceptionReport) :
    targetPos c l < l.length ↔ HasTarget c l := by
  simp [targetPos, HasTarget, List.findIdx_lt_length]

/-- The search loop returns the offset position of the first report of the target, or the
incoming value when there is none. -/
theorem findTargetIndex_eq (c : String) :
    ∀ (l : List ReceptionReport) (i : Nat) (ti : Int),
      findTargetIndex c l i ti
        = if targetPos c l < l.length then ((i + targetPos c l : Nat) : Int) else ti := by
  intro l
  induction l with
  | nil => intro i ti; simp [findTargetIndex, targetPos]
  | cons x l ih =>
    intro i ti
    by_cases hx : x.TxSign = c
    · simp [findTargetIndex, targetPos, List.findIdx_cons, hx]
    · have := ih (i + 1) ti
      simp only [targetPos] at this
      simp only [findTargetIndex, targetPos, List.findIdx_cons, hx, if_false, decide_False,
        cond_false, List.length_cons, Nat.add_lt_add_iff_right, this]
      split
      · simp; omega
      · simp

/-- The constructor on a non-empty slice that contains the target. -/
theorem newReceptionReportGroup_of_hasTarget (parse : String → Option GoTime) (c : String)
    (first : ReceptionReport) (rest : List ReceptionReport)
    (h : HasTarget c (first :: rest)) :
    newReceptionReportGroup parse (first :: rest) c
      = (some { RxSign := first.RxSign, Time := first.Time parse,
                Reports := first :: rest, TargetIndex := (targetPos c (first :: rest) : Nat) },
         none) := by
  have hlt := (targetPos_lt_iff c (first :: rest)).2 h
  simp only [newReceptionReportGroup, findTargetIndex_eq, if_pos hlt, Nat.zero_add]
  rw [if_neg (by omega)]

/-- The constructor on a non-empty slice that does not contain the target. -/
theorem newReceptionReportGroup_of_not_hasTarget (parse : String → Option GoTime) (c : String)
    (first : ReceptionReport) (rest : List ReceptionReport)
    (h : ¬ HasTarget c (first :: rest)) :
    newReceptionReportGroup parse (first :: rest) c
      = (none, some (Error.targetNotFound c first.RxSign (first.Time parse))) := by
  have hlt := (not_congr (targetPos_lt_iff c (first :: rest))).2 h
  simp only [newReceptionReportGroup, findTargetIndex_eq, if_neg hlt, if_true]

/-- Sorting neither adds nor removes the target. -/
theorem hasTarget_sort (S : SlicesSort) (c : String) (r : Int) (run : List ReceptionReport) :
    HasTarget c (S.SortFunc (snrCmp r) run) ↔ HasTarget c run := by
  simp only [HasTarget]
  constructor
  · rintro ⟨x, hx, hc⟩; exact ⟨x, (S.perm _ run).mem_iff.1 hx, hc⟩
  · rintro ⟨x, hx, hc⟩; exact ⟨x, (S.perm _ run).mem_iff.2 hx, hc⟩

/-- Only the empty slice sorts to the empty slice. -/
theorem sort_eq_nil_iff (S : SlicesSort) (r : Int) (run : List ReceptionReport) :
    S.SortFunc (snrCmp r) run = [] ↔ run = [] := by
  constructor
  · intro h; have := S.perm (snrCmp r) run; rw [h] at this; exact this.symm.eq_nil
  · intro h; subst h; exact (S.perm (snrCmp r) []).eq_nil

/-- The group appended for a run: the run contains the target, and the group is built from
the sorted run. -/
theorem groupOfRun_iff (S : SlicesSort) (parse : String → Option GoTime) (c : String) (r : Int)
    (run : List ReceptionReport) (g : ReceptionReportGroup) :
    GroupOfRun S parse c r run g ↔
      HasTarget c run ∧ ∃ first rest, S.SortFunc (snrCmp r) run = first :: rest ∧
        g = { RxSign := first.RxSign, Time := first.Time parse, Reports := first :: rest,
              TargetIndex := (targetPos c (first :: rest) : Nat) } := by
  unfold GroupOfRun
  cases hs : S.SortFunc (snrCmp r) run with
  | nil =>
    have hrun : run = [] := (sort_eq_nil_iff S r run).1 hs
    simp only [newReceptionReportGroup, Prod.mk.injEq, Option.some.injEq, and_true]
    constructor
    · rintro ⟨rfl, hne⟩; exact absurd rfl hne
    · rintro ⟨_, first, rest, h, _⟩; exact absurd h (by simp)
  | cons first rest =>
    by_cases ht : HasTarget c run
    · have ht' : HasTarget c (first :: rest) := hs ▸ (hasTarget_sort S c r run).2 ht
      rw [newReceptionReportGroup_of_hasTarget parse c first rest ht']
      constructor
      · rintro ⟨h, _⟩
        simp only [Prod.mk.injEq, Option.some.injEq, and_true] at h
        exact ⟨ht, first, rest, rfl, h.symm⟩
      · rintro ⟨_, f, t, hft, hg⟩
        simp only [List.cons.injEq] at hft
        obtain ⟨rfl, rfl⟩ := hft
        subst hg
        simp
    · have ht' : ¬ HasTarget c (first :: rest) := fun h =>
        ht ((hasTarget_sort S c r run).1 (hs ▸ h))
      rw [newReceptionReportGroup_of_not_hasTarget parse c first rest ht']
      simp [ht]

/-- Success of `buildGroups`: the result is the accumulator followed by one group per run.
-/
theorem buildGroups_ok_iff (S : SlicesSort) (parse : String → Option GoTime)
    (c : String) (r : Int) :
    ∀ (rs : List (List ReceptionReport)) (acc gs : List ReceptionReportGroup),
      buildGroups S parse c r rs acc = (gs, none) ↔
        ∃ gs', gs = acc ++ gs' ∧ List.Forall₂ (GroupOfRun S parse c r) rs gs' := by
  intro rs
  induction rs with
  | nil =>
    intro acc gs
    simp only [buildGroups, Prod.mk.injEq, and_true, List.forall₂_nil_left_iff]
    constructor
    · rintro rfl; exact ⟨[], by simp, rfl⟩
    · rintro ⟨gs', rfl, rfl⟩; simp
  | cons run rs ih =>
    intro acc gs
    simp only [List.forall₂_cons_left_iff]
    rw [buildGroups]
    rcases hres : newReceptionReportGroup parse (S.SortFunc (snrCmp r) run) c with ⟨og, oe⟩
    have hG : ∀ g, GroupOfRun S parse c r run g ↔ ((og, oe) = (some g, none) ∧ g.Reports ≠ []) := by
      intro g; unfold GroupOfRun; rw [hres]
    cases oe with
    | some e =>
      simp only [Prod.mk.injEq, reduceCtorEq, and_false, false_iff]
      rintro ⟨gs', _, g, t, hg, _⟩
      have := ((hG g).1 hg).1
      simp at this
    | none =>
      cases og with
      | none =>
        simp only [Prod.mk.injEq, reduceCtorEq, and_false, false_iff]
        rintro ⟨gs', _, g, t, hg, _⟩
        have := ((hG g).1 hg).1
        simp at this
      | some g0 =>
        simp only
        by_cases hz : g0.Reports.length = 0
        · rw [if_pos hz]
          simp only [Prod.mk.injEq, reduceCtorEq, and_false, false_iff]
          rintro ⟨gs', _, g, t, hg, _⟩
          have h1 := (hG g).1 hg
          simp only [Prod.mk.injEq, Option.some.injEq, and_true] at h1
          rw [← h1.1] at h1
          exact h1.2 (List.length_eq_zero.1 hz)
        · rw [if_neg hz, ih]
          constructor
          · rintro ⟨gs'', rfl, hf⟩
            refine ⟨g0 :: gs'', by simp, g0, gs'', ?_, hf, rfl⟩
            exact (hG g0).2 ⟨rfl, fun h => hz (by simp [h])⟩
          · rintro ⟨gs', rfl, g, t, hg, hf, rfl⟩
            have h1 := (hG g).1 hg
            simp only [Prod.mk.injEq, Option.some.injEq, and_true] at h1
            rw [← h1.1]
            exact ⟨t, by simp, hf⟩

/-! ### Runs -/

/-- The runs concatenate to the input. -/
theorem runs_flatten (raw : List ReceptionReport) : (runs raw).flatten = raw :=
  List.flatten_splitBy sameKey raw

/-- No run is empty. -/
theorem runs_ne_nil {raw run : List ReceptionReport} (h : run ∈ runs raw) : run ≠ [] :=
  List.ne_nil_of_mem_splitBy sameKey h

/-- In a chain of reports with pairwise equal neighbouring keys, all have the key of the
head. -/
theorem chain_sameKey_head : ∀ (l : List ReceptionReport) (a : ReceptionReport),
    List.Chain (fun x y => sameKey x y = true) a l → ∀ x ∈ l, sameKey a x = true := by
  intro l
  induction l with
  | nil => intro a _ x hx; cases hx
  | cons b l ih =>
    intro a hch x hx
    rw [List.chain_cons] at hch
    rcases List.mem_cons.1 hx with rfl | hx
    · exact hch.1
    · rw [← sameKey_trans_left hch.1]; exact ih b hch.2 x hx

/-- The meaning of `sameKey`. -/
theorem sameKey_iff (a b : ReceptionReport) :
    sameKey a b = true ↔ a.TimeStr = b.TimeStr ∧ a.RxSign = b.RxSign := by
  simp [sameKey]

/-- All reports of a run share `TimeStr` and `RxSign`. -/
theorem runs_sameKey {raw run : List ReceptionReport} (h : run ∈ runs raw) :
    ∀ x ∈ run, ∀ y ∈ run, x.TimeStr = y.TimeStr ∧ x.RxSign = y.RxSign := by
  have hch : run.Chain' (fun x y => sameKey x y = true) := List.chain'_of_mem_splitBy h
  cases run with
  | nil => intro x hx; cases hx
  | cons a l =>
    have hall : ∀ x ∈ a :: l, sameKey a x = true := by
      intro x hx
      rcases List.mem_cons.1 hx with rfl | hx
      · exact sameKey_self _
      · exact chain_sameKey_head l a hch x hx
    intro x hx y hy
    have h1 := (sameKey_iff a x).1 (hall x hx)
    have h2 := (sameKey_iff a y).1 (hall y hy)
    exact ⟨h1.1.symm.trans h2.1, h1.2.symm.trans h2.2⟩

/-- Runs are maximal: the last report of a run and the first of the next differ in key. -/
theorem runs_boundary (raw : List ReceptionReport) :
    (runs raw).Chain' (fun a b => ∃ ha hb, sameKey (a.getLast ha) (b.head hb) = false) :=
  List.chain'_getLast_head_splitBy sameKey raw

/-- An error of `buildGroups` comes with the nil slice. -/
theorem buildGroups_err (S : SlicesSort) (parse : String → Option GoTime)
    (c : String) (r : Int) :
    ∀ (rs : List (List ReceptionReport)) (acc gs : List ReceptionReportGroup) (e : Error),
      buildGroups S parse c r rs acc = (gs, some e) → gs = [] := by
  intro rs
  induction rs with
  | nil => intro acc gs e h; simp [buildGroups] at h
  | cons run rs ih =>
    intro acc gs e h
    rw [buildGroups] at h
    split at h
    · simp only [Prod.mk.injEq] at h; exact h.1.symm
    · simp only [Prod.mk.injEq] at h; exact h.1.symm
    · split at h
      · simp only [Prod.mk.injEq] at h; exact h.1.symm
      · exact ih _ _ _ h

/-- A run yields a group exactly when it contains the target. -/
theorem exists_groupOfRun_iff (S : SlicesSort) (parse : String → Option GoTime)
    (c : String) (r : Int) (run : List ReceptionReport) :
    (∃ g, GroupOfRun S parse c r run g) ↔ HasTarget c run := by
  constructor
  · rintro ⟨g, hg⟩; exact ((groupOfRun_iff S parse c r run g).1 hg).1
  · intro ht
    cases hs : S.SortFunc (snrCmp r) run with
    | nil =>
      have hrun := (sort_eq_nil_iff S r run).1 hs
      subst hrun
      obtain ⟨x, hx, _⟩ := ht
      cases hx
    | cons first rest =>
      exact ⟨_, (groupOfRun_iff S parse c r run _).2 ⟨ht, first, rest, hs, rfl⟩⟩

/-- A relation can be satisfied elementwise along a list exactly when it can be for each
element. -/
theorem exists_forall₂_iff {α β : Type} (R : α → β → Prop) :
    ∀ l : List α, (∃ l', List.Forall₂ R l l') ↔ ∀ a ∈ l, ∃ b, R a b := by
  intro l
  induction l with
  | nil => simp
  | cons a l ih =>
    simp only [List.forall₂_cons_left_iff, List.mem_cons, forall_eq_or_imp, ← ih]
    constructor
    · rintro ⟨_, b, u, hab, hu, rfl⟩; exact ⟨⟨b, hab⟩, u, hu⟩
    · rintro ⟨⟨b, hab⟩, u, hu⟩; exact ⟨_, b, u, hab, hu, rfl⟩

/-- The function `buildGroups` reports no error exactly when every run contains the target.
-/
theorem buildGroups_none_iff (S : SlicesSort) (parse : String → Option GoTime)
    (c : String) (r : Int) (rs : List (List ReceptionReport)) (acc : List ReceptionReportGroup) :
    (buildGroups S parse c r rs acc).2 = none ↔ ∀ run ∈ rs, HasTarget c run := by
  have h1 : (buildGroups S parse c r rs acc).2 = none ↔
      ∃ gs, buildGroups S parse c r rs acc = (gs, none) := by
    constructor
    · intro h; exact ⟨(buildGroups S parse c r rs acc).1, Prod.ext rfl h⟩
    · rintro ⟨gs, h⟩; rw [h]
  rw [h1]
  simp only [buildGroups_ok_iff]
  constructor
  · rintro ⟨_, gs', _, hf⟩ run hrun
    exact (exists_groupOfRun_iff S parse c r run).1
      (((exists_forall₂_iff _ rs).1 ⟨gs', hf⟩) run hrun)
  · intro h
    obtain ⟨gs', hf⟩ := (exists_forall₂_iff (GroupOfRun S parse c r) rs).2
      (fun run hrun => (exists_groupOfRun_iff S parse c r run).2 (h run hrun))
    exact ⟨acc ++ gs', gs', rfl, hf⟩

/-- Success of `processRawRxReports`: one group per maximal run, in order. -/
theorem processRawRxReports_ok_iff (S : SlicesSort) (parse : String → Option GoTime)
    (raw : List ReceptionReport) (c : String) (r : Int) (gs : List ReceptionReportGroup) :
    processRawRxReports S parse raw c r = Outcome.ret (gs, none) ↔
      List.Forall₂ (GroupOfRun S parse c r) (runs raw) gs := by
  rw [processRawRxReports_eq, Outcome.ret.injEq, buildGroups_ok_iff]
  simp

/-- Related lists are related index by index. -/
theorem forall₂_getElem? {α β : Type} {R : α → β → Prop} :
    ∀ {l₁ : List α} {l₂ : List β}, List.Forall₂ R l₁ l₂ →
      ∀ (k : Nat) (a : α), l₁[k]? = some a → ∃ b, l₂[k]? = some b ∧ R a b := by
  intro l₁ l₂ h
  induction h with
  | nil => intro k a hk; simp at hk
  | cons hab _ ih =>
    intro k a hk
    cases k with
    | zero => simp only [List.getElem?_cons_zero, Option.some.injEq] at hk; subst hk; exact ⟨_, by simp, hab⟩
    | succ k => simp only [List.getElem?_cons_succ] at hk ⊢; exact ih k a hk

/-- Every element of the right list is related to one of the left list. -/
theorem forall₂_mem_right {α β : Type} {R : α → β → Prop} :
    ∀ {l₁ : List α} {l₂ : List β}, List.Forall₂ R l₁ l₂ →
      ∀ b ∈ l₂, ∃ a ∈ l₁, R a b := by
  intro l₁ l₂ h
  induction h with
  | nil => intro b hb; cases hb
  | cons hab _ ih =>
    intro b hb
    rcases List.mem_cons.1 hb with rfl | hb
    · exact ⟨_, List.mem_cons_self _ _, hab⟩
    · obtain ⟨a, ha, hr⟩ := ih b hb
      exact ⟨a, List.mem_cons_of_mem _ ha, hr⟩

/-- Indexing at the position of the target gives the first report of the target. -/
theorem indexReports_targetPos (c : String) (l : List ReceptionReport) :
    indexReports l (targetPos c l : Nat)
      = l.find? (fun report => decide (report.TxSign = c)) := by
  have hidx : ∀ (l : List ReceptionReport) (n : Nat), indexReports l (n : Int) = l[n]? := by
    intro l n; simp [indexReports]
  rw [hidx]
  induction l with
  | nil => simp [targetPos]
  | cons x l ih =>
    by_cases hx : x.TxSign = c
    · simp [targetPos, List.findIdx_cons, hx]
    · simp only [targetPos] at ih
      simp [targetPos, List.findIdx_cons, hx, ih]

/-- When the target occurs, its first report is found. -/
theorem find?_target_some {c : String} {l : List ReceptionReport} (h : HasTarget c l) :
    ∃ t, l.find? (fun report => decide (report.TxSign = c)) = some t ∧ t ∈ l ∧ t.TxSign = c := by
  cases hf : l.find? (fun report => decide (report.TxSign = c)) with
  | none =>
    obtain ⟨x, hx, hc⟩ := h
    have := List.find?_eq_none.1 hf x hx
    simp [hc] at this
  | some t =>
    refine ⟨t, rfl, List.mem_of_find?_eq_some hf, ?_⟩
    simpa using List.find?_some hf

/-- What a group appended for a run looks like. -/
theorem groupOfRun_props {S : SlicesSort} {parse : String → Option GoTime} {c : String} {r : Int}
    {run : List ReceptionReport} {g : ReceptionReportGroup} (h : GroupOfRun S parse c r run g) :
    g.Reports = S.SortFunc (snrCmp r) run ∧ HasTarget c g.Reports ∧
      g.TargetIndex = (targetPos c g.Reports : Nat) ∧
      ∃ first ∈ run, g.RxSign = first.RxSign ∧ g.Time = first.Time parse := by
  obtain ⟨ht, first, rest, hs, rfl⟩ := (groupOfRun_iff S parse c r run g).1 h
  refine ⟨hs.symm, ?_, rfl, first, ?_, rfl, rfl⟩
  · simpa [hs] using (hasTarget_sort S c r run).2 ht
  · exact (S.perm _ run).mem_iff.1 (hs ▸ List.mem_cons_self _ _)

/-- The sign of `cmp.Compare`. -/
theorem cmpCompare_le_zero (x y : Int) : cmpCompare x y ≤ 0 ↔ x ≤ y := by
  unfold cmpCompare
  split_ifs <;> omega

/-- The comparison function orders by descending normalised SNR. -/
theorem snrCmp_le_zero (r : Int) (a b : ReceptionReport) :
    snrCmp r a b ≤ 0 ↔ b.SnrNorm_dB r ≤ a.SnrNorm_dB r := by
  unfold snrCmp; exact cmpCompare_le_zero _ _

/-- A slice sorted with `snrCmp` is in non-increasing order of normalised SNR. -/
theorem sort_pairwise (S : SlicesSort) (r : Int) (l : List ReceptionReport) :
    (S.SortFunc (snrCmp r) l).Pairwise (fun a b => a.SnrNorm_dB r ≥ b.SnrNorm_dB r) := by
  have h := S.sorted (snrCmp r)
    (fun a b c hab hbc => by
      rw [snrCmp_le_zero] at hab hbc ⊢; omega)
    (fun a b => by
      rw [snrCmp_le_zero, snrCmp_le_zero]; omega)
    (fun a b => by
      unfold snrCmp cmpCompare
      split_ifs <;> omega) l
  exact h.imp (fun hab => (snrCmp_le_zero r _ _).1 hab)

/-- Groups that permute their runs concatenate to a permutation of the concatenated runs. -/
theorem flatten_perm_of_forall₂ :
    ∀ {rs : List (List ReceptionReport)} {gs : List ReceptionReportGroup},
      List.Forall₂ (fun run g => g.Reports.Perm run) rs gs →
      (gs.map (fun g => g.Reports)).flatten.Perm rs.flatten := by
  intro rs gs h
  induction h with
  | nil => simp
  | cons hab _ ih =>
    simp only [List.map_cons, List.flatten_cons]
    exact hab.append ih

/-! ### The filter loop -/

/-- A group that `filterRxReports` appends holds the kept reports, at least two of them, the
target among them. -/
theorem rebuild_some {parse : String → Option GoTime} {c : String}
    {g ng : ReceptionReportGroup} (h : rebuild parse c g = some ng) :
    HasTarget c (keptReports g) ∧ 2 ≤ (keptReports g).length ∧
      ∃ first rest, keptReports g = first :: rest ∧
        ng = { RxSign := first.RxSign, Time := first.Time parse, Reports := first :: rest,
               TargetIndex := (targetPos c (first :: rest) : Nat) } := by
  unfold rebuild at h
  cases hk : keptReports g with
  | nil =>
    rw [hk] at h
    simp [newReceptionReportGroup, ReceptionReportGroup.zero] at h
  | cons first rest =>
    rw [hk] at h
    by_cases ht : HasTarget c (first :: rest)
    · rw [newReceptionReportGroup_of_hasTarget parse c first rest ht] at h
      simp only at h
      split at h
      · cases h
      · rename_i hlen
        simp only [Option.some.injEq] at h
        exact ⟨ht, by simpa using hlen, first, rest, rfl, h.symm⟩
    · rw [newReceptionReportGroup_of_not_hasTarget parse c first rest ht] at h
      cases h

/-- When the reconstruction reports no error, a group is appended exactly when at least two
reports were kept. -/
theorem rebuild_reports {parse : String → Option GoTime} {c : String}
    {g : ReceptionReportGroup}
    (h : (newReceptionReportGroup parse (keptReports g) c).2 = none) :
    (rebuild parse c g).map (fun ng => ng.Reports)
      = if 2 ≤ (keptReports g).length then some (keptReports g) else none := by
  unfold rebuild
  cases hk : keptReports g with
  | nil => simp [newReceptionReportGroup, ReceptionReportGroup.zero]
  | cons first rest =>
    rw [hk] at h
    by_cases ht : HasTarget c (first :: rest)
    · rw [newReceptionReportGroup_of_hasTarget parse c first rest ht]
      simp only [List.length_cons]
      split <;> rename_i hlen
      · rw [if_neg (by omega)]; rfl
      · rw [if_pos (by omega)]; rfl
    · rw [newReceptionReportGroup_of_not_hasTarget parse c first rest ht] at h
      cases h

/-- Success of the filter loop: every `TargetIndex` is in range, no reconstruction fails,
and the result is the accumulator followed by the rebuilt groups. -/
theorem filterLoop_ok_iff (parse : String → Option GoTime) (c : String) :
    ∀ (gs acc out : List ReceptionReportGroup),
      filterLoop parse c gs acc = Outcome.ret (out, none) ↔
        (∀ g ∈ gs, (∃ t, indexReports g.Reports g.TargetIndex = some t) ∧
          (newReceptionReportGroup parse (keptReports g) c).2 = none) ∧
        out = acc ++ gs.filterMap (rebuild parse c) := by
  intro gs
  induction gs with
  | nil =>
    intro acc out
    simp only [filterLoop, Outcome.ret.injEq, Prod.mk.injEq, and_true, List.not_mem_nil,
      false_implies, implies_true, true_and, List.filterMap_nil, List.append_nil]
    exact eq_comm
  | cons g gs ih =>
    intro acc out
    rw [filterLoop]
    simp only [List.mem_cons, forall_eq_or_imp, List.filterMap_cons]
    cases hidx : indexReports g.Reports g.TargetIndex with
    | none => simp
    | some t =>
      have hk : filteredListForGroup t.Distance_km g.Reports = keptReports g := by
        simp [keptReports, hidx]
      simp only [hk]
      have hreb : rebuild parse c g = match newReceptionReportGroup parse (keptReports g) c with
          | (some newReportGroup, none) =>
            if newReportGroup.Reports.length < 2 then none else some newReportGroup
          | _ => none := rfl
      rcases hres : newReceptionReportGroup parse (keptReports g) c with ⟨og, oe⟩
      rw [hres] at hreb
      cases oe with
      | some e => simp
      | none =>
        cases og with
        | none =>
          simp only at hreb
          simp only [hreb, ih, Option.some.injEq, exists_eq', and_self, true_and]
        | some ng =>
          simp only at hreb ⊢
          by_cases hlen : ng.Reports.length < 2
          · rw [if_pos hlen] at hreb ⊢
            simp only [hreb, ih, Option.some.injEq, exists_eq', and_self, true_and]
          · rw [if_neg hlen] at hreb ⊢
            simp only [hreb, ih, Option.some.injEq, exists_eq', and_self, true_and,
              List.append_assoc, List.singleton_append]

/-- Success of `filterRxReports`. -/
theorem filterRxReports_ok_iff (parse : String → Option GoTime) (c : String)
    (gs out : List ReceptionReportGroup) :
    filterRxReports parse gs c = Outcome.ret (out, none) ↔
      (∀ g ∈ gs, (∃ t, indexReports g.Reports g.TargetIndex = some t) ∧
        (newReceptionReportGroup parse (keptReports g) c).2 = none) ∧
      out = gs.filterMap (rebuild parse c) := by
  unfold filterRxReports
  rw [filterLoop_ok_iff]
  simp

/-! ### The distance window -/

/-- The lower bound never overflows. -/
theorem distanceMin_km_eq {D : Nat} (h : D < 65536) : distanceMin_km D = 3 * D / 4 := by
  unfold distanceMin_km
  exact Nat.mod_eq_of_lt (by omega)

/-- The computed upper bound is at most the intended one. -/
theorem distanceMax_km_le (D : Nat) : distanceMax_km D ≤ max (5 * D / 4) 50 := by
  unfold distanceMax_km
  have := Nat.mod_le (5 * D / 4) 65536
  exact max_le_max this (le_refl _)

/-- Up to 52428 km the upper bound does not overflow. -/
theorem distanceMax_km_eq {D : Nat} (h : D ≤ 52428) : distanceMax_km D = max (5 * D / 4) 50 := by
  unfold distanceMax_km
  rw [Nat.mod_eq_of_lt (by omega)]

/-- From 52429 km on the 16-bit conversion wraps around. -/
theorem distanceMax_km_overflow {D : Nat} (h1 : 52428 < D) (h2 : D < 65536) :
    distanceMax_km D = max (5 * D / 4 - 65536) 50 := by
  unfold distanceMax_km
  rw [Nat.mod_eq_sub_mod (by omega), Nat.mod_eq_of_lt (by omega)]

/-- Up to 52428 km the target lies in its own window. -/
theorem target_in_window {D : Nat} (h : D ≤ 52428) :
    distanceMin_km D ≤ D ∧ D ≤ distanceMax_km D := by
  rw [distanceMin_km_eq (by omega), distanceMax_km_eq h]
  omega

/-- A window that contains some distance belongs to a target distance of at most 52428 km.
-/
theorem window_nonempty {D d : Nat} (h : D < 65536)
    (hd : distanceMin_km D ≤ d ∧ d ≤ distanceMax_km D) : D ≤ 52428 := by
  by_contra hD
  rw [distanceMin_km_eq h, distanceMax_km_overflow (by omega) h] at hd
  omega

/-- The target lies in its own window exactly up to 52428 km. -/
theorem target_in_window_iff {D : Nat} (h : D < 65536) :
    (distanceMin_km D ≤ D ∧ D ≤ distanceMax_km D) ↔ D ≤ 52428 :=
  ⟨window_nonempty h, target_in_window⟩

/-- Membership in the kept reports. -/
theorem mem_filteredListForGroup {D : Nat} {l : List ReceptionReport} {x : ReceptionReport} :
    x ∈ filteredListForGroup D l ↔
      x ∈ l ∧ distanceMin_km D ≤ x.Distance_km ∧ x.Distance_km ≤ distanceMax_km D := by
  simp [filteredListForGroup]

/-- Up to 52428 km the kept reports are those of the floor window. -/
theorem filteredListForGroup_eq_floor {D : Nat} (h : D ≤ 52428) (l : List ReceptionReport) :
    filteredListForGroup D l = l.filter (fun x => decide (FloorWindow D x.Distance_km)) := by
  unfold filteredListForGroup FloorWindow
  rw [distanceMin_km_eq (by omega), distanceMax_km_eq h]
  congr 1
  funext x
  simp [Bool.decide_and]

/-- Filtering keeps the first match of `p` in first place when it passes the filter. -/
theorem find?_filter_first {p q : ReceptionReport → Bool} {t : ReceptionReport} :
    ∀ {l : List ReceptionReport}, l.find? p = some t → q t = true →
      (l.filter q).find? p = some t := by
  intro l
  induction l with
  | nil => intro h; cases h
  | cons x l ih =>
    intro h hq
    by_cases hp : p x = true
    · simp only [List.find?_cons, hp, Option.some.injEq] at h
      subst h
      simp [List.filter_cons, hq, hp]
    · simp only [List.find?_cons, hp] at h
      by_cases hqx : q x = true
      · simp only [List.filter_cons, hqx, if_true, List.find?_cons, hp]
        exact ih h hq
      · simp only [List.filter_cons, hqx]
        exact ih h hq

/-- The report lists of the rebuilt groups are the kept lists with at least two reports. -/
theorem filterMap_rebuild_reports (parse : String → Option GoTime) (c : String) :
    ∀ gs : List ReceptionReportGroup,
      (∀ g ∈ gs, (newReceptionReportGroup parse (keptReports g) c).2 = none) →
      (gs.filterMap (rebuild parse c)).map (fun g => g.Reports)
        = (gs.map keptReports).filter (fun l => decide (2 ≤ l.length)) := by
  intro gs
  induction gs with
  | nil => intro _; rfl
  | cons g gs ih =>
    intro h
    have hg := rebuild_reports (h g (List.mem_cons_self _ _))
    have ih' := ih (fun g' hg' => h g' (List.mem_cons_of_mem _ hg'))
    simp only [List.filterMap_cons, List.map_cons, List.filter_cons]
    cases hr : rebuild parse c g with
    | none =>
      rw [hr] at hg
      by_cases hlen : 2 ≤ (keptReports g).length
      · rw [if_pos hlen] at hg; cases hg
      · simp only [hlen, decide_False, Bool.false_eq_true, if_false]
        exact ih'
    | some ng =>
      rw [hr] at hg
      by_cases hlen : 2 ≤ (keptReports g).length
      · rw [if_pos hlen] at hg
        simp only [Option.map_some', Option.some.injEq] at hg
        simp only [hlen, decide_True, if_true, List.map_cons, hg, ih']
      · rw [if_neg hlen] at hg; cases hg

/-- Every rebuilt group comes from an input group. -/
theorem mem_filterMap_rebuild {parse : String → Option GoTime} {c : String}
    {gs : List ReceptionReportGroup} {ng : ReceptionReportGroup}
    (h : ng ∈ gs.filterMap (rebuild parse c)) : ∃ g ∈ gs, rebuild parse c g = some ng := by
  simpa [List.mem_filterMap] using h

/-- Rebuilding that preserves keys yields a subsequence of the keys. -/
theorem sublist_filterMap_key (f : ReceptionReportGroup → Option ReceptionReportGroup) :
    ∀ gs : List ReceptionReportGroup,
      (∀ g ∈ gs, ∀ ng, f g = some ng → groupKey ng = groupKey g) →
      ((gs.filterMap f).map groupKey).Sublist (gs.map groupKey) := by
  intro gs
  induction gs with
  | nil => intro _; exact List.Sublist.slnil
  | cons g gs ih =>
    intro h
    have ih' := ih (fun g' hg' => h g' (List.mem_cons_of_mem _ hg'))
    simp only [List.filterMap_cons, List.map_cons]
    cases hf : f g with
    | none => exact ih'.cons _
    | some ng =>
      simp only [List.map_cons]
      rw [h g (List.mem_cons_self _ _) ng hf]
      exact ih'.cons₂ _

/-! ### The pipeline: filtering what the grouping built -/

/-- A group whose `TargetIndex` is the first report of the target, with `uint16`
distances, passes through the filter loop body without a panic and without an
error. -/
theorem filter_step_ok (parse : String → Option GoTime) (c : String)
    (g : ReceptionReportGroup) (ht : TargetFirst c g)
    (hrange : ∀ x ∈ g.Reports, x.Distance_km < 65536) :
    (∃ t, indexReports g.Reports g.TargetIndex = some t) ∧
      (newReceptionReportGroup parse (keptReports g) c).2 = none := by
  obtain ⟨htgt, hti⟩ := ht
  obtain ⟨t, hfind, htmem, htc⟩ := find?_target_some htgt
  have hidx : indexReports g.Reports g.TargetIndex = some t := by
    rw [hti, indexReports_targetPos, hfind]
  refine ⟨⟨t, hidx⟩, ?_⟩
  have hk : keptReports g = filteredListForGroup t.Distance_km g.Reports := by
    simp [keptReports, hidx]
  cases hkept : keptReports g with
  | nil => rfl
  | cons first rest =>
    have hfirst : first ∈ filteredListForGroup t.Distance_km g.Reports := by
      rw [← hk, hkept]; exact List.mem_cons_self _ _
    have hD : t.Distance_km ≤ 52428 :=
      window_nonempty (hrange t htmem) (mem_filteredListForGroup.1 hfirst).2
    have htk : t ∈ first :: rest := by
      rw [← hkept, hk]
      exact mem_filteredListForGroup.2 ⟨htmem, target_in_window hD⟩
    rw [newReceptionReportGroup_of_hasTarget parse c first rest ⟨t, htk, htc⟩]

/-- The groups built by `processRawRxReports` have their `TargetIndex` at the
first report of the target, and hold reports of the input only. -/
theorem processed_group_wf {S : SlicesSort} {parse : String → Option GoTime}
    {raw : List ReceptionReport} {c : String} {r : Int} {gs : List ReceptionReportGroup}
    (h : processRawRxReports S parse raw c r = Outcome.ret (gs, none)) :
    ∀ g ∈ gs, TargetFirst c g ∧ ∀ x ∈ g.Reports, x ∈ raw := by
  have hf := (processRawRxReports_ok_iff S parse raw c r gs).1 h
  intro g hg
  obtain ⟨run, hmem, hrun⟩ := forall₂_mem_right hf g hg
  obtain ⟨hrep, ht, hti, _⟩ := groupOfRun_props hrun
  refine ⟨⟨ht, hti⟩, ?_⟩
  intro x hx
  rw [hrep] at hx
  have hxrun : x ∈ run := (S.perm _ run).mem_iff.1 hx
  rw [← runs_flatten raw]
  exact List.mem_flatten.2 ⟨run, hmem, hxrun⟩

/-- A group appended by `filterRxReports` has its `TargetIndex` in range and at a
report of the target. -/
theorem rebuild_targetIndex {parse : String → Option GoTime} {c : String}
    {g ng : ReceptionReportGroup} (h : rebuild parse c g = some ng) :
    0 ≤ ng.TargetIndex ∧ ng.TargetIndex < ng.Reports.length ∧
      ∃ t, indexReports ng.Reports ng.TargetIndex = some t ∧ t.TxSign = c := by
  obtain ⟨ht, _, first, rest, hkept, rfl⟩ := rebuild_some h
  rw [hkept] at ht
  have hlt := (targetPos_lt_iff c (first :: rest)).2 ht
  obtain ⟨t, hfind, _, htc⟩ := find?_target_some ht
  refine ⟨Int.natCast_nonneg _, ?_, t, ?_, htc⟩
  · simp only
    exact_mod_cast hlt
  · simp only
    rw [indexReports_targetPos, hfind]

/-! ### The median -/


theorem droppedBits_of_lt {n : Nat} (h : n < 2 ^ 53) (fuel : Nat) : droppedBits fuel n = 0 := by
  cases fuel with
  | zero => rfl
  | succ f => rw [droppedBits, if_pos h]

/-- Integers below `2^53` in magnitude are represented exactly. -/
theorem roundInt53_of_lt {x : Int} (h : x.natAbs < 2 ^ 53) : roundInt53 x = x := by
  unfold roundInt53
  simp only [droppedBits_of_lt h, pow_zero, Nat.div_one, Nat.mod_one, Nat.mul_zero, Nat.mul_one]
  simp only [gt_iff_lt, Nat.lt_irrefl, Nat.not_lt_zero, false_or]
  rw [if_neg (by omega)]
  exact Int.sign_mul_natAbs x

/-- Integers of magnitude at most `2^53` are represented exactly. -/
theorem roundInt53_of_le {x : Int} (h : x.natAbs ≤ 2 ^ 53) : roundInt53 x = x := by
  rcases Nat.lt_or_eq_of_le h with hlt | heq
  · exact roundInt53_of_lt hlt
  · rcases Int.natAbs_eq x with hx | hx
    · rw [hx, heq]; decide
    · rw [hx, heq]; decide


/-- An index in range holds the element that `getD` reads. -/
theorem getElem?_eq_some_getD {s : List Int} {i : Nat} (h : i < s.length) :
    s[i]? = some (s.getD i 0) := by
  rw [List.getD_eq_getElem?_getD, List.getElem?_eq_getElem h]
  rfl

/-- On the empty slice `median` returns the error and leaves the slice alone. -/
theorem median_nil (preSorted : Bool) :
    median [] preSorted = Outcome.ret ([], 0, some Error.emptyMedian) := by
  simp [median]

/-- On a non-empty slice `median` returns without error the value computed from the slice,
sorted unless `preSorted`, and leaves that slice behind. -/
theorem median_eq_of_ne_nil {xs : List Int} (hne : xs ≠ []) (preSorted : Bool) :
    median xs preSorted
      = Outcome.ret (if preSorted then xs else slicesSort xs,
          medianOfSorted (if preSorted then xs else slicesSort xs), none) := by
  have hlen : xs.length ≠ 0 := fun h => hne (List.length_eq_zero.1 h)
  have hslen : (if preSorted then xs else slicesSort xs).length = xs.length := by
    split
    · rfl
    · exact List.length_insertionSort _ xs
  have hs : (if (!preSorted) = true then slicesSort xs else xs)
      = (if preSorted then xs else slicesSort xs) := by
    cases preSorted <;> rfl
  unfold median
  rw [if_neg hlen]
  simp only [hs]
  generalize (if preSorted then xs else slicesSort xs) = s at hslen ⊢
  have hpos : 0 < s.length := by omega
  unfold medianOfSorted
  by_cases h1 : s.length = 1
  · rw [if_pos h1, getElem?_eq_some_getD hpos]
    simp [h1]
  · rw [if_neg h1]
    by_cases h2 : s.length % 2 = 0
    · rw [if_pos h2, if_pos h2, getElem?_eq_some_getD (by omega : s.length / 2 - 1 < s.length),
        getElem?_eq_some_getD (by omega : s.length / 2 < s.length)]
    · rw [if_neg h2, if_neg h2, getElem?_eq_some_getD (by omega : s.length / 2 < s.length)]

/-- Sorting rearranges. -/
theorem slicesSort_perm (xs : List Int) : (slicesSort xs).Perm xs :=
  List.perm_insertionSort _ xs

/-- Sorting puts in ascending order. -/
theorem slicesSort_sorted (xs : List Int) : (slicesSort xs).Sorted (fun a b => a ≤ b) :=
  List.sorted_insertionSort _ xs

/-- The ascending rearrangement of a list of integers is unique. -/
theorem slicesSort_unique {xs s : List Int} (hp : s.Perm xs)
    (hs : s.Sorted (fun a b => a ≤ b)) : slicesSort xs = s :=
  List.eq_of_perm_of_sorted ((slicesSort_perm xs).trans hp.symm) (slicesSort_sorted xs) hs

/-- Sorting an ascending list changes nothing. -/
theorem slicesSort_of_sorted {xs : List Int} (hs : xs.Sorted (fun a b => a ≤ b)) :
    slicesSort xs = xs :=
  slicesSort_unique (List.Perm.refl xs) hs

/-- What `getD` reads is an element or the default. -/
theorem getD_mem_or_zero (s : List Int) (i : Nat) : s.getD i 0 ∈ s ∨ s.getD i 0 = 0 := by
  rw [List.getD_eq_getElem?_getD]
  cases h : s[i]? with
  | none => right; rfl
  | some v => left; exact List.getElem?_mem h

/-- On integers of magnitude at most `2^52` the floating-point computation is exact. -/
theorem medianOfSorted_eq_standard {s : List Int}
    (hb : ∀ x ∈ s, x.natAbs ≤ 2 ^ 52) : medianOfSorted s = standardMedian s := by
  have hD : ∀ i, (s.getD i 0).natAbs ≤ 2 ^ 52 := by
    intro i
    rcases getD_mem_or_zero s i with h | h
    · exact hb _ h
    · rw [h]; decide
  have hconv : ∀ i, float64OfInt (s.getD i 0) = s.getD i 0 := fun i =>
    roundInt53_of_le (le_trans (hD i) (by decide))
  unfold medianOfSorted standardMedian
  by_cases h2 : s.length % 2 = 0
  · rw [if_pos h2, if_neg (by omega)]
    have hsum : float64Add (float64OfInt (s.getD (s.length / 2 - 1) 0))
        (float64OfInt (s.getD (s.length / 2) 0))
        = s.getD (s.length / 2 - 1) 0 + s.getD (s.length / 2) 0 := by
      rw [hconv, hconv]
      apply roundInt53_of_le
      have h1 := hD (s.length / 2 - 1)
      have h2 := hD (s.length / 2)
      have := Int.natAbs_add_le (s.getD (s.length / 2 - 1) 0) (s.getD (s.length / 2) 0)
      have e : (2 : Nat) ^ 53 = 2 ^ 52 + 2 ^ 52 := by decide
      omega
    rw [hsum]
    push_cast
    rfl
  · rw [if_neg h2, if_pos (by omega), hconv]


/-- On integers of magnitude at most `2^52`, `median(xs, false)` returns the standard median
of the ascending rearrangement. -/
theorem median_unsorted_eq {xs s : List Int} (hne : xs ≠ [])
    (hb : ∀ x ∈ xs, x.natAbs ≤ 2 ^ 52)
    (hp : s.Perm xs) (hs : s.Sorted (fun a b => a ≤ b)) :
    median xs false = Outcome.ret (s, standardMedian s, none) := by
  rw [median_eq_of_ne_nil hne]
  simp only [Bool.false_eq_true, if_false, slicesSort_unique hp hs]
  rw [medianOfSorted_eq_standard (fun x hx => hb x (hp.mem_iff.1 hx))]

/-! ### Normalised SNR and the band table -/


theorem wrapInt8_range (x : Int) : -128 ≤ wrapInt8 x ∧ wrapInt8 x ≤ 127 := by
  unfold wrapInt8; omega

/-- The reduction leaves the `int8` range alone. -/
theorem wrapInt8_of_range {x : Int} (h1 : -128 ≤ x) (h2 : x ≤ 127) : wrapInt8 x = x := by
  unfold wrapInt8; omega

/-- The reduction changes its argument by a multiple of 256. -/
theorem wrapInt8_congr (x : Int) : (wrapInt8 x - x) % 256 = 0 := by
  unfold wrapInt8; omega

/-- Reducing before a subtraction does not change the reduced difference. -/
theorem wrapInt8_sub_left (a b : Int) : wrapInt8 (wrapInt8 a - b) = wrapInt8 (a - b) := by
  unfold wrapInt8; omega

/-- The two wrapping operations of `SnrNorm_dB` amount to one reduction of `s + r - p`. -/
theorem snrNorm_dB_eq (report : ReceptionReport) (r : Int) :
    report.SnrNorm_dB r = wrapInt8 (report.Snr_dB + r - report.Power_dBm) := by
  unfold ReceptionReport.SnrNorm_dB
  exact wrapInt8_sub_left _ _

/-- The keys of the table. -/
theorem bandNameToCode_keys : bandNameToCode.map (fun entry => entry.1) = bandNameList := by
  decide

/-- A key that is not in the list is not found. -/
theorem lookup_eq_none_of_not_mem (s : String) :
    ∀ l : List (String × Int), s ∉ l.map (fun entry => entry.1) → l.lookup s = none := by
  intro l
  induction l with
  | nil => intro _; rfl
  | cons e l ih =>
    intro h
    simp only [List.map_cons, List.mem_cons, not_or] at h
    obtain ⟨k, v⟩ := e
    have hk : (s == k) = false := by simpa using h.1
    simp only [List.lookup, hk]
    exact ih h.2

/-- A string outside the table is rejected. -/
theorem BandNameToCode_of_not_mem {s : String} (h : s ∉ bandNameList) :
    BandNameToCode s = (0, some (BandError.unrecognisedBandName s)) := by
  rw [← bandNameToCode_keys] at h
  simp only [BandNameToCode, lookup_eq_none_of_not_mem s bandNameToCode h]

/-- A name of the table is accepted. -/
theorem BandNameToCode_of_mem {s : String} (h : s ∈ bandNameList) :
    (BandNameToCode s).2 = none := by
  simp only [bandNameList, List.mem_cons, List.mem_singleton, List.not_mem_nil, or_false] at h
  rcases h with h | h | h | h | h | h | h | h | h | h | h | h | h | h | h | h | h <;>
    (subst h; decide)

/-- The strings that `BandNameToCode` accepts are the names of the table. -/
theorem BandNameToCode_ok_iff (s : String) :
    (BandNameToCode s).2 = none ↔ s ∈ bandNameList := by
  constructor
  · intro h
    by_contra hn
    rw [BandNameToCode_of_not_mem hn] at h
    cases h
  · exact BandNameToCode_of_mem


/-! ### The group median -/


theorem getD_reverse {l : List Int} {i : Nat} (h : i < l.length) :
    l.reverse.getD i 0 = l.getD (l.length - 1 - i) 0 := by
  rw [List.getD_eq_getElem?_getD, List.getD_eq_getElem?_getD, List.getElem?_reverse h]

/-- The standard median of the reversal of a descending list, read off the list itself. -/
theorem standardMedian_reverse (l : List Int) (hne : l ≠ []) :
    standardMedian l.reverse
      = if l.length % 2 = 1 then (l.getD (l.length / 2) 0 : ℚ)
        else ((l.getD (l.length / 2 - 1) 0 : ℚ) + (l.getD (l.length / 2) 0 : ℚ)) / 2 := by
  have hpos : 0 < l.length := List.length_pos.2 hne
  unfold standardMedian
  simp only [List.length_reverse]
  by_cases h : l.length % 2 = 1
  · rw [if_pos h, if_pos h, getD_reverse (by omega)]
    congr 2
    omega
  · rw [if_neg h, if_neg h, getD_reverse (by omega), getD_reverse (by omega)]
    have e1 : l.length - 1 - (l.length / 2 - 1) = l.length / 2 := by omega
    have e2 : l.length - 1 - l.length / 2 = l.length / 2 - 1 := by omega
    rw [e1, e2, add_comm]

/-- On a descending list of integers of magnitude at most `2^52`, `median(·, false)` returns
the middle value or the exact average of the two middle values. -/
theorem median_of_descending {l : List Int} (hne : l ≠ [])
    (hb : ∀ x ∈ l, x.natAbs ≤ 2 ^ 52) (hd : l.Pairwise (fun a b => a ≥ b)) :
    median l false = Outcome.ret (l.reverse,
      (if l.length % 2 = 1 then (l.getD (l.length / 2) 0 : ℚ)
        else ((l.getD (l.length / 2 - 1) 0 : ℚ) + (l.getD (l.length / 2) 0 : ℚ)) / 2), none) := by
  rw [← standardMedian_reverse l hne]
  apply median_unsorted_eq hne hb (List.reverse_perm l)
  exact List.pairwise_reverse.2 hd

/-- Reading the list of normalised SNRs. -/
theorem getD_map_snrNorm (reports : List ReceptionReport) (r : Int) (i : Nat)
    (x : ReceptionReport) (h : reports[i]? = some x) :
    (reports.map (fun a => a.SnrNorm_dB r)).getD i 0 = x.SnrNorm_dB r := by
  rw [List.getD_eq_getElem?_getD, List.getElem?_map, h]
  rfl

/-- A normalised SNR is an `int8` value, far below `2^52`. -/
theorem snrNorm_natAbs_le (x : ReceptionReport) (r : Int) :
    (x.SnrNorm_dB r).natAbs ≤ 2 ^ 52 := by
  have h := wrapInt8_range (wrapInt8 (x.Snr_dB + r) - x.Power_dBm)
  unfold ReceptionReport.SnrNorm_dB
  have e : (2 : Nat) ^ 52 = 4503599627370496 := by decide
  omega


/-! ### The constructor, again -/

/-- The position of the target, when the target occurs: it holds a report of the
target and no earlier position does. -/
theorem targetPos_spec {c : String} {l : List ReceptionReport} (h : HasTarget c l) :
    (∃ t, l[targetPos c l]? = some t ∧ t.TxSign = c) ∧
      ∀ (j : Nat) (x : ReceptionReport), j < targetPos c l → l[j]? = some x → x.TxSign ≠ c := by
  have hlt : targetPos c l < l.length := (targetPos_lt_iff c l).2 h
  unfold targetPos at hlt ⊢
  constructor
  · refine ⟨_, List.getElem?_eq_getElem hlt, ?_⟩
    have := @List.findIdx_getElem _ (fun report : ReceptionReport => decide (report.TxSign = c))
      l hlt
    simpa using this
  · intro j x hj hx
    obtain ⟨hjl, rfl⟩ := List.getElem?_eq_some.1 hx
    have := @List.not_of_lt_findIdx _ (fun report : ReceptionReport => decide (report.TxSign = c))
      l j hj
    simpa using this

/-! ### Filtering twice -/

/-- A group that `filterRxReports` rebuilds from a group whose `TargetIndex` is
the first report of the target, with `uint16` distances: the target report `t`
is kept and is still the first report of the target, and the kept reports are
those inside the window of `t`. -/
theorem rebuild_keeps_target {parse : String → Option GoTime} {c : String}
    {g ng : ReceptionReportGroup} (ht : TargetFirst c g)
    (hrange : ∀ x ∈ g.Reports, x.Distance_km < 65536)
    (h : rebuild parse c g = some ng) :
    ∃ t first rest, indexReports g.Reports g.TargetIndex = some t ∧
      t.Distance_km ≤ 52428 ∧
      filteredListForGroup t.Distance_km g.Reports = first :: rest ∧
      (first :: rest).find? (fun report => decide (report.TxSign = c)) = some t ∧
      HasTarget c (first :: rest) ∧ 2 ≤ (first :: rest).length ∧
      ng = { RxSign := first.RxSign, Time := first.Time parse, Reports := first :: rest,
             TargetIndex := (targetPos c (first :: rest) : Nat) } := by
  obtain ⟨htgt, hti⟩ := ht
  obtain ⟨hkt, hlen, first, rest, hkept, hng⟩ := rebuild_some h
  obtain ⟨t, hfind, htmem, htc⟩ := find?_target_some htgt
  have hidx : indexReports g.Reports g.TargetIndex = some t := by
    rw [hti, indexReports_targetPos, hfind]
  have hk : keptReports g = filteredListForGroup t.Distance_km g.Reports := by
    simp [keptReports, hidx]
  have hfirst : first ∈ filteredListForGroup t.Distance_km g.Reports := by
    rw [← hk, hkept]; exact List.mem_cons_self _ _
  have hD : t.Distance_km ≤ 52428 :=
    window_nonempty (hrange t htmem) (mem_filteredListForGroup.1 hfirst).2
  have htin := target_in_window hD
  have hfind' : (first :: rest).find? (fun report => decide (report.TxSign = c)) = some t := by
    rw [← hkept, hk]
    unfold filteredListForGroup
    exact find?_filter_first hfind (by simp [htin.1, htin.2])
  rw [hkept] at hkt hlen
  exact ⟨t, first, rest, hidx, hD, by rw [← hk, hkept], hfind', hkt, hlen, hng⟩

/-- Filtering the kept reports again with the same window keeps them all. -/
theorem filteredListForGroup_idem (D : Nat) (l : List ReceptionReport) :
    filteredListForGroup D (filteredListForGroup D l) = filteredListForGroup D l := by
  unfold filteredListForGroup
  rw [List.filter_filter]
  congr 1
  funext x
  simp

/-- A group rebuilt by `filterRxReports` is rebuilt as itself. -/
theorem rebuild_idem {parse : String → Option GoTime} {c : String}
    {g ng : ReceptionReportGroup} (ht : TargetFirst c g)
    (hrange : ∀ x ∈ g.Reports, x.Distance_km < 65536)
    (h : rebuild parse c g = some ng) :
    rebuild parse c ng = some ng := by
  obtain ⟨t, first, rest, _, _, hfl, hfind, hkt, hlen, hng⟩ := rebuild_keeps_target ht hrange h
  have hrep : ng.Reports = first :: rest := by rw [hng]
  have hti : ng.TargetIndex = (targetPos c (first :: rest) : Nat) := by rw [hng]
  have hidx : indexReports ng.Reports ng.TargetIndex = some t := by
    rw [hrep, hti, indexReports_targetPos, hfind]
  have hk : keptReports ng = first :: rest := by
    simp only [keptReports, hidx]
    rw [hrep, ← hfl, filteredListForGroup_idem]
  unfold rebuild
  rw [hk, newReceptionReportGroup_of_hasTarget parse c first rest hkt]
  simp only
  rw [if_neg (by omega), hng]

/-- When a rebuild succeeds the reconstruction reported no error. -/
theorem rebuild_no_error {parse : String → Option GoTime} {c : String}
    {g ng : ReceptionReportGroup} (h : rebuild parse c g = some ng) :
    (newReceptionReportGroup parse (keptReports g) c).2 = none := by
  obtain ⟨hkt, _, first, rest, hkept, _⟩ := rebuild_some h
  rw [hkept] at hkt ⊢
  rw [newReceptionReportGroup_of_hasTarget parse c first rest hkt]

/-- A list on which `f` returns every element itself is left as it is by `filterMap f`. -/
theorem filterMap_self {α : Type} (f : α → Option α) :
    ∀ l : List α, (∀ a ∈ l, f a = some a) → l.filterMap f = l := by
  intro l
  induction l with
  | nil => intro _; rfl
  | cons a l ih =>
    intro h
    rw [List.filterMap_cons, h a (List.mem_cons_self _ _)]
    simp only
    rw [ih (fun b hb => h b (List.mem_cons_of_mem _ hb))]

/-- The elements that `filterMap f` keeps, in order, next to their images. -/
theorem filterMap_forall₂ {α β : Type} (f : α → Option β) :
    ∀ l : List α, ∃ kept : List α, kept.Sublist l ∧
      List.Forall₂ (fun b a => f a = some b) (l.filterMap f) kept := by
  intro l
  induction l with
  | nil => exact ⟨[], List.Sublist.slnil, List.Forall₂.nil⟩
  | cons a l ih =>
    obtain ⟨kept, hsub, hf⟩ := ih
    cases hfa : f a with
    | none =>
      refine ⟨kept, hsub.cons _, ?_⟩
      rw [List.filterMap_cons, hfa]
      exact hf
    | some b =>
      refine ⟨a :: kept, hsub.cons₂ _, ?_⟩
      rw [List.filterMap_cons, hfa]
      exact List.Forall₂.cons hfa hf

/-- The reports that the filter keeps are a sublist of the group's reports. -/
theorem keptReports_sublist (g : ReceptionReportGroup) : (keptReports g).Sublist g.Reports := by
  unfold keptReports
  split
  · exact List.filter_sublist _
  · exact List.nil_sublist _

/-! ### Printing -/

/-- An index expression that does not panic has a natural-number index in range. -/
theorem indexReports_some {l : List ReceptionReport} {idx : Int} {t : ReceptionReport}
    (h : indexReports l idx = some t) :
    idx = (idx.toNat : Int) ∧ idx.toNat < l.length ∧ l[idx.toNat]? = some t := by
  unfold indexReports at h
  split at h
  · cases h
  · rename_i hneg
    refine ⟨(Int.toNat_of_nonneg (by omega)).symm, ?_, h⟩
    exact (List.getElem?_eq_some.1 h).1

/-- The inner loop of `PrintReportsAndStats` does not panic when `TargetIndex` is
in range; it prints no offset line and appends one sample for every report
whose index is not `TargetIndex`. -/
theorem printReportsLoop_eq (g : ReceptionReportGroup) (r : Int) (verbose : Bool)
    (k : Nat) (t : ReceptionReport) (hti : g.TargetIndex = (k : Int))
    (hidx : indexReports g.Reports g.TargetIndex = some t) :
    ∀ (l : List ReceptionReport) (i : Nat) (printed : List Printed) (agg : List Int),
      ∃ extra, printReportsLoop g r verbose l i printed agg
          = some (printed ++ extra,
              agg ++ (if k < i then l else l.eraseIdx (k - i)).map
                (fun x => wrapInt8 (x.SnrNorm_dB r - t.SnrNorm_dB r))) ∧
        ∀ p ∈ extra, p.isOffsetValue = false := by
  intro l
  induction l with
  | nil =>
    intro i printed agg
    refine ⟨[], ?_, fun p hp => by cases hp⟩
    simp [printReportsLoop]
  | cons x rest ih =>
    intro i printed agg
    have hidx' : indexReports g.Reports (k : Int) = some t := by rw [← hti]; exact hidx
    rw [printReportsLoop]
    simp only [hti, hidx']
    have hpre : ∃ pre, (if verbose = true then
          printed ++ [if (i : Int) = (k : Int) then Printed.targetMarker else Printed.otherMarker,
            Printed.reportLine ((i : Int) + 1) x (x.SnrNorm_dB r)]
        else printed) = printed ++ pre ∧ ∀ p ∈ pre, p.isOffsetValue = false := by
      cases verbose with
      | false => exact ⟨[], by simp, fun p hp => by cases hp⟩
      | true =>
        refine ⟨[if (i : Int) = (k : Int) then Printed.targetMarker else Printed.otherMarker,
          Printed.reportLine ((i : Int) + 1) x (x.SnrNorm_dB r)], by rw [if_pos rfl], ?_⟩
        intro p hp
        simp only [List.mem_cons, List.mem_singleton, List.not_mem_nil, or_false] at hp
        rcases hp with rfl | rfl
        · split <;> rfl
        · rfl
    obtain ⟨pre, hpreq, hpreno⟩ := hpre
    rw [hpreq]
    by_cases hik : i = k
    · subst hik
      rw [if_neg (by simp)]
      obtain ⟨extra, heq, hno⟩ := ih (i + 1) (printed ++ pre) agg
      refine ⟨pre ++ extra, ?_, ?_⟩
      · rw [heq, if_pos (Nat.lt_succ_self i), if_neg (Nat.lt_irrefl i), Nat.sub_self,
          List.eraseIdx_cons_zero, List.append_assoc]
      · intro p hp
        rcases List.mem_append.1 hp with hp | hp
        · exact hpreno p hp
        · exact hno p hp
    · rw [if_pos (by exact_mod_cast hik)]
      obtain ⟨extra, heq, hno⟩ := ih (i + 1) (printed ++ pre)
        (agg ++ [wrapInt8 (x.SnrNorm_dB r - t.SnrNorm_dB r)])
      refine ⟨pre ++ extra, ?_, ?_⟩
      · rw [heq, List.append_assoc, List.append_assoc]
        congr 2
        by_cases hki : k < i
        · rw [if_pos hki, if_pos (by omega)]
          simp
        · have hki' : i < k := by omega
          rw [if_neg hki, if_neg (by omega)]
          have e : k - i = (k - (i + 1)) + 1 := by omega
          rw [e, List.eraseIdx_cons_succ]
          simp
      · intro p hp
        rcases List.mem_append.1 hp with hp | hp
        · exact hpreno p hp
        · exact hno p hp

/-- The group median is computed without a panic on a non-empty group. -/
theorem groupMedianSnrNorm_dB_some (reports : List ReceptionReport) (r : Int)
    (h : 0 < reports.length) : ∃ m, groupMedianSnrNorm_dB reports r = some m := by
  unfold groupMedianSnrNorm_dB
  by_cases h2 : reports.length % 2 = 0
  · rw [if_pos h2, List.getElem?_eq_getElem (by omega : reports.length / 2 - 1 < reports.length),
      List.getElem?_eq_getElem (by omega : reports.length / 2 < reports.length)]
    exact ⟨_, rfl⟩
  · rw [if_neg h2, List.getElem?_eq_getElem (by omega : reports.length / 2 < reports.length)]
    exact ⟨_, rfl⟩

/-- The outer loop of `PrintReportsAndStats` does not panic on groups whose
`TargetIndex` is in range; it prints no offset line and appends the samples of
the groups, in order. -/
theorem printGroupsLoop_eq (r : Int) (verbose : Bool) :
    ∀ (gs : List ReceptionReportGroup),
      (∀ g ∈ gs, ∃ t, indexReports g.Reports g.TargetIndex = some t) →
      ∀ (printed : List Printed) (agg : List Int),
        ∃ extra, printGroupsLoop r verbose gs printed agg
            = some (printed ++ extra, agg ++ aggregateSamples r gs) ∧
          ∀ p ∈ extra, p.isOffsetValue = false := by
  intro gs
  induction gs with
  | nil =>
    intro _ printed agg
    exact ⟨[], by simp [printGroupsLoop, aggregateSamples], fun p hp => by cases hp⟩
  | cons g gs ih =>
    intro hwf printed agg
    obtain ⟨t, hidx⟩ := hwf g (List.mem_cons_self _ _)
    have ih' := ih (fun g' hg' => hwf g' (List.mem_cons_of_mem _ hg'))
    obtain ⟨hti, hlt, _⟩ := indexReports_some hidx
    obtain ⟨extra1, heq1, hno1⟩ := printReportsLoop_eq g r verbose g.TargetIndex.toNat t hti hidx
      g.Reports 0 (printed ++ [Printed.receivedBy g.RxSign t.Distance_km g.Time]) agg
    have hs : groupSamples r g = (g.Reports.eraseIdx g.TargetIndex.toNat).map
        (fun x => wrapInt8 (x.SnrNorm_dB r - t.SnrNorm_dB r)) := by
      simp only [groupSamples, hidx]
    have hagg : aggregateSamples r (g :: gs) = groupSamples r g ++ aggregateSamples r gs := by
      simp [aggregateSamples]
    rw [if_neg (Nat.not_lt_zero _), Nat.sub_zero, ← hs] at heq1
    rw [printGroupsLoop]
    simp only [hidx, heq1]
    by_cases hlen : g.Reports.length > 1
    · rw [if_pos hlen]
      obtain ⟨m, hm⟩ := groupMedianSnrNorm_dB_some g.Reports r (by omega)
      simp only [hm]
      obtain ⟨extra2, heq2, hno2⟩ := ih'
        (printed ++ [Printed.receivedBy g.RxSign t.Distance_km g.Time] ++ extra1 ++
          [Printed.groupStats (g.TargetIndex + 1) g.Reports.length (t.SnrNorm_dB r)
            (wrapInt8 (t.SnrNorm_dB r - m))])
        (agg ++ groupSamples r g)
      refine ⟨[Printed.receivedBy g.RxSign t.Distance_km g.Time] ++ extra1 ++
          [Printed.groupStats (g.TargetIndex + 1) g.Reports.length (t.SnrNorm_dB r)
            (wrapInt8 (t.SnrNorm_dB r - m))] ++ extra2, ?_, ?_⟩
      · rw [heq2, hagg]
        simp only [List.append_assoc]
      · intro p hp
        simp only [List.mem_append, List.mem_singleton] at hp
        rcases hp with ((rfl | hp) | rfl) | hp
        · rfl
        · exact hno1 p hp
        · rfl
        · exact hno2 p hp
    · rw [if_neg hlen]
      obtain ⟨extra2, heq2, hno2⟩ := ih'
        (printed ++ [Printed.receivedBy g.RxSign t.Distance_km g.Time] ++ extra1)
        (agg ++ groupSamples r g)
      refine ⟨[Printed.receivedBy g.RxSign t.Distance_km g.Time] ++ extra1 ++ extra2, ?_, ?_⟩
      · rw [heq2, hagg]
        simp only [List.append_assoc]
      · intro p hp
        simp only [List.mem_append, List.mem_singleton] at hp
        rcases hp with (rfl | hp) | hp
        · rfl
        · exact hno1 p hp
        · exact hno2 p hp

/-- A group with `TargetIndex` in range contributes one sample less than it has reports. -/
theorem groupSamples_length (r : Int) (g : ReceptionReportGroup)
    (h : ∃ t, indexReports g.Reports g.TargetIndex = some t) :
    (groupSamples r g).length = g.Reports.length - 1 := by
  obtain ⟨t, hidx⟩ := h
  obtain ⟨_, hlt, _⟩ := indexReports_some hidx
  simp only [groupSamples, hidx, List.length_map, List.length_eraseIdx, if_pos hlt]

/-- The size of the aggregate collection. -/
theorem aggregateSamples_length (r : Int) :
    ∀ gs : List ReceptionReportGroup,
      (∀ g ∈ gs, ∃ t, indexReports g.Reports g.TargetIndex = some t) →
      (aggregateSamples r gs).length = (gs.map (fun g => g.Reports.length - 1)).sum := by
  intro gs
  induction gs with
  | nil => intro _; rfl
  | cons g gs ih =>
    intro hwf
    have hagg : aggregateSamples r (g :: gs) = groupSamples r g ++ aggregateSamples r gs := by
      simp [aggregateSamples]
    rw [hagg, List.length_append, groupSamples_length r g (hwf g (List.mem_cons_self _ _)),
      ih (fun g' hg' => hwf g' (List.mem_cons_of_mem _ hg'))]
    simp

/-- A valid index does not panic. -/
theorem indexReports_of_inRange {g : ReceptionReportGroup} (h : TargetInRange g) :
    ∃ t, indexReports g.Reports g.TargetIndex = some t := by
  obtain ⟨h0, h1⟩ := h
  unfold indexReports
  rw [if_neg (by omega)]
  exact ⟨_, List.getElem?_eq_getElem (by omega)⟩

/-- An index expression that does not panic has a valid index. -/
theorem inRange_of_indexReports {g : ReceptionReportGroup} {t : ReceptionReport}
    (h : indexReports g.Reports g.TargetIndex = some t) : TargetInRange g := by
  obtain ⟨h1, h2, _⟩ := indexReports_some h
  exact ⟨by omega, by omega⟩

/-- What `PrintReportsAndStats` does on groups whose `TargetIndex` is in range:
the loops print `printed`, without any offset line, and collect the aggregate
samples; then the heading is printed, followed by the negated median and the
number of samples when there is more than one sample. -/
theorem printReportsAndStats_eq (gs : List ReceptionReportGroup) (c : String) (r : Int)
    (verbose : Bool) (hwf : ∀ g ∈ gs, TargetInRange g) :
    ∃ printed, printGroupsLoop r verbose gs [] [] = some (printed, aggregateSamples r gs) ∧
      (∀ p ∈ printed, p.isOffsetValue = false) ∧
      ((aggregateSamples r gs).length > 1 →
        ∃ s m, median (aggregateSamples r gs) false = Outcome.ret (s, m, none) ∧
          PrintReportsAndStats gs c r verbose
            = Outcome.ret (printed ++ [Printed.offsetHeading,
                Printed.offsetValue (-m) (aggregateSamples r gs).length])) ∧
      (¬ (aggregateSamples r gs).length > 1 →
        PrintReportsAndStats gs c r verbose = Outcome.ret (printed ++ [Printed.offsetHeading])) := by
  obtain ⟨printed, heq, hno⟩ := printGroupsLoop_eq r verbose gs
    (fun g hg => indexReports_of_inRange (hwf g hg)) [] []
  simp only [List.nil_append] at heq
  refine ⟨printed, heq, hno, ?_, ?_⟩
  · intro hlen
    have hne : aggregateSamples r gs ≠ [] := by
      intro h; rw [h] at hlen; simp at hlen
    refine ⟨_, _, median_eq_of_ne_nil hne false, ?_⟩
    unfold PrintReportsAndStats
    simp only [heq]
    rw [if_pos hlen, median_eq_of_ne_nil hne false]
    simp
  · intro hlen
    unfold PrintReportsAndStats
    simp only [heq]
    rw [if_neg hlen]

/-! ### The slices of the grouping loop -/

/-- The traced loop returns what the loop returns. -/
theorem processLoopTraced_fst (S : SlicesSort) (parse : String → Option GoTime)
    (c : String) (r : Int) :
    ∀ (fuel : Nat) (raw : List ReceptionReport) (i j : Nat) (acc : List ReceptionReportGroup)
      (slices : List (Nat × Nat)),
      (processLoopTraced S parse c r fuel raw i j acc slices).1
        = processLoop S parse c r fuel raw i j acc := by
  intro fuel
  induction fuel with
  | zero => intro raw i j acc slices; rfl
  | succ fuel ih =>
    intro raw i j acc slices
    rw [processLoopTraced, processLoop]
    by_cases hj : j ≤ raw.length
    · rw [if_pos hj, if_pos hj]
      generalize (if j = raw.length then some true
        else
          match raw[j]?, raw[i]? with
          | some rj, some ri =>
            some (decide (rj.TimeStr ≠ ri.TimeStr) || decide (rj.RxSign ≠ ri.RxSign))
          | _, _ => none) = b
      rcases b with _ | _ | _
      · rfl
      · exact ih _ _ _ _ _
      · dsimp only
        by_cases hij : i ≤ j
        · rw [if_pos hij, if_pos hij]
          rcases hn : newReceptionReportGroup parse
            (S.SortFunc (snrCmp r) (List.take (j - i) (List.drop i raw))) c with ⟨og, oe⟩
          rcases oe with _ | e
          · rcases og with _ | g
            · rfl
            · dsimp only
              by_cases hl : g.Reports.length = 0
              · rw [if_pos hl, if_pos hl]
              · rw [if_neg hl, if_neg hl]
                exact ih _ _ _ _ _
          · cases og <;> rfl
        · rw [if_neg hij, if_neg hij]
    · rw [if_neg hj, if_neg hj]

/-- The constructor on a non-empty slice, when it reports no error, returns a group that
holds the whole slice. -/
theorem newReceptionReportGroup_nonempty (parse : String → Option GoTime) (c : String)
    (reports : List ReceptionReport) (og : Option ReceptionReportGroup)
    (hne : reports ≠ []) (h : newReceptionReportGroup parse reports c = (og, none)) :
    ∃ g, og = some g ∧ g.Reports = reports := by
  cases reports with
  | nil => exact absurd rfl hne
  | cons first rest =>
    by_cases ht : HasTarget c (first :: rest)
    · rw [newReceptionReportGroup_of_hasTarget parse c first rest ht] at h
      simp only [Prod.mk.injEq, and_true] at h
      exact ⟨_, h.symm, rfl⟩
    · rw [newReceptionReportGroup_of_not_hasTarget parse c first rest ht] at h
      simp only [Prod.mk.injEq, reduceCtorEq, and_false] at h

/-- The error of the constructor is never the one of the nil/empty branch of the loop. -/
theorem newReceptionReportGroup_err (parse : String → Option GoTime) (c : String)
    (reports : List ReceptionReport) (og : Option ReceptionReportGroup) (e : Error)
    (h : newReceptionReportGroup parse reports c = (og, some e)) :
    e ≠ Error.emptyGroup := by
  cases reports with
  | nil => simp [newReceptionReportGroup] at h
  | cons first rest =>
    by_cases ht : HasTarget c (first :: rest)
    · rw [newReceptionReportGroup_of_hasTarget parse c first rest ht] at h
      simp only [Prod.mk.injEq, reduceCtorEq, and_false] at h
    · rw [newReceptionReportGroup_of_not_hasTarget parse c first rest ht] at h
      simp only [Prod.mk.injEq, Option.some.injEq] at h
      rw [← h.2]
      simp

/-- Built from non-empty runs, the groups never end in the nil/empty error. -/
theorem buildGroups_ne_emptyGroup (S : SlicesSort) (parse : String → Option GoTime)
    (c : String) (r : Int) :
    ∀ (rs : List (List ReceptionReport)) (acc gs : List ReceptionReportGroup) (e : Error),
      (∀ run ∈ rs, run ≠ []) →
      buildGroups S parse c r rs acc = (gs, some e) → e ≠ Error.emptyGroup := by
  intro rs
  induction rs with
  | nil => intro acc gs e _ h; simp [buildGroups] at h
  | cons run rs ih =>
    intro acc gs e hne h
    have hrun : S.SortFunc (snrCmp r) run ≠ [] := fun hs =>
      hne run (List.mem_cons_self _ _) ((sort_eq_nil_iff S r run).1 hs)
    rw [buildGroups] at h
    rcases hn : newReceptionReportGroup parse (S.SortFunc (snrCmp r) run) c with ⟨og, oe⟩
    rw [hn] at h
    rcases oe with _ | e'
    · obtain ⟨g, hg, hrep⟩ := newReceptionReportGroup_nonempty parse c _ og hrun hn
      subst hg
      have hl : ¬ g.Reports.length = 0 := by
        rw [hrep]; exact fun h0 => hrun (List.length_eq_zero.1 h0)
      simp only [if_neg hl] at h
      exact ih _ _ _ (fun x hx => hne x (List.mem_cons_of_mem _ hx)) h
    · have he := newReceptionReportGroup_err parse c _ og e' hn
      cases og <;> simp only [Prod.mk.injEq, Option.some.injEq] at h <;> rw [← h.2] <;> exact he

/-- Every slice expression that the loop reaches from a state with `i < j` has
`i < j ≤ len(rawRxReports)`; the length of the slice never changes. -/
theorem processLoopTraced_bounds (S : SlicesSort) (parse : String → Option GoTime)
    (c : String) (r : Int) (n : Nat) :
    ∀ (fuel : Nat) (raw : List ReceptionReport) (i j : Nat) (acc : List ReceptionReportGroup)
      (slices : List (Nat × Nat)),
      raw.length = n → i < j →
      ∀ p ∈ (processLoopTraced S parse c r fuel raw i j acc slices).2,
        p ∈ slices ∨ (p.1 < p.2 ∧ p.2 ≤ n) := by
  intro fuel
  induction fuel with
  | zero => intro raw i j acc slices _ _ p hp; exact Or.inl hp
  | succ fuel ih =>
    intro raw i j acc slices hlen hij p hp
    have hnew : ∀ q ∈ slices ++ [(i, j)], j ≤ raw.length →
        q ∈ slices ∨ (q.1 < q.2 ∧ q.2 ≤ n) := by
      intro q hq hj
      rcases List.mem_append.1 hq with hq | hq
      · exact Or.inl hq
      · rw [List.mem_singleton] at hq
        subst hq
        exact Or.inr ⟨hij, hlen ▸ hj⟩
    rw [processLoopTraced] at hp
    by_cases hj : j ≤ raw.length
    · rw [if_pos hj] at hp
      revert hp
      generalize (if j = raw.length then some true
        else
          match raw[j]?, raw[i]? with
          | some rj, some ri =>
            some (decide (rj.TimeStr ≠ ri.TimeStr) || decide (rj.RxSign ≠ ri.RxSign))
          | _, _ => none) = b
      intro hp
      rcases b with _ | _ | _
      · exact Or.inl hp
      · exact ih raw i (j + 1) acc slices hlen (by omega) p hp
      · dsimp only at hp
        rw [if_pos (le_of_lt hij)] at hp
        rcases hn : newReceptionReportGroup parse
          (S.SortFunc (snrCmp r) (List.take (j - i) (List.drop i raw))) c with ⟨og, oe⟩
        rw [hn] at hp
        rcases oe with _ | e
        · rcases og with _ | g
          · exact hnew p hp hj
          · dsimp only at hp
            by_cases hl : g.Reports.length = 0
            · rw [if_pos hl] at hp
              exact hnew p hp hj
            · rw [if_neg hl] at hp
              have hlen' : (List.take i raw
                  ++ S.SortFunc (snrCmp r) (List.take (j - i) (List.drop i raw))
                  ++ List.drop j raw).length = n := by
                have hp' := (S.perm (snrCmp r) (List.take (j - i) (List.drop i raw))).length_eq
                simp only [List.length_append, List.length_take, List.length_drop, hp']
                omega
              rcases ih _ j (j + 1) _ _ hlen' (by omega) p hp with h | h
              · exact hnew p h hj
              · exact Or.inr h
        · cases og <;> exact hnew p hp hj
    · rw [if_neg hj] at hp
      exact Or.inl hp

/-- The slices reached on the six reports of three runs: `[0:2]`, `[2:4]` and `[4:6]`. -/
theorem processRawRxReportsTraced_example :
    (processRawRxReportsTraced insertionSorter testParse multipleGroupsInput "W5XYZ" 43).2
      = [(0, 2), (2, 4), (4, 6)] := by
  decide

/-- On a single report that is not the target the only slice reached is `[0:1]`, and
the error returned is the one of the constructor. -/
theorem processRawRxReportsTraced_missing_example :
    processRawRxReportsTraced insertionSorter testParse targetMissingInput "W5XYZ" 43
      = (Outcome.ret ([], some (Error.targetNotFound "W5XYZ" "W5ABC" targetTime)), [(0, 1)]) := by
  decide

/-! ### The collected samples and the exact differences -/

/-- The samples of a group correspond one to one, in order, to the exact differences:
each sample is an `int8`, and equals the difference when it fits in `int8`. -/
theorem groupSamples_forall₂_spec (r : Int) (g : ReceptionReportGroup) :
    List.Forall₂ (fun s x => (-128 ≤ s ∧ s ≤ 127) ∧ (-128 ≤ x → x ≤ 127 → s = x))
      (groupSamples r g) (specGroupSamples r g) := by
  unfold groupSamples specGroupSamples
  cases indexReports g.Reports g.TargetIndex with
  | none => exact List.Forall₂.nil
  | some targetReport =>
    dsimp only
    rw [List.forall₂_map_left_iff, List.forall₂_map_right_iff, List.forall₂_same]
    intro report _
    exact ⟨wrapInt8_range _, fun h1 h2 => wrapInt8_of_range h1 h2⟩

/-- The aggregate collection corresponds one to one, in order, to the exact differences
of all groups. -/
theorem aggregateSamples_forall₂_spec (r : Int) (gs : List ReceptionReportGroup) :
    List.Forall₂ (fun s x => (-128 ≤ s ∧ s ≤ 127) ∧ (-128 ≤ x → x ≤ 127 → s = x))
      (aggregateSamples r gs) (specAggregateSamples r gs) := by
  unfold aggregateSamples specAggregateSamples
  induction gs with
  | nil => exact List.Forall₂.nil
  | cons g gs ih =>
    rw [List.flatMap_cons, List.flatMap_cons]
    exact List.rel_append (groupSamples_forall₂_spec r g) ih

/-- Two lists in correspondence are equal when every element of the second is in the
range where the correspondence is equality. -/
theorem eq_of_forall₂_inRange :
    ∀ (l₁ l₂ : List Int),
      List.Forall₂ (fun s x => (-128 ≤ s ∧ s ≤ 127) ∧ (-128 ≤ x → x ≤ 127 → s = x)) l₁ l₂ →
      (∀ x ∈ l₂, -128 ≤ x ∧ x ≤ 127) → l₁ = l₂ := by
  intro l₁ l₂ h
  induction h with
  | nil => intro _; rfl
  | cons hab _ ih =>
    intro hr
    rw [hab.2 (hr _ (List.mem_cons_self _ _)).1 (hr _ (List.mem_cons_self _ _)).2,
      ih (fun x hx => hr x (List.mem_cons_of_mem _ hx))]

/-! ## Grouping: `processRawRxReports` -/

/-- C1: when `processRawRxReports` succeeds, it returns as many groups as the
input has maximal contiguous runs sharing `(TimeStr, RxSign)`, and the k-th
group carries the `RxSign` common to the reports of the k-th run. -/
theorem processRawRxReports_groups_are_runs (S : SlicesSort) (parse : String → Option GoTime)
    (raw : List ReceptionReport) (c : String) (r : Int) (gs : List ReceptionReportGroup)
    (h : processRawRxReports S parse raw c r = Outcome.ret (gs, none)) :
    gs.length = (runs raw).length ∧
      ∀ (k : Nat) (run : List ReceptionReport), (runs raw)[k]? = some run →
        ∃ g, gs[k]? = some g ∧ run ≠ [] ∧ ∀ x ∈ run, x.RxSign = g.RxSign := by
  have hf := (processRawRxReports_ok_iff S parse raw c r gs).1 h
  refine ⟨hf.length_eq.symm, ?_⟩
  intro k run hk
  obtain ⟨g, hg, hrun⟩ := forall₂_getElem? hf k run hk
  have hmem : run ∈ runs raw := List.getElem?_mem hk
  obtain ⟨_, _, _, first, hfirst, hrx, _⟩ := groupOfRun_props hrun
  refine ⟨g, hg, runs_ne_nil hmem, ?_⟩
  intro x hx
  rw [hrx]
  exact (runs_sameKey hmem x hx first hfirst).2

/-- The six reports of `TestProcessRawRxReports_MultipleGroups` give three groups,
one per run. -/
theorem processRawRxReports_groups_are_runs_witness :
    processRawRxReports insertionSorter noParse multipleGroupsInput "W5XYZ" 43
        = Outcome.ret (multipleGroupsOutput, none) ∧
      multipleGroupsOutput.length = 3 ∧
      (multipleGroupsOutput.length = (runs multipleGroupsInput).length ∧
        ∀ (k : Nat) (run : List ReceptionReport), (runs multipleGroupsInput)[k]? = some run →
          ∃ g, multipleGroupsOutput[k]? = some g ∧ run ≠ [] ∧ ∀ x ∈ run, x.RxSign = g.RxSign) :=
  ⟨by decide, by decide,
    processRawRxReports_groups_are_runs insertionSorter noParse multipleGroupsInput "W5XYZ" 43
      multipleGroupsOutput (by decide)⟩

/-- C2: when `processRawRxReports` succeeds with reference power `r`, the reports
of every returned group are in non-increasing order of `SnrNorm_dB r`: any
earlier report has a normalised SNR at least that of any later one, and in
particular this holds at adjacent indices `i`, `i + 1`. -/
theorem processRawRxReports_sorted_by_snr (S : SlicesSort) (parse : String → Option GoTime)
    (raw : List ReceptionReport) (c : String) (r : Int) (gs : List ReceptionReportGroup)
    (h : processRawRxReports S parse raw c r = Outcome.ret (gs, none)) :
    ∀ g ∈ gs,
      g.Reports.Pairwise (fun a b => a.SnrNorm_dB r ≥ b.SnrNorm_dB r) ∧
      ∀ (i : Nat) (a b : ReceptionReport), g.Reports[i]? = some a → g.Reports[i + 1]? = some b →
        a.SnrNorm_dB r ≥ b.SnrNorm_dB r := by
  have hf := (processRawRxReports_ok_iff S parse raw c r gs).1 h
  intro g hg
  obtain ⟨run, _, hrun⟩ := forall₂_mem_right hf g hg
  have hp : g.Reports.Pairwise (fun a b => a.SnrNorm_dB r ≥ b.SnrNorm_dB r) := by
    rw [(groupOfRun_props hrun).1]; exact sort_pairwise S r run
  refine ⟨hp, ?_⟩
  intro i a b ha hb
  rw [List.pairwise_iff_getElem] at hp
  obtain ⟨hi, rfl⟩ := List.getElem?_eq_some.1 ha
  obtain ⟨hi', rfl⟩ := List.getElem?_eq_some.1 hb
  exact hp i (i + 1) hi hi' (Nat.lt_succ_self i)

/-- The three reports of `TestProcessRawRxReports_SortedBySnr` come back in the
order of their normalised SNRs 23, 18, -7. -/
theorem processRawRxReports_sorted_by_snr_witness :
    processRawRxReports insertionSorter noParse sortedBySnrInput "W5XYZ" 43
        = Outcome.ret (sortedBySnrOutput, none) ∧
      sortedBySnrOutput.map (fun g => g.Reports.map (fun x => x.SnrNorm_dB 43)) = [[23, 18, -7]] ∧
      ∃ g ∈ sortedBySnrOutput,
        g.Reports.Pairwise (fun a b => a.SnrNorm_dB 43 ≥ b.SnrNorm_dB 43) ∧
        ∀ (i : Nat) (a b : ReceptionReport), g.Reports[i]? = some a → g.Reports[i + 1]? = some b →
          a.SnrNorm_dB 43 ≥ b.SnrNorm_dB 43 :=
  ⟨by decide, by decide, _, List.mem_cons_self _ _,
    processRawRxReports_sorted_by_snr insertionSorter noParse sortedBySnrInput "W5XYZ" 43
      sortedBySnrOutput (by decide) _ (List.mem_cons_self _ _)⟩

/-- C3: `processRawRxReports` always returns (it neither panics nor runs out of
fuel); it returns an error exactly when some maximal `(TimeStr, RxSign)` run of
the input has no report whose `TxSign` is the target callsign; and whenever it
returns an error the returned slice is nil. -/
theorem processRawRxReports_error_iff (S : SlicesSort) (parse : String → Option GoTime)
    (raw : List ReceptionReport) (c : String) (r : Int) :
    (∃ gs err, processRawRxReports S parse raw c r = Outcome.ret (gs, err)) ∧
    ((∃ gs e, processRawRxReports S parse raw c r = Outcome.ret (gs, some e)) ↔
      ∃ run ∈ runs raw, ∀ x ∈ run, x.TxSign ≠ c) ∧
    (∀ gs e, processRawRxReports S parse raw c r = Outcome.ret (gs, some e) → gs = []) := by
  rw [processRawRxReports_eq]
  refine ⟨⟨_, _, rfl⟩, ?_, ?_⟩
  · have hnone := buildGroups_none_iff S parse c r (runs raw) []
    constructor
    · rintro ⟨gs, e, h⟩
      rw [Outcome.ret.injEq] at h
      have hne : ¬ ∀ run ∈ runs raw, HasTarget c run := by
        intro hall
        have := hnone.2 hall
        rw [h] at this
        simp at this
      simp only [HasTarget, not_forall, not_exists, not_and] at hne
      obtain ⟨run, hrun, hx⟩ := hne
      exact ⟨run, hrun, hx⟩
    · rintro ⟨run, hrun, hx⟩
      cases hb : buildGroups S parse c r (runs raw) [] with
      | mk gs oe =>
        cases oe with
        | some e => exact ⟨gs, e, rfl⟩
        | none =>
          obtain ⟨x, hxm, hxc⟩ := hnone.1 (by rw [hb]) run hrun
          exact absurd hxc (hx x hxm)
  · intro gs e h
    rw [Outcome.ret.injEq] at h
    exact buildGroups_err S parse c r _ _ _ _ h

/-- On the single report of another transmitter the error is returned with a
nil slice, and on the six-report input no error is returned. -/
theorem processRawRxReports_error_iff_witness :
    processRawRxReports insertionSorter noParse targetMissingInput "W5XYZ" 43
        = Outcome.ret ([], some (Error.targetNotFound "W5XYZ" "W5ABC" GoTime.zero)) ∧
      (∃ run ∈ runs targetMissingInput, ∀ x ∈ run, x.TxSign ≠ "W5XYZ") ∧
      ∀ gs e, processRawRxReports insertionSorter noParse targetMissingInput "W5XYZ" 43
        = Outcome.ret (gs, some e) → gs = [] :=
  ⟨by decide,
    (processRawRxReports_error_iff insertionSorter noParse targetMissingInput "W5XYZ" 43).2.1.1
      ⟨[], Error.targetNotFound "W5XYZ" "W5ABC" GoTime.zero, by decide⟩,
    (processRawRxReports_error_iff insertionSorter noParse targetMissingInput "W5XYZ" 43).2.2⟩

/-- C4: when `processRawRxReports` succeeds, every returned group has
`0 ≤ TargetIndex < len(Reports)` and `Reports[TargetIndex].TxSign` is the target
callsign. -/
theorem processRawRxReports_targetIndex_valid (S : SlicesSort) (parse : String → Option GoTime)
    (raw : List ReceptionReport) (c : String) (r : Int) (gs : List ReceptionReportGroup)
    (h : processRawRxReports S parse raw c r = Outcome.ret (gs, none)) :
    ∀ g ∈ gs, 0 ≤ g.TargetIndex ∧ g.TargetIndex < g.Reports.length ∧
      ∃ t, indexReports g.Reports g.TargetIndex = some t ∧ t.TxSign = c := by
  have hf := (processRawRxReports_ok_iff S parse raw c r gs).1 h
  intro g hg
  obtain ⟨run, _, hrun⟩ := forall₂_mem_right hf g hg
  obtain ⟨_, ht, hti, _⟩ := groupOfRun_props hrun
  have hlt := (targetPos_lt_iff c g.Reports).2 ht
  obtain ⟨t, hfind, _, htc⟩ := find?_target_some ht
  rw [hti]
  refine ⟨Int.natCast_nonneg _, by exact_mod_cast hlt, t, ?_, htc⟩
  rw [indexReports_targetPos, hfind]

/-- In the test with two groups both target indices are 0 and point at `W5XYZ`. -/
theorem processRawRxReports_targetIndex_valid_witness :
    processRawRxReports insertionSorter noParse twoGroupsInput "W5XYZ" 43
        = Outcome.ret (twoGroupsOutput, none) ∧
      twoGroupsOutput.map (fun g => g.TargetIndex) = [0, 0] ∧
      ∃ g ∈ twoGroupsOutput, 0 ≤ g.TargetIndex ∧ g.TargetIndex < g.Reports.length ∧
        ∃ t, indexReports g.Reports g.TargetIndex = some t ∧ t.TxSign = "W5XYZ" :=
  ⟨by decide, by decide, _, List.mem_cons_self _ _,
    processRawRxReports_targetIndex_valid insertionSorter noParse twoGroupsInput "W5XYZ" 43
      twoGroupsOutput (by decide) _ (List.mem_cons_self _ _)⟩

/-- C5: when `processRawRxReports` succeeds, the reports of the k-th returned
group are a permutation of the k-th maximal `(TimeStr, RxSign)` run of the
input; every report of a group has the group's `RxSign`; all reports of a group
share one `TimeStr`; and the concatenation of the groups' reports is a
permutation of the input. -/
theorem processRawRxReports_perm (S : SlicesSort) (parse : String → Option GoTime)
    (raw : List ReceptionReport) (c : String) (r : Int) (gs : List ReceptionReportGroup)
    (h : processRawRxReports S parse raw c r = Outcome.ret (gs, none)) :
    gs.length = (runs raw).length ∧
    (∀ (k : Nat) (run : List ReceptionReport), (runs raw)[k]? = some run →
      ∃ g, gs[k]? = some g ∧ g.Reports.Perm run) ∧
    (∀ g ∈ gs, ∀ x ∈ g.Reports, x.RxSign = g.RxSign) ∧
    (∀ g ∈ gs, ∀ x ∈ g.Reports, ∀ y ∈ g.Reports, x.TimeStr = y.TimeStr) ∧
    (gs.map (fun g => g.Reports)).flatten.Perm raw := by
  have hf := (processRawRxReports_ok_iff S parse raw c r gs).1 h
  have hperm : ∀ run g, GroupOfRun S parse c r run g → g.Reports.Perm run := by
    intro run g hg
    rw [(groupOfRun_props hg).1]
    exact S.perm _ run
  refine ⟨hf.length_eq.symm, ?_, ?_, ?_, ?_⟩
  · intro k run hk
    obtain ⟨g, hg, hrun⟩ := forall₂_getElem? hf k run hk
    exact ⟨g, hg, hperm run g hrun⟩
  · intro g hg x hx
    obtain ⟨run, hmem, hrun⟩ := forall₂_mem_right hf g hg
    obtain ⟨_, _, _, first, hfirst, hrx, _⟩ := groupOfRun_props hrun
    rw [hrx]
    exact (runs_sameKey hmem x ((hperm run g hrun).mem_iff.1 hx) first hfirst).2
  · intro g hg x hx y hy
    obtain ⟨run, hmem, hrun⟩ := forall₂_mem_right hf g hg
    exact (runs_sameKey hmem x ((hperm run g hrun).mem_iff.1 hx) y
      ((hperm run g hrun).mem_iff.1 hy)).1
  · have := flatten_perm_of_forall₂ (hf.imp hperm)
    rwa [runs_flatten] at this

/-- In the test with a single run of three reports the group holds the same
three reports. -/
theorem processRawRxReports_perm_witness :
    processRawRxReports insertionSorter noParse singleGroupInput "W5XYZ" 43
        = Outcome.ret (singleGroupOutput, none) ∧
      (singleGroupOutput.length = (runs singleGroupInput).length ∧
      (∀ (k : Nat) (run : List ReceptionReport), (runs singleGroupInput)[k]? = some run →
        ∃ g, singleGroupOutput[k]? = some g ∧ g.Reports.Perm run) ∧
      (∀ g ∈ singleGroupOutput, ∀ x ∈ g.Reports, x.RxSign = g.RxSign) ∧
      (∀ g ∈ singleGroupOutput, ∀ x ∈ g.Reports, ∀ y ∈ g.Reports, x.TimeStr = y.TimeStr) ∧
      (singleGroupOutput.map (fun g => g.Reports)).flatten.Perm singleGroupInput) :=
  ⟨by decide,
    processRawRxReports_perm insertionSorter noParse singleGroupInput "W5XYZ" 43
      singleGroupOutput (by decide)⟩

/-! ## Distance filter: `filterRxReports` -/

/-- C6: at a target distance of 60000 km the window computed by `filterRxReports`
is `[45000, 9464]`: the group of `overflowInput` loses both of its reports and
is dropped, although both lie in `floor(0.75 D) ≤ d ≤ max(floor(1.25 D), 50)`. -/
theorem filterRxReports_window_overflow :
    filterRxReports noParse overflowInput "W5XYZ" = Outcome.ret ([], none) ∧
      overflowInput.map keptReports = [[]] ∧
      overflowInput.map (fun g => g.Reports.filter
        (fun x => decide (FloorWindow 60000 x.Distance_km)))
        = [[distReport "W5XYZ" 60000, distReport "N0OTH" 60000]] := by
  decide

/-- C7 as stated fails on two inputs whose `TargetIndex` points at the target.
With the target at 101 km a report at 75 km is kept, and `75 < 0.75 * 101`.
With two reports of the target callsign and `TargetIndex` at the second
(200 km), the returned group's target is the first (160 km) and the kept
report at 250 km is beyond `max(floor(1.25 * 160), 50) = 200`. -/
theorem filterRxReports_exact_window_counterexample :
    ((∀ g ∈ floorInput, PointsAtTarget "W5XYZ" g) ∧
      filterRxReports noParse floorInput "W5XYZ"
        = Outcome.ret ([rebuiltGroup 0 [distReport "W5XYZ" 101, distReport "N0OTH" 75]], none) ∧
      indexReports [distReport "W5XYZ" 101, distReport "N0OTH" 75] 0
        = some (distReport "W5XYZ" 101) ∧
      ¬ ExactWindow (distReport "W5XYZ" 101).Distance_km (distReport "N0OTH" 75).Distance_km) ∧
    ((∀ g ∈ duplicateTargetInput, PointsAtTarget "W5XYZ" g) ∧
      filterRxReports noParse duplicateTargetInput "W5XYZ"
        = Outcome.ret ([rebuiltGroup 0
            [distReport "W5XYZ" 160, distReport "W5XYZ" 200, distReport "N0OTH" 250]], none) ∧
      indexReports [distReport "W5XYZ" 160, distReport "W5XYZ" 200, distReport "N0OTH" 250] 0
        = some (distReport "W5XYZ" 160) ∧
      ¬ FloorWindow (distReport "W5XYZ" 160).Distance_km (distReport "N0OTH" 250).Distance_km) := by
  decide

/-- C7, amended: if in every input group `TargetIndex` is the smallest index of
a report of the target callsign and the distances are `uint16` values, then on
success every returned group has its target report `t` at `TargetIndex`, and
every report of the group has a distance `d` with
`floor(0.75 D) ≤ d ≤ max(floor(1.25 D), 50)`, `D` being the distance of `t`. -/
theorem filterRxReports_floor_window (parse : String → Option GoTime)
    (gs : List ReceptionReportGroup) (c : String) (out : List ReceptionReportGroup)
    (hwf : ∀ g ∈ gs, TargetFirst c g ∧ ∀ x ∈ g.Reports, x.Distance_km < 65536)
    (h : filterRxReports parse gs c = Outcome.ret (out, none)) :
    ∀ g' ∈ out, ∃ t, indexReports g'.Reports g'.TargetIndex = some t ∧ t.TxSign = c ∧
      ∀ x ∈ g'.Reports, FloorWindow t.Distance_km x.Distance_km := by
  obtain ⟨_, hout⟩ := (filterRxReports_ok_iff parse c gs out).1 h
  intro g' hg'
  rw [hout] at hg'
  obtain ⟨g, hg, hreb⟩ := mem_filterMap_rebuild hg'
  obtain ⟨⟨htgt, hti⟩, hrange⟩ := hwf g hg
  obtain ⟨_, _, first, rest, hkept, rfl⟩ := rebuild_some hreb
  obtain ⟨t, hfind, htmem, htc⟩ := find?_target_some htgt
  have hidx : indexReports g.Reports g.TargetIndex = some t := by
    rw [hti, indexReports_targetPos, hfind]
  have hk : keptReports g = filteredListForGroup t.Distance_km g.Reports := by
    simp [keptReports, hidx]
  have hfirst : first ∈ filteredListForGroup t.Distance_km g.Reports := by
    rw [← hk, hkept]; exact List.mem_cons_self _ _
  have hD : t.Distance_km ≤ 52428 :=
    window_nonempty (hrange t htmem) (mem_filteredListForGroup.1 hfirst).2
  have htin := target_in_window hD
  have hfind' : (first :: rest).find? (fun report => decide (report.TxSign = c)) = some t := by
    rw [← hkept, hk]
    unfold filteredListForGroup
    exact find?_filter_first hfind (by simp [htin.1, htin.2])
  refine ⟨t, ?_, htc, ?_⟩
  · simp only
    rw [indexReports_targetPos, hfind']
  · intro x hx
    simp only at hx
    rw [← hkept, hk, filteredListForGroup_eq_floor hD] at hx
    simpa using (List.mem_filter.1 hx).2

/-- On the input of `TestFilterRxReports_DistanceRangeCalculation` (target at
100 km, others at 75 km and 125 km) all three reports are kept. -/
theorem filterRxReports_floor_window_witness :
    (∀ g ∈ distanceRangeInput,
        TargetFirst "W5XYZ" g ∧ ∀ x ∈ g.Reports, x.Distance_km < 65536) ∧
      filterRxReports noParse distanceRangeInput "W5XYZ"
        = Outcome.ret (distanceRangeOutput, none) ∧
      distanceRangeOutput.map (fun g => g.Reports.map (fun x => x.Distance_km))
        = [[100, 75, 125]] ∧
      ∃ g' ∈ distanceRangeOutput, ∃ t,
        indexReports g'.Reports g'.TargetIndex = some t ∧ t.TxSign = "W5XYZ" ∧
          ∀ x ∈ g'.Reports, FloorWindow t.Distance_km x.Distance_km :=
  ⟨by decide, by decide, by decide, _, List.mem_cons_self _ _,
    filterRxReports_floor_window noParse distanceRangeInput "W5XYZ" distanceRangeOutput
      (by decide) (by decide) _ (List.mem_cons_self _ _)⟩

/-- C8: at the `uint16` target distance 60000 the upper bound computed by
`filterRxReports` is 9464, so the target's own report is outside the window and
the filter removes it. -/
theorem target_outside_window_overflow :
    distanceMin_km 60000 = 45000 ∧ distanceMax_km 60000 = 9464 ∧
      ¬ (distanceMin_km 60000 ≤ 60000 ∧ 60000 ≤ distanceMax_km 60000) ∧
      overflowTargetInput.map keptReports = [[]] ∧
      filterRxReports noParse overflowTargetInput "W5XYZ" = Outcome.ret ([], none) := by
  decide

/-- C9: when `filterRxReports` succeeds, every returned group has at least two
reports; the returned groups are, in order, those of the input groups with at
least two reports inside their distance window, each holding exactly these
reports; and every group with fewer than two such reports was dropped without
its reconstruction reporting an error. -/
theorem filterRxReports_drops_small_groups (parse : String → Option GoTime)
    (gs : List ReceptionReportGroup) (c : String) (out : List ReceptionReportGroup)
    (h : filterRxReports parse gs c = Outcome.ret (out, none)) :
    (∀ g' ∈ out, 2 ≤ g'.Reports.length) ∧
    out.map (fun g => g.Reports)
      = (gs.map keptReports).filter (fun l => decide (2 ≤ l.length)) ∧
    (∀ g ∈ gs, (keptReports g).length < 2 →
      (newReceptionReportGroup parse (keptReports g) c).2 = none ∧ rebuild parse c g = none) := by
  obtain ⟨hall, hout⟩ := (filterRxReports_ok_iff parse c gs out).1 h
  refine ⟨?_, ?_, ?_⟩
  · intro g' hg'
    rw [hout] at hg'
    obtain ⟨g, _, hreb⟩ := mem_filterMap_rebuild hg'
    obtain ⟨_, hlen, first, rest, hkept, rfl⟩ := rebuild_some hreb
    rw [hkept] at hlen
    exact hlen
  · rw [hout]
    exact filterMap_rebuild_reports parse c gs (fun g hg => (hall g hg).2)
  · intro g hg hlen
    refine ⟨(hall g hg).2, ?_⟩
    cases hr : rebuild parse c g with
    | none => rfl
    | some ng =>
      have := (rebuild_some hr).2.1
      omega

/-- With the target at 200 km and one other transmitter at 500 km the group is
dropped: no group and no error. -/
theorem filterRxReports_drops_small_groups_witness :
    filterRxReports noParse outsideRangeInput "W5XYZ" = Outcome.ret ([], none) ∧
      outsideRangeInput.map keptReports = [[distReport "W5XYZ" 200]] ∧
      ((∀ g' ∈ ([] : List ReceptionReportGroup), 2 ≤ g'.Reports.length) ∧
      ([] : List ReceptionReportGroup).map (fun g => g.Reports)
        = (outsideRangeInput.map keptReports).filter (fun l => decide (2 ≤ l.length)) ∧
      (∀ g ∈ outsideRangeInput, (keptReports g).length < 2 →
        (newReceptionReportGroup noParse (keptReports g) "W5XYZ").2 = none ∧
          rebuild noParse "W5XYZ" g = none)) :=
  ⟨by decide, by decide,
    filterRxReports_drops_small_groups noParse outsideRangeInput "W5XYZ" [] (by decide)⟩

/-- C10 as stated fails on the input of the case "within distance range" of
`TestFilterRxReports`: the group of receiver `W5ABC` at `targetTime` comes back
with the empty `RxSign` and the zero time of its first report. -/
theorem filterRxReports_key_counterexample :
    filterRxReports noParse withinRangeInput "W5XYZ"
        = Outcome.ret ([rebuiltGroup 0
            [distReport "W5XYZ" 200, distReport "N0OTH" 225, distReport "G3ABC" 150]], none) ∧
      withinRangeInput.map groupKey = [("W5ABC", targetTime)] ∧
      [rebuiltGroup 0 [distReport "W5XYZ" 200, distReport "N0OTH" 225,
          distReport "G3ABC" 150]].map groupKey = [("", GoTime.zero)] ∧
      ¬ ([rebuiltGroup 0 [distReport "W5XYZ" 200, distReport "N0OTH" 225,
          distReport "G3ABC" 150]].map groupKey).Sublist (withinRangeInput.map groupKey) := by
  decide

/-- C10, amended: if every report of every input group carries the group's
`RxSign` and parses to the group's `Time`, then on success the sequence of
`(RxSign, Time)` of the returned groups is a subsequence of that of the input
groups, and the output has no more groups than the input. -/
theorem filterRxReports_keys_sublist (parse : String → Option GoTime)
    (gs : List ReceptionReportGroup) (c : String) (out : List ReceptionReportGroup)
    (hco : ∀ g ∈ gs, Coherent parse g)
    (h : filterRxReports parse gs c = Outcome.ret (out, none)) :
    (out.map groupKey).Sublist (gs.map groupKey) ∧ out.length ≤ gs.length := by
  obtain ⟨_, hout⟩ := (filterRxReports_ok_iff parse c gs out).1 h
  have hsub : (out.map groupKey).Sublist (gs.map groupKey) := by
    rw [hout]
    apply sublist_filterMap_key
    intro g hg ng hreb
    obtain ⟨_, _, first, rest, hkept, rfl⟩ := rebuild_some hreb
    have hmem : first ∈ g.Reports := by
      have : first ∈ keptReports g := hkept ▸ List.mem_cons_self _ _
      unfold keptReports at this
      split at this
      · exact (mem_filteredListForGroup.1 this).1
      · cases this
    obtain ⟨hrx, htime⟩ := hco g hg first hmem
    simp only [groupKey, hrx, htime]
  refine ⟨hsub, ?_⟩
  simpa using hsub.length_le

/-- Of two groups of the same receiver and time the second, left with the
target alone, is dropped and the first keeps its receiver and timestamp. -/
theorem filterRxReports_keys_sublist_witness :
    (∀ g ∈ coherentInput, Coherent testParse g) ∧
      filterRxReports testParse coherentInput "W5XYZ" = Outcome.ret (coherentOutput, none) ∧
      coherentOutput.map groupKey = [("W5ABC", targetTime)] ∧
      ((coherentOutput.map groupKey).Sublist (coherentInput.map groupKey) ∧
        coherentOutput.length ≤ coherentInput.length) :=
  ⟨by decide, by decide, by decide,
    filterRxReports_keys_sublist testParse coherentInput "W5XYZ" coherentOutput
      (by decide) (by decide)⟩

/-! ## The pipeline -/

/-- C11: on the groups returned by a successful `processRawRxReports` call with
target callsign `c` (the distances being `uint16` values), `filterRxReports`
with the same `c` returns without an error, and every group it returns has
`0 ≤ TargetIndex < len(Reports)` with `Reports[TargetIndex].TxSign = c`. -/
theorem filterRxReports_after_process (S : SlicesSort) (parse : String → Option GoTime)
    (raw : List ReceptionReport) (c : String) (r : Int) (gs : List ReceptionReportGroup)
    (hrange : ∀ x ∈ raw, x.Distance_km < 65536)
    (h : processRawRxReports S parse raw c r = Outcome.ret (gs, none)) :
    ∃ out, filterRxReports parse gs c = Outcome.ret (out, none) ∧
      ∀ g' ∈ out, 0 ≤ g'.TargetIndex ∧ g'.TargetIndex < g'.Reports.length ∧
        ∃ t, indexReports g'.Reports g'.TargetIndex = some t ∧ t.TxSign = c := by
  have hwf := processed_group_wf h
  refine ⟨gs.filterMap (rebuild parse c), ?_, ?_⟩
  · rw [filterRxReports_ok_iff]
    refine ⟨?_, rfl⟩
    intro g hg
    exact filter_step_ok parse c g (hwf g hg).1
      (fun x hx => hrange x ((hwf g hg).2 x hx))
  · intro g' hg'
    obtain ⟨g, _, hreb⟩ := mem_filterMap_rebuild hg'
    exact rebuild_targetIndex hreb

/-- Three reports of one receiver and time, at 200, 225 and 150 km, are grouped
and then all kept by the filter. -/
theorem filterRxReports_after_process_witness :
    (∀ x ∈ pipelineInput, x.Distance_km < 65536) ∧
      processRawRxReports insertionSorter testParse pipelineInput "W5XYZ" 43
        = Outcome.ret (coherentOutput, none) ∧
      filterRxReports testParse coherentOutput "W5XYZ" = Outcome.ret (coherentOutput, none) ∧
      ∃ out, filterRxReports testParse coherentOutput "W5XYZ" = Outcome.ret (out, none) ∧
        ∀ g' ∈ out, 0 ≤ g'.TargetIndex ∧ g'.TargetIndex < g'.Reports.length ∧
          ∃ t, indexReports g'.Reports g'.TargetIndex = some t ∧ t.TxSign = "W5XYZ" :=
  ⟨by decide, by decide, by decide,
    filterRxReports_after_process insertionSorter testParse pipelineInput "W5XYZ" 43
      coherentOutput (by decide) (by decide)⟩

/-! ## The median -/

/-- C12 as stated fails for integers that a `float64` does not represent: the
median of the one-element slice `[2^53 + 1]` is returned as `2^53`. -/
theorem median_standard_counterexample :
    median [9007199254740993] false
        = Outcome.ret ([9007199254740993], 9007199254740992, none) ∧
      standardMedian [9007199254740993] = 9007199254740993 ∧
      (9007199254740992 : ℚ) ≠ standardMedian [9007199254740993] := by
  have h1 : float64OfInt 9007199254740993 = 9007199254740992 := by decide
  have h2 : standardMedian [9007199254740993] = 9007199254740993 := by
    simp [standardMedian]
  refine ⟨?_, h2, ?_⟩
  · rw [median_eq_of_ne_nil (by decide)]
    have hs : slicesSort [9007199254740993] = [9007199254740993] := by decide
    simp only [Bool.false_eq_true, if_false, hs]
    simp [medianOfSorted, h1]
  · rw [h2]; norm_num

/-- C12, amended: for every non-empty list `xs` of integers of magnitude at most
`2^52` (every value of an 8, 16 or 32-bit integer type), `median(xs, false)`
returns the standard median of `xs` with no error: with `s` the ascending
rearrangement of `xs` and `n` its length, `s[n/2]` when `n` is odd and the exact
average `(s[n/2-1] + s[n/2]) / 2` when `n` is even. -/
theorem median_standard (xs s : List Int) (hne : xs ≠ [])
    (hb : ∀ x ∈ xs, x.natAbs ≤ 2 ^ 52)
    (hp : s.Perm xs) (hs : s.Sorted (fun a b => a ≤ b)) :
    median xs false = Outcome.ret (s, standardMedian s, none) :=
  median_unsorted_eq hne hb hp hs

/-- The medians of `[3,1,4,1,5]`, `[5,2,8,1,9]` and `[10,20]` are 3, 5 and 15. -/
theorem median_standard_witness :
    ([3, 1, 4, 1, 5] : List Int) ≠ [] ∧
      (∀ x ∈ ([3, 1, 4, 1, 5] : List Int), x.natAbs ≤ 2 ^ 52) ∧
      ([1, 1, 3, 4, 5] : List Int).Perm [3, 1, 4, 1, 5] ∧
      ([1, 1, 3, 4, 5] : List Int).Sorted (fun a b => a ≤ b) ∧
      median [3, 1, 4, 1, 5] false
        = Outcome.ret ([1, 1, 3, 4, 5], standardMedian [1, 1, 3, 4, 5], none) ∧
      standardMedian [1, 1, 3, 4, 5] = 3 ∧
      standardMedian [1, 2, 5, 8, 9] = 5 ∧
      standardMedian [10, 20] = 15 :=
  ⟨by decide, by decide, by decide, by decide,
    median_standard [3, 1, 4, 1, 5] [1, 1, 3, 4, 5] (by decide) (by decide) (by decide)
      (by decide),
    by simp [standardMedian], by simp [standardMedian],
    by simp [standardMedian]; norm_num⟩

/-- C13: `median(xs, preSorted)` returns an error if and only if `xs` is empty;
for every non-empty `xs` it returns a value and no error. It never panics. -/
theorem median_error_iff (xs : List Int) (preSorted : Bool) :
    ((∃ s m e, median xs preSorted = Outcome.ret (s, m, some e)) ↔ xs = []) ∧
    (xs ≠ [] → ∃ s m, median xs preSorted = Outcome.ret (s, m, none)) := by
  constructor
  · constructor
    · rintro ⟨s, m, e, h⟩
      by_contra hne
      rw [median_eq_of_ne_nil hne] at h
      simp at h
    · rintro rfl
      exact ⟨[], 0, Error.emptyMedian, median_nil preSorted⟩
  · intro hne
    exact ⟨_, _, median_eq_of_ne_nil hne preSorted⟩

/-- The empty slice gives the error, with either flag, and `[42]` gives 42. -/
theorem median_error_iff_witness :
    median [] true = Outcome.ret ([], 0, some Error.emptyMedian) ∧
      median [] false = Outcome.ret ([], 0, some Error.emptyMedian) ∧
      ∃ s m, median [42] true = Outcome.ret (s, m, none) :=
  ⟨median_nil true, median_nil false, (median_error_iff [42] true).2 (by decide)⟩

/-- C14: for every non-empty list of integers that is already in ascending
order, `median(xs, true)` and `median(xs, false)` return the same value, and
leave the same slice behind. -/
theorem median_preSorted_eq (xs : List Int) (hne : xs ≠ [])
    (hs : xs.Sorted (fun a b => a ≤ b)) :
    median xs true = median xs false := by
  rw [median_eq_of_ne_nil hne, median_eq_of_ne_nil hne]
  simp only [if_true, Bool.false_eq_true, if_false, slicesSort_of_sorted hs]

/-- On `[1,2,3,4]` both calls return 2.5. -/
theorem median_preSorted_eq_witness :
    ([1, 2, 3, 4] : List Int) ≠ [] ∧ ([1, 2, 3, 4] : List Int).Sorted (fun a b => a ≤ b) ∧
      median [1, 2, 3, 4] true = Outcome.ret ([1, 2, 3, 4], 5 / 2, none) ∧
      median [1, 2, 3, 4] true = median [1, 2, 3, 4] false := by
  refine ⟨by decide, by decide, ?_,
    median_preSorted_eq [1, 2, 3, 4] (by decide) (by decide)⟩
  rw [median_eq_of_ne_nil (by decide)]
  have h2 : float64OfInt 2 = 2 := by decide
  have h3 : float64OfInt 3 = 3 := by decide
  have h5 : float64Add 2 3 = 5 := by decide
  simp [medianOfSorted, h2, h3, h5]

/-- C15: after `median(xs, false)` the caller's slice holds an ascending
rearrangement of its original contents, and after `median(xs, true)` the
caller's slice is unchanged. -/
theorem median_slice_effect (xs : List Int) :
    (∃ s m e, median xs false = Outcome.ret (s, m, e) ∧ s.Perm xs ∧
      s.Sorted (fun a b => a ≤ b)) ∧
    (∃ m e, median xs true = Outcome.ret (xs, m, e)) := by
  by_cases hne : xs = []
  · subst hne
    exact ⟨⟨[], 0, some Error.emptyMedian, median_nil false, List.Perm.refl _,
      List.sorted_nil⟩, 0, some Error.emptyMedian, median_nil true⟩
  · refine ⟨⟨slicesSort xs, medianOfSorted (slicesSort xs), none, ?_, slicesSort_perm xs,
      slicesSort_sorted xs⟩, medianOfSorted xs, none, ?_⟩
    · rw [median_eq_of_ne_nil hne]; rfl
    · rw [median_eq_of_ne_nil hne]; rfl

/-- The slice `[5,2,8,1,9]` is left as `[1,2,5,8,9]` by `median(·, false)`. -/
theorem median_slice_effect_witness :
    slicesSort [5, 2, 8, 1, 9] = [1, 2, 5, 8, 9] ∧
      (∃ s m e, median [5, 2, 8, 1, 9] false = Outcome.ret (s, m, e) ∧
        s.Perm [5, 2, 8, 1, 9] ∧ s.Sorted (fun a b => a ≤ b)) ∧
      (∃ m e, median [5, 2, 8, 1, 9] true = Outcome.ret ([5, 2, 8, 1, 9], m, e)) :=
  ⟨by decide, median_slice_effect [5, 2, 8, 1, 9]⟩

/-! ## Normalised SNR -/

/-- C16: for a report with measured SNR `s` and power `p` and a reference power
`r`, `SnrNorm_dB` returns `s + r - p` reduced modulo 256 into `[-128, 127]`
(two's-complement wrap): the result lies in that range, differs from
`s + r - p` by a multiple of 256, and equals `s + r - p` whenever this lies in
the range. -/
theorem snrNorm_dB_wraps (report : ReceptionReport) (r : Int) :
    report.SnrNorm_dB r = wrapInt8 (report.Snr_dB + r - report.Power_dBm) ∧
    -128 ≤ report.SnrNorm_dB r ∧ report.SnrNorm_dB r ≤ 127 ∧
    (report.SnrNorm_dB r - (report.Snr_dB + r - report.Power_dBm)) % 256 = 0 ∧
    (-128 ≤ report.Snr_dB + r - report.Power_dBm ∧ report.Snr_dB + r - report.Power_dBm ≤ 127 →
      report.SnrNorm_dB r = report.Snr_dB + r - report.Power_dBm) := by
  rw [snrNorm_dB_eq]
  exact ⟨rfl, (wrapInt8_range _).1, (wrapInt8_range _).2, wrapInt8_congr _,
    fun h => wrapInt8_of_range h.1 h.2⟩

/-- The values of the tests, 23 and 5, and a sum of 200 that wraps to -56. -/
theorem snrNorm_dB_wraps_witness :
    (rawReport "" "" "" 10 (-10)).SnrNorm_dB 43 = 23 ∧
      (rawReport "" "" "" (-5) (-20)).SnrNorm_dB 20 = 5 ∧
      (rawReport "" "" "" 0 100).SnrNorm_dB 100 = -56 ∧
      (rawReport "" "" "" 10 (-10)).SnrNorm_dB 43
        = (rawReport "" "" "" 10 (-10)).Snr_dB + 43 - (rawReport "" "" "" 10 (-10)).Power_dBm :=
  ⟨by decide, by decide, by decide,
    (snrNorm_dB_wraps (rawReport "" "" "" 10 (-10)) 43).2.2.2.2 (by decide)⟩

/-! ## The band table -/

/-- C17: `BandNameToCode` returns the codes of the fixed table for its 17 names,
with no error, and returns an error for every other string. -/
theorem bandNameToCode_table :
    BandNameToCode "lf" = (-1, none) ∧ BandNameToCode "mf" = (0, none) ∧
    BandNameToCode "160m" = (1, none) ∧ BandNameToCode "80m" = (3, none) ∧
    BandNameToCode "60m" = (5, none) ∧ BandNameToCode "40m" = (7, none) ∧
    BandNameToCode "30m" = (10, none) ∧ BandNameToCode "20m" = (14, none) ∧
    BandNameToCode "17m" = (18, none) ∧ BandNameToCode "15m" = (21, none) ∧
    BandNameToCode "12m" = (24, none) ∧ BandNameToCode "10m" = (28, none) ∧
    BandNameToCode "6m" = (50, none) ∧ BandNameToCode "4m" = (70, none) ∧
    BandNameToCode "2m" = (144, none) ∧ BandNameToCode "70cm" = (432, none) ∧
    BandNameToCode "23cm" = (1296, none) ∧
    (∀ s : String,
      s ∉ ["lf", "mf", "160m", "80m", "60m", "40m", "30m", "20m", "17m", "15m", "12m", "10m",
        "6m", "4m", "2m", "70cm", "23cm"] →
      BandNameToCode s = (0, some (BandError.unrecognisedBandName s))) := by
  repeat' apply And.intro
  any_goals decide
  intro s hs
  exact BandNameToCode_of_not_mem hs

/-- The strings "unknown", "invalid" and the empty string are rejected. -/
theorem bandNameToCode_table_witness :
    BandNameToCode "unknown" = (0, some (BandError.unrecognisedBandName "unknown")) ∧
      BandNameToCode "invalid" = (0, some (BandError.unrecognisedBandName "invalid")) ∧
      BandNameToCode "" = (0, some (BandError.unrecognisedBandName "")) :=
  ⟨bandNameToCode_table.2.2.2.2.2.2.2.2.2.2.2.2.2.2.2.2.2 "unknown" (by decide),
    bandNameToCode_table.2.2.2.2.2.2.2.2.2.2.2.2.2.2.2.2.2 "invalid" (by decide),
    bandNameToCode_table.2.2.2.2.2.2.2.2.2.2.2.2.2.2.2.2.2 "" (by decide)⟩

/-- C18: `BandNameToCode` looks the name up as it is written: "2M", the
upper-cased "2m", is rejected, and so is the upper-cased form of every name of
the table, while `TestBandNamesCaseInsensitivity` expects 144 and no error. -/
theorem bandNameToCode_upper_rejected :
    upperCased "2m" = "2M" ∧ BandNameToCode "2m" = (144, none) ∧
      BandNameToCode "2M" = (0, some (BandError.unrecognisedBandName "2M")) ∧
      ∀ n ∈ bandNameList, (BandNameToCode (upperCased n)).2 ≠ none := by
  decide

/-- C19: whatever the order of the visit of the map, `BandNames()` has no
duplicates, contains each of the 17 names of the table, and contains a string
if and only if `BandNameToCode` succeeds on it. -/
theorem bandNames_exact (range : MapRange) :
    (BandNames range).Nodup ∧
    (∀ n ∈ ["lf", "mf", "160m", "80m", "60m", "40m", "30m", "20m", "17m", "15m", "12m", "10m",
        "6m", "4m", "2m", "70cm", "23cm"], n ∈ BandNames range) ∧
    (∀ s : String, s ∈ BandNames range ↔ (BandNameToCode s).2 = none) := by
  have hperm : (BandNames range).Perm bandNameList := by
    rw [← bandNameToCode_keys]
    exact (range.perm bandNameToCode).map _
  refine ⟨hperm.nodup_iff.2 (by decide), ?_, ?_⟩
  · intro n hn
    exact hperm.mem_iff.2 hn
  · intro s
    rw [hperm.mem_iff, BandNameToCode_ok_iff]

/-- Visited in the order of the literal or in the reverse order, the names are
the same 17. -/
theorem bandNames_exact_witness :
    BandNames literalRange = bandNameList ∧ BandNames reverseRange = bandNameList.reverse ∧
      (BandNames reverseRange).length = 17 ∧
      ((BandNames reverseRange).Nodup ∧
      (∀ n ∈ ["lf", "mf", "160m", "80m", "60m", "40m", "30m", "20m", "17m", "15m", "12m",
          "10m", "6m", "4m", "2m", "70cm", "23cm"], n ∈ BandNames reverseRange) ∧
      (∀ s : String, s ∈ BandNames reverseRange ↔ (BandNameToCode s).2 = none)) :=
  ⟨by decide, by decide, by decide, bandNames_exact reverseRange⟩

/-! ## Statistics: `PrintReportsAndStats` -/

/-- C20 as stated fails on the second group of the grouping test: its two
normalised SNRs are 23 and 6, `PrintReportsAndStats` takes 14 as the group
median and prints 23 - 14 = 9, while `median` of the two values is 14.5. -/
theorem groupMedian_counterexample :
    oddSumReports.map (fun a => a.SnrNorm_dB 43) = [23, 6] ∧
      groupMedianSnrNorm_dB oddSumReports 43 = some 14 ∧
      median [23, 6] false = Outcome.ret ([6, 23], 29 / 2, none) ∧
      ((14 : Int) : ℚ) ≠ 29 / 2 ∧
      PrintReportsAndStats
          [{ RxSign := "W5ABC", Time := GoTime.zero, Reports := oddSumReports, TargetIndex := 0 }]
          "W5XYZ" 43 false
        = Outcome.ret [Printed.receivedBy "W5ABC" 0 GoTime.zero, Printed.groupStats 1 2 23 9,
            Printed.offsetHeading] := by
  refine ⟨by decide, by decide, ?_, by norm_num, by decide⟩
  rw [median_eq_of_ne_nil (by decide)]
  have hs : slicesSort [23, 6] = [6, 23] := by decide
  have h6 : float64OfInt 6 = 6 := by decide
  have h23 : float64OfInt 23 = 23 := by decide
  have h29 : float64Add 6 23 = 29 := by decide
  simp only [Bool.false_eq_true, if_false, hs]
  simp [medianOfSorted, h6, h23, h29]

/-- C20, amended: for a group of at least two reports in descending order of
normalised SNR, `median` of the group's normalised SNRs returns a value `mid`
with no error, and the group median of `PrintReportsAndStats` relates to it as
follows. With an odd number of reports both are the normalised SNR of the
middle report. With an even number of reports `mid` is the exact average of the
normalised SNRs of the two middle reports, and when their sum lies in
`[-128, 127]` the group median is that sum divided by two and truncated toward
zero, which is `mid` when the sum is even. -/
theorem groupMedian_truncates (reports : List ReceptionReport) (r : Int)
    (hlen : 2 ≤ reports.length)
    (hs : reports.Pairwise (fun a b => a.SnrNorm_dB r ≥ b.SnrNorm_dB r)) :
    ∃ s mid, median (reports.map (fun a => a.SnrNorm_dB r)) false = Outcome.ret (s, mid, none) ∧
      (reports.length % 2 = 1 →
        ∃ m, reports[reports.length / 2]? = some m ∧
          groupMedianSnrNorm_dB reports r = some (m.SnrNorm_dB r) ∧
          mid = (m.SnrNorm_dB r : ℚ)) ∧
      (reports.length % 2 = 0 →
        ∃ a b, reports[reports.length / 2 - 1]? = some a ∧
          reports[reports.length / 2]? = some b ∧
          mid = ((a.SnrNorm_dB r : ℚ) + (b.SnrNorm_dB r : ℚ)) / 2 ∧
          (-128 ≤ a.SnrNorm_dB r + b.SnrNorm_dB r ∧ a.SnrNorm_dB r + b.SnrNorm_dB r ≤ 127 →
            groupMedianSnrNorm_dB reports r
                = some (Int.tdiv (a.SnrNorm_dB r + b.SnrNorm_dB r) 2) ∧
              ((a.SnrNorm_dB r + b.SnrNorm_dB r) % 2 = 0 →
                ((Int.tdiv (a.SnrNorm_dB r + b.SnrNorm_dB r) 2 : Int) : ℚ) = mid))) := by
  have hne : reports.map (fun a => a.SnrNorm_dB r) ≠ [] := by
    intro h
    rw [List.map_eq_nil_iff] at h
    rw [h] at hlen
    simp at hlen
  have hb : ∀ x ∈ reports.map (fun a => a.SnrNorm_dB r), x.natAbs ≤ 2 ^ 52 := by
    intro x hx
    obtain ⟨a, _, rfl⟩ := List.mem_map.1 hx
    exact snrNorm_natAbs_le a r
  have hd : (reports.map (fun a => a.SnrNorm_dB r)).Pairwise (fun a b => a ≥ b) :=
    List.pairwise_map.2 hs
  have hmed := median_of_descending hne hb hd
  simp only [List.length_map] at hmed
  by_cases hpar : reports.length % 2 = 1
  · obtain ⟨m, hm⟩ : ∃ m, reports[reports.length / 2]? = some m :=
      ⟨_, List.getElem?_eq_getElem (by omega)⟩
    rw [if_pos hpar, getD_map_snrNorm reports r _ m hm] at hmed
    refine ⟨_, _, hmed, ?_, ?_⟩
    · intro _
      refine ⟨m, hm, ?_, rfl⟩
      unfold groupMedianSnrNorm_dB
      rw [if_neg (by omega), hm]
    · intro heven
      omega
  · have heven : reports.length % 2 = 0 := by omega
    obtain ⟨a, ha⟩ : ∃ a, reports[reports.length / 2 - 1]? = some a :=
      ⟨_, List.getElem?_eq_getElem (by omega)⟩
    obtain ⟨b, hb'⟩ : ∃ b, reports[reports.length / 2]? = some b :=
      ⟨_, List.getElem?_eq_getElem (by omega)⟩
    rw [if_neg hpar, getD_map_snrNorm reports r _ a ha,
      getD_map_snrNorm reports r _ b hb'] at hmed
    refine ⟨_, _, hmed, ?_, ?_⟩
    · intro hodd
      omega
    · intro _
      refine ⟨a, b, ha, hb', rfl, ?_⟩
      intro hsum
      refine ⟨?_, ?_⟩
      · unfold groupMedianSnrNorm_dB
        rw [if_pos heven, ha, hb']
        simp only
        rw [wrapInt8_of_range hsum.1 hsum.2]
      · intro h2
        obtain ⟨k, hk⟩ : ∃ k, a.SnrNorm_dB r + b.SnrNorm_dB r = 2 * k :=
          ⟨(a.SnrNorm_dB r + b.SnrNorm_dB r) / 2, by omega⟩
        have hq : (a.SnrNorm_dB r : ℚ) + (b.SnrNorm_dB r : ℚ) = 2 * (k : ℚ) := by
          exact_mod_cast hk
        have ht : Int.tdiv (2 * k) 2 = k := by
          rw [Int.mul_comm]; exact Int.mul_tdiv_cancel k (by decide)
        rw [hk, hq, ht]
        ring

/-- The group with normalised SNRs 23 and 6 has group median 14, the truncated
14.5; the group with 23, 18 and -7 has group median 18. -/
theorem groupMedian_truncates_witness :
    2 ≤ oddSumReports.length ∧
      oddSumReports.Pairwise (fun a b => a.SnrNorm_dB 43 ≥ b.SnrNorm_dB 43) ∧
      groupMedianSnrNorm_dB oddSumReports 43 = some (Int.tdiv (23 + 6) 2) ∧
      groupMedianSnrNorm_dB threeReports 43 = some 18 ∧
      ∃ s mid, median (oddSumReports.map (fun a => a.SnrNorm_dB 43)) false
          = Outcome.ret (s, mid, none) ∧
        (oddSumReports.length % 2 = 1 →
          ∃ m, oddSumReports[oddSumReports.length / 2]? = some m ∧
            groupMedianSnrNorm_dB oddSumReports 43 = some (m.SnrNorm_dB 43) ∧
            mid = (m.SnrNorm_dB 43 : ℚ)) ∧
        (oddSumReports.length % 2 = 0 →
          ∃ a b, oddSumReports[oddSumReports.length / 2 - 1]? = some a ∧
            oddSumReports[oddSumReports.length / 2]? = some b ∧
            mid = ((a.SnrNorm_dB 43 : ℚ) + (b.SnrNorm_dB 43 : ℚ)) / 2 ∧
            (-128 ≤ a.SnrNorm_dB 43 + b.SnrNorm_dB 43 ∧
                a.SnrNorm_dB 43 + b.SnrNorm_dB 43 ≤ 127 →
              groupMedianSnrNorm_dB oddSumReports 43
                  = some (Int.tdiv (a.SnrNorm_dB 43 + b.SnrNorm_dB 43) 2) ∧
                ((a.SnrNorm_dB 43 + b.SnrNorm_dB 43) % 2 = 0 →
                  ((Int.tdiv (a.SnrNorm_dB 43 + b.SnrNorm_dB 43) 2 : Int) : ℚ) = mid))) :=
  ⟨by decide, by decide, by decide, by decide,
    groupMedian_truncates oddSumReports 43 (by decide) (by decide)⟩

/-! ## The constructor: `newReceptionReportGroup` -/

/-- C22 as stated fails on the empty slice, which contains no report of the
target: the constructor returns the zero group and no error. -/
theorem newReceptionReportGroup_empty_counterexample :
    ¬ HasTarget "W5XYZ" [] ∧
      newReceptionReportGroup noParse [] "W5XYZ"
        = (some { RxSign := "", Time := GoTime.zero, Reports := [], TargetIndex := 0 }, none) := by
  decide

/-- C22, amended: for every non-empty reports slice that contains no report whose
`TxSign` is the target callsign, `newReceptionReportGroup` returns an error and
no group. -/
theorem newReceptionReportGroup_error (parse : String → Option GoTime)
    (reports : List ReceptionReport) (c : String)
    (hne : reports ≠ []) (hno : ∀ x ∈ reports, x.TxSign ≠ c) :
    ∃ e, newReceptionReportGroup parse reports c = (none, some e) := by
  cases reports with
  | nil => exact absurd rfl hne
  | cons first rest =>
    have ht : ¬ HasTarget c (first :: rest) := by
      rintro ⟨x, hx, hc⟩
      exact hno x hx hc
    exact ⟨_, newReceptionReportGroup_of_not_hasTarget parse c first rest ht⟩

/-- On the single report of `N0OTH` the constructor returns the error and nil. -/
theorem newReceptionReportGroup_error_witness :
    targetMissingInput ≠ [] ∧ (∀ x ∈ targetMissingInput, x.TxSign ≠ "W5XYZ") ∧
      newReceptionReportGroup noParse targetMissingInput "W5XYZ"
        = (none, some (Error.targetNotFound "W5XYZ" "W5ABC" GoTime.zero)) ∧
      ∃ e, newReceptionReportGroup noParse targetMissingInput "W5XYZ" = (none, some e) :=
  ⟨by decide, by decide, by decide,
    newReceptionReportGroup_error noParse targetMissingInput "W5XYZ" (by decide) (by decide)⟩

/-- C23: on the empty reports slice, for every target callsign,
`newReceptionReportGroup` returns no error and a group with `TargetIndex` 0, no
reports, an empty `RxSign` and the zero time. -/
theorem newReceptionReportGroup_empty (parse : String → Option GoTime) (c : String) :
    newReceptionReportGroup parse [] c
      = (some { RxSign := "", Time := GoTime.zero, Reports := [], TargetIndex := 0 }, none) :=
  rfl

/-- C24: for every non-empty reports slice, `newReceptionReportGroup` succeeds if
and only if some report has the target's `TxSign`, and fails with nil
otherwise; on success the group holds the input reports in the same order, the
`RxSign` of the first report, and as `TargetIndex` the smallest index of a report
of the target. -/
theorem newReceptionReportGroup_spec (parse : String → Option GoTime)
    (first : ReceptionReport) (rest : List ReceptionReport) (c : String) :
    ((∃ g, newReceptionReportGroup parse (first :: rest) c = (some g, none)) ↔
      ∃ x ∈ first :: rest, x.TxSign = c) ∧
    ((¬ ∃ x ∈ first :: rest, x.TxSign = c) →
      ∃ e, newReceptionReportGroup parse (first :: rest) c = (none, some e)) ∧
    (∀ g, newReceptionReportGroup parse (first :: rest) c = (some g, none) →
      g.Reports = first :: rest ∧ g.RxSign = first.RxSign ∧
      ∃ k : Nat, g.TargetIndex = (k : Int) ∧
        (∃ t, (first :: rest)[k]? = some t ∧ t.TxSign = c) ∧
        ∀ (j : Nat) (x : ReceptionReport), j < k → (first :: rest)[j]? = some x → x.TxSign ≠ c) := by
  by_cases ht : HasTarget c (first :: rest)
  · have hres := newReceptionReportGroup_of_hasTarget parse c first rest ht
    refine ⟨⟨fun _ => ht, fun _ => ⟨_, hres⟩⟩, fun hn => absurd ht hn, ?_⟩
    intro g hg
    rw [hres] at hg
    simp only [Prod.mk.injEq, Option.some.injEq, and_true] at hg
    subst hg
    exact ⟨rfl, rfl, targetPos c (first :: rest), rfl, targetPos_spec ht⟩
  · have hres := newReceptionReportGroup_of_not_hasTarget parse c first rest ht
    refine ⟨⟨?_, fun h => absurd h ht⟩, fun _ => ⟨_, hres⟩, ?_⟩
    · rintro ⟨g, hg⟩
      rw [hres] at hg
      simp at hg
    · intro g hg
      rw [hres] at hg
      simp at hg

/-- With the target first of two reports the index is 0, with the target second
of three it is 1. -/
theorem newReceptionReportGroup_spec_witness :
    (newReceptionReportGroup noParse targetFirstReports "W5XYZ").1.map (fun g => g.TargetIndex)
        = some 0 ∧
      (newReceptionReportGroup noParse targetSecondReports "W5XYZ").1.map
        (fun g => (g.TargetIndex, g.RxSign, g.Reports.length)) = some (1, "W5ABC", 3) ∧
      ∃ g, newReceptionReportGroup noParse
          (rawReport "2024-12-14 15:30:45" "W5ABC" "N0OTH" 20 0 ::
            [rawReport "2024-12-14 15:30:45" "W5ABC" "W5XYZ" 10 0,
             rawReport "2024-12-14 15:30:45" "W5ABC" "G3ABC" 30 0]) "W5XYZ" = (some g, none) :=
  ⟨by decide, by decide,
    (newReceptionReportGroup_spec noParse (rawReport "2024-12-14 15:30:45" "W5ABC" "N0OTH" 20 0)
      [rawReport "2024-12-14 15:30:45" "W5ABC" "W5XYZ" 10 0,
       rawReport "2024-12-14 15:30:45" "W5ABC" "G3ABC" 30 0] "W5XYZ").1.2
      ⟨rawReport "2024-12-14 15:30:45" "W5ABC" "W5XYZ" 10 0, by decide, rfl⟩⟩

/-! ## The timestamp: `ReceptionReport.Time` -/

/-- C25: the method `Time()` always returns a time value: the zero time when
`time.Parse` rejects `TimeStr`, and the parsed instant when it accepts it. -/
theorem time_total (parse : String → Option GoTime) (report : ReceptionReport) :
    (parse report.TimeStr = none → report.Time parse = GoTime.zero) ∧
    (∀ t, parse report.TimeStr = some t → report.Time parse = t) := by
  unfold ReceptionReport.Time
  constructor
  · intro h; rw [h]
  · intro t h; rw [h]

/-- With a parser that accepts the timestamp of the tests only, "invalid" and the
empty string give the zero time and the timestamp gives its instant. -/
theorem time_total_witness :
    (rawReport "invalid" "" "" 0 0).Time testParse = GoTime.zero ∧
      (rawReport "" "" "" 0 0).Time testParse = GoTime.zero ∧
      (rawReport "2024-12-14 15:30:45" "" "" 0 0).Time testParse = targetTime :=
  ⟨(time_total testParse (rawReport "invalid" "" "" 0 0)).1 (by decide),
    (time_total testParse (rawReport "" "" "" 0 0)).1 (by decide),
    (time_total testParse (rawReport "2024-12-14 15:30:45" "" "" 0 0)).2 targetTime (by decide)⟩

/-! ## Rank of the target -/

/-- C26: when `processRawRxReports` succeeds with reference power `r`, in every
group the report at `TargetIndex` is a report of the target, every report at a
smaller index has a normalised SNR at least the target's, and every report at
a greater index has a normalised SNR at most the target's. -/
theorem processRawRxReports_rank (S : SlicesSort) (parse : String → Option GoTime)
    (raw : List ReceptionReport) (c : String) (r : Int) (gs : List ReceptionReportGroup)
    (h : processRawRxReports S parse raw c r = Outcome.ret (gs, none)) :
    ∀ g ∈ gs, ∃ t, indexReports g.Reports g.TargetIndex = some t ∧ t.TxSign = c ∧
      ∀ (i : Nat) (x : ReceptionReport), g.Reports[i]? = some x →
        (((i : Int) < g.TargetIndex → x.SnrNorm_dB r ≥ t.SnrNorm_dB r) ∧
          ((i : Int) > g.TargetIndex → x.SnrNorm_dB r ≤ t.SnrNorm_dB r)) := by
  have hf := (processRawRxReports_ok_iff S parse raw c r gs).1 h
  intro g hg
  obtain ⟨run, _, hrun⟩ := forall₂_mem_right hf g hg
  obtain ⟨hrep, ht, hti, _⟩ := groupOfRun_props hrun
  have hp : g.Reports.Pairwise (fun a b => a.SnrNorm_dB r ≥ b.SnrNorm_dB r) := by
    rw [hrep]; exact sort_pairwise S r run
  rw [List.pairwise_iff_getElem] at hp
  obtain ⟨⟨t, hk, htc⟩, _⟩ := targetPos_spec ht
  obtain ⟨hkl, hkt⟩ := List.getElem?_eq_some.1 hk
  have hidx : indexReports g.Reports g.TargetIndex = some t := by
    rw [hti]; simpa [indexReports] using hk
  refine ⟨t, hidx, htc, ?_⟩
  intro i x hx
  obtain ⟨hil, hxt⟩ := List.getElem?_eq_some.1 hx
  rw [hti, ← hkt, ← hxt]
  constructor
  · intro hlt
    exact hp i (targetPos c g.Reports) hil hkl (by exact_mod_cast hlt)
  · intro hgt
    exact hp (targetPos c g.Reports) i hkl hil (by exact_mod_cast hgt)

/-- In the raw order N0OTH, W5XYZ, G3ABC the target is at index 1; with reference
power 43 it comes first in the single group of three. -/
theorem processRawRxReports_rank_witness :
    targetPos "W5XYZ" sortedBySnrInput = 1 ∧
      processRawRxReports insertionSorter noParse sortedBySnrInput "W5XYZ" 43
        = Outcome.ret (sortedBySnrOutput, none) ∧
      sortedBySnrOutput.map (fun g => (g.TargetIndex, g.Reports.length)) = [(0, 3)] ∧
      ∃ g ∈ sortedBySnrOutput, ∃ t,
        indexReports g.Reports g.TargetIndex = some t ∧ t.TxSign = "W5XYZ" ∧
        ∀ (i : Nat) (x : ReceptionReport), g.Reports[i]? = some x →
          (((i : Int) < g.TargetIndex → x.SnrNorm_dB 43 ≥ t.SnrNorm_dB 43) ∧
            ((i : Int) > g.TargetIndex → x.SnrNorm_dB 43 ≤ t.SnrNorm_dB 43)) :=
  ⟨by decide, by decide, by decide, _, List.mem_cons_self _ _,
    processRawRxReports_rank insertionSorter noParse sortedBySnrInput "W5XYZ" 43
      sortedBySnrOutput (by decide) _ (List.mem_cons_self _ _)⟩

/-! ## The filter keeps order and is idempotent -/

/-- C29: when `filterRxReports` succeeds, the returned groups correspond, in
order, to a subsequence `kept` of the input groups; the reports of each
returned group are an order-preserving sublist of the reports of its input
group, and if those are in non-increasing order of normalised SNR for a
reference power `r`, so are the reports of the returned group. -/
theorem filterRxReports_sublists (parse : String → Option GoTime)
    (gs : List ReceptionReportGroup) (c : String) (out : List ReceptionReportGroup)
    (h : filterRxReports parse gs c = Outcome.ret (out, none)) :
    ∃ kept : List ReceptionReportGroup, kept.Sublist gs ∧
      List.Forall₂ (fun g' g => g'.Reports.Sublist g.Reports ∧
        ∀ r : Int, g.Reports.Pairwise (fun a b => a.SnrNorm_dB r ≥ b.SnrNorm_dB r) →
          g'.Reports.Pairwise (fun a b => a.SnrNorm_dB r ≥ b.SnrNorm_dB r)) out kept := by
  obtain ⟨_, hout⟩ := (filterRxReports_ok_iff parse c gs out).1 h
  obtain ⟨kept, hsub, hf⟩ := filterMap_forall₂ (rebuild parse c) gs
  refine ⟨kept, hsub, ?_⟩
  rw [hout]
  refine hf.imp ?_
  intro g' g hreb
  obtain ⟨_, _, first, rest, hkept, hng⟩ := rebuild_some hreb
  have hs : g'.Reports.Sublist g.Reports := by
    rw [hng]
    simp only
    rw [← hkept]
    exact keptReports_sublist g
  exact ⟨hs, fun r hp => hp.sublist hs⟩

/-- With the target at 200 km, the transmitter at 500 km is removed and the other
three reports stay in their order. -/
theorem filterRxReports_sublists_witness :
    filterRxReports noParse mixedInput "W5XYZ" = Outcome.ret (mixedOutput, none) ∧
      mixedOutput.map (fun g => g.Reports.map (fun x => x.TxSign))
        = [["W5XYZ", "N0OTH", "G3ABC"]] ∧
      ∃ kept : List ReceptionReportGroup, kept.Sublist mixedInput ∧
        List.Forall₂ (fun g' g => g'.Reports.Sublist g.Reports ∧
          ∀ r : Int, g.Reports.Pairwise (fun a b => a.SnrNorm_dB r ≥ b.SnrNorm_dB r) →
            g'.Reports.Pairwise (fun a b => a.SnrNorm_dB r ≥ b.SnrNorm_dB r)) mixedOutput kept :=
  ⟨by decide, by decide,
    filterRxReports_sublists noParse mixedInput "W5XYZ" mixedOutput (by decide)⟩

/-- C30: if in every input group `TargetIndex` is the smallest index of a report
of the target callsign `c` (the distances being `uint16` values) and
`filterRxReports` succeeds with result `out`, then `filterRxReports` on `out`
with the same `c` succeeds and returns `out` unchanged. -/
theorem filterRxReports_idempotent (parse : String → Option GoTime)
    (gs : List ReceptionReportGroup) (c : String) (out : List ReceptionReportGroup)
    (hwf : ∀ g ∈ gs, TargetFirst c g ∧ ∀ x ∈ g.Reports, x.Distance_km < 65536)
    (h : filterRxReports parse gs c = Outcome.ret (out, none)) :
    filterRxReports parse out c = Outcome.ret (out, none) := by
  obtain ⟨_, hout⟩ := (filterRxReports_ok_iff parse c gs out).1 h
  have hself : ∀ g' ∈ out, rebuild parse c g' = some g' := by
    intro g' hg'
    rw [hout] at hg'
    obtain ⟨g, hg, hreb⟩ := mem_filterMap_rebuild hg'
    exact rebuild_idem (hwf g hg).1 (hwf g hg).2 hreb
  rw [filterRxReports_ok_iff]
  refine ⟨?_, (filterMap_self _ out hself).symm⟩
  intro g' hg'
  obtain ⟨_, _, t, ht, _⟩ := rebuild_targetIndex (hself g' hg')
  exact ⟨⟨t, ht⟩, rebuild_no_error (hself g' hg')⟩

/-- The group with the target at 200 km loses the transmitter at 500 km the
first time and nothing the second time. -/
theorem filterRxReports_idempotent_witness :
    (∀ g ∈ mixedInput, TargetFirst "W5XYZ" g ∧ ∀ x ∈ g.Reports, x.Distance_km < 65536) ∧
      filterRxReports noParse mixedInput "W5XYZ" = Outcome.ret (mixedOutput, none) ∧
      filterRxReports noParse mixedOutput "W5XYZ" = Outcome.ret (mixedOutput, none) :=
  ⟨by decide, by decide,
    filterRxReports_idempotent noParse mixedInput "W5XYZ" mixedOutput (by decide) (by decide)⟩

/-! ## Statistics: the aggregate collection -/

/-- C21 as stated fails: for the group that the grouping and the filter
build from three reports with normalised SNRs 127, 127 and -128 (reference power 0,
the target at -128), the exact differences are 255 and 255, and the loops of
`PrintReportsAndStats` collect -1 and -1. -/
theorem printReportsAndStats_difference_counterexample :
    processRawRxReports insertionSorter testParse wideSpreadInput "W5XYZ" 0
        = Outcome.ret (wideSpreadGroups, none) ∧
      filterRxReports testParse wideSpreadGroups "W5XYZ"
        = Outcome.ret (wideSpreadGroups, none) ∧
      (∀ g ∈ wideSpreadGroups, TargetInRange g) ∧
      specAggregateSamples 0 wideSpreadGroups = [255, 255] ∧
      (printGroupsLoop 0 false wideSpreadGroups [] []).map Prod.snd = some [-1, -1] ∧
      (printGroupsLoop 0 false wideSpreadGroups [] []).map Prod.snd
        ≠ some (specAggregateSamples 0 wideSpreadGroups) := by
  refine ⟨?_, ?_, ?_, ?_, ?_, ?_⟩ <;> decide

/-- C21, amended: on groups whose `TargetIndex` is in range, the aggregate collection
of `PrintReportsAndStats` holds, group by group and report by report, one sample for
every report other than the target's: it has the sum over the groups of
`len(Reports) - 1` samples, and it corresponds position by position to the list of the
exact differences "normalised SNR of the report minus normalised SNR of the target",
each sample being an `int8` that equals its difference whenever the difference lies in
[-128, 127]; when all differences do, the collection is the list of the differences.
No offset line is printed by the loops; after the heading the offset is printed if and
only if there is more than one sample, and it is then the negated result of `median`
on the collection, with the number of samples. -/
theorem printReportsAndStats_aggregate (gs : List ReceptionReportGroup) (c : String) (r : Int)
    (verbose : Bool) (hwf : ∀ g ∈ gs, TargetInRange g) :
    ∃ printed, printGroupsLoop r verbose gs [] [] = some (printed, aggregateSamples r gs) ∧
      (∀ p ∈ printed, p.isOffsetValue = false) ∧
      (aggregateSamples r gs).length = (gs.map (fun g => g.Reports.length - 1)).sum ∧
      List.Forall₂ (fun s x => (-128 ≤ s ∧ s ≤ 127) ∧ (-128 ≤ x → x ≤ 127 → s = x))
        (aggregateSamples r gs) (specAggregateSamples r gs) ∧
      ((∀ x ∈ specAggregateSamples r gs, -128 ≤ x ∧ x ≤ 127) →
        aggregateSamples r gs = specAggregateSamples r gs) ∧
      ((aggregateSamples r gs).length > 1 →
        ∃ s m, median (aggregateSamples r gs) false = Outcome.ret (s, m, none) ∧
          PrintReportsAndStats gs c r verbose
            = Outcome.ret (printed ++ [Printed.offsetHeading,
                Printed.offsetValue (-m) (aggregateSamples r gs).length])) ∧
      (¬ (aggregateSamples r gs).length > 1 →
        PrintReportsAndStats gs c r verbose = Outcome.ret (printed ++ [Printed.offsetHeading])) := by
  obtain ⟨printed, h1, h2, h3, h4⟩ := printReportsAndStats_eq gs c r verbose hwf
  exact ⟨printed, h1, h2,
    aggregateSamples_length r gs (fun g hg => indexReports_of_inRange (hwf g hg)),
    aggregateSamples_forall₂_spec r gs,
    eq_of_forall₂_inRange _ _ (aggregateSamples_forall₂_spec r gs), h3, h4⟩

/-- The group with normalised SNRs 23, 18 and -7 and the target first gives the
samples -5 and -30, which are the exact differences; the three groups of two give
three samples. -/
theorem printReportsAndStats_aggregate_witness :
    (∀ g ∈ sortedBySnrOutput, TargetInRange g) ∧
      aggregateSamples 43 sortedBySnrOutput = [-5, -30] ∧
      specAggregateSamples 43 sortedBySnrOutput = [-5, -30] ∧
      aggregateSamples 43 multipleGroupsOutput = [-15, -17, -6] ∧
      ∃ printed, printGroupsLoop 43 false sortedBySnrOutput [] []
          = some (printed, aggregateSamples 43 sortedBySnrOutput) ∧
        (∀ p ∈ printed, p.isOffsetValue = false) ∧
        (aggregateSamples 43 sortedBySnrOutput).length
          = (sortedBySnrOutput.map (fun g => g.Reports.length - 1)).sum ∧
        List.Forall₂ (fun s x => (-128 ≤ s ∧ s ≤ 127) ∧ (-128 ≤ x → x ≤ 127 → s = x))
          (aggregateSamples 43 sortedBySnrOutput) (specAggregateSamples 43 sortedBySnrOutput) ∧
        ((∀ x ∈ specAggregateSamples 43 sortedBySnrOutput, -128 ≤ x ∧ x ≤ 127) →
          aggregateSamples 43 sortedBySnrOutput = specAggregateSamples 43 sortedBySnrOutput) ∧
        ((aggregateSamples 43 sortedBySnrOutput).length > 1 →
          ∃ s m, median (aggregateSamples 43 sortedBySnrOutput) false = Outcome.ret (s, m, none) ∧
            PrintReportsAndStats sortedBySnrOutput "W5XYZ" 43 false
              = Outcome.ret (printed ++ [Printed.offsetHeading,
                  Printed.offsetValue (-m) (aggregateSamples 43 sortedBySnrOutput).length])) ∧
        (¬ (aggregateSamples 43 sortedBySnrOutput).length > 1 →
          PrintReportsAndStats sortedBySnrOutput "W5XYZ" 43 false
            = Outcome.ret (printed ++ [Printed.offsetHeading])) :=
  ⟨by decide, by decide, by decide, by decide,
    printReportsAndStats_aggregate sortedBySnrOutput "W5XYZ" 43 false (by decide)⟩

/-- C27: in a run of `PrintReportsAndStats` the function `median` is called at
most once, on a slice of at least 2 samples, and the error it returns is nil;
the run returns exactly when the instrumented run `medianCalls` does. -/
theorem median_call_guarded (gs : List ReceptionReportGroup) (c : String) (r : Int)
    (verbose : Bool) :
    (∀ calls, medianCalls gs r verbose = Outcome.ret calls →
      calls.length ≤ 1 ∧ ∀ call ∈ calls, 2 ≤ call.1.length ∧ call.2 = none) ∧
    ((∃ printed, PrintReportsAndStats gs c r verbose = Outcome.ret printed) ↔
      ∃ calls, medianCalls gs r verbose = Outcome.ret calls) := by
  unfold medianCalls PrintReportsAndStats
  cases hloop : printGroupsLoop r verbose gs [] [] with
  | none => simp
  | some res =>
    obtain ⟨printed, agg⟩ := res
    simp only
    by_cases hlen : agg.length > 1
    · have hne : agg ≠ [] := by
        intro h; rw [h] at hlen; simp at hlen
      rw [if_pos hlen, if_pos hlen, median_eq_of_ne_nil hne false]
      simp only [Outcome.ret.injEq]
      refine ⟨?_, ⟨fun _ => ⟨_, rfl⟩, fun _ => ⟨_, rfl⟩⟩⟩
      intro calls hcalls
      subst hcalls
      refine ⟨by simp, ?_⟩
      intro call hcall
      rw [List.mem_singleton] at hcall
      subst hcall
      exact ⟨hlen, rfl⟩
    · rw [if_neg hlen, if_neg hlen]
      simp only [Outcome.ret.injEq]
      refine ⟨?_, ⟨fun _ => ⟨_, rfl⟩, fun _ => ⟨_, rfl⟩⟩⟩
      intro calls hcalls
      subst hcalls
      exact ⟨by simp, fun call hcall => by cases hcall⟩

/-- With two samples `median` is called once, without error; with one sample or
no group it is not called. -/
theorem median_call_guarded_witness :
    medianCalls sortedBySnrOutput 43 true = Outcome.ret [([-5, -30], none)] ∧
      medianCalls oneGroupOfTwo 43 false = Outcome.ret [] ∧
      medianCalls [] 43 false = Outcome.ret [] ∧
      ([([-5, -30], none)] : List (List Int × Option Error)).length ≤ 1 ∧
      ∀ call ∈ ([([-5, -30], none)] : List (List Int × Option Error)),
        2 ≤ call.1.length ∧ call.2 = none :=
  ⟨by decide, by decide, by decide,
    (median_call_guarded sortedBySnrOutput "W5XYZ" 43 true).1 _ (by decide)⟩

/-! ## The pipeline does not index out of range -/

/-- C28: when `processRawRxReports` succeeds (the distances being `uint16`
values), every group it returns has `0 ≤ TargetIndex < len(Reports)`, so
`filterRxReports` does not panic and returns without error; every group of its
output has `0 ≤ TargetIndex < len(Reports)` and at least 2 reports, and
`PrintReportsAndStats` returns on that output without a panic. -/
theorem pipeline_no_index_panic (S : SlicesSort) (parse : String → Option GoTime)
    (raw : List ReceptionReport) (c : String) (r : Int) (gs : List ReceptionReportGroup)
    (hrange : ∀ x ∈ raw, x.Distance_km < 65536)
    (h : processRawRxReports S parse raw c r = Outcome.ret (gs, none)) :
    (∀ g ∈ gs, 0 ≤ g.TargetIndex ∧ g.TargetIndex < g.Reports.length) ∧
    ∃ out, filterRxReports parse gs c = Outcome.ret (out, none) ∧
      (∀ g' ∈ out, 0 ≤ g'.TargetIndex ∧ g'.TargetIndex < g'.Reports.length ∧
        2 ≤ g'.Reports.length) ∧
      ∀ verbose, ∃ printed, PrintReportsAndStats out c r verbose = Outcome.ret printed := by
  have hwf := processed_group_wf h
  have hstep : ∀ g ∈ gs, (∃ t, indexReports g.Reports g.TargetIndex = some t) ∧
      (newReceptionReportGroup parse (keptReports g) c).2 = none :=
    fun g hg => filter_step_ok parse c g (hwf g hg).1
      (fun x hx => hrange x ((hwf g hg).2 x hx))
  have hout : ∀ g' ∈ gs.filterMap (rebuild parse c),
      0 ≤ g'.TargetIndex ∧ g'.TargetIndex < g'.Reports.length ∧ 2 ≤ g'.Reports.length := by
    intro g' hg'
    obtain ⟨g, _, hreb⟩ := mem_filterMap_rebuild hg'
    obtain ⟨h0, h1, _⟩ := rebuild_targetIndex hreb
    obtain ⟨_, hlen, first, rest, hkept, hng⟩ := rebuild_some hreb
    refine ⟨h0, h1, ?_⟩
    rw [hng]
    simp only
    rw [← hkept]
    exact hlen
  refine ⟨?_, gs.filterMap (rebuild parse c), ?_, hout, ?_⟩
  · intro g hg
    obtain ⟨t, ht⟩ := (hstep g hg).1
    exact inRange_of_indexReports ht
  · rw [filterRxReports_ok_iff]
    exact ⟨hstep, rfl⟩
  · intro verbose
    have hin : ∀ g' ∈ gs.filterMap (rebuild parse c), TargetInRange g' :=
      fun g' hg' => ⟨(hout g' hg').1, (hout g' hg').2.1⟩
    obtain ⟨printed, _, _, h3, h4⟩ := printReportsAndStats_eq _ c r verbose hin
    by_cases hlen : (aggregateSamples r (gs.filterMap (rebuild parse c))).length > 1
    · obtain ⟨_, _, _, hp⟩ := h3 hlen
      exact ⟨_, hp⟩
    · exact ⟨_, h4 hlen⟩

/-- The three reports at 200, 225 and 150 km pass through grouping, filtering
and printing. -/
theorem pipeline_no_index_panic_witness :
    (∀ x ∈ pipelineInput, x.Distance_km < 65536) ∧
      processRawRxReports insertionSorter testParse pipelineInput "W5XYZ" 43
        = Outcome.ret (coherentOutput, none) ∧
      filterRxReports testParse coherentOutput "W5XYZ" = Outcome.ret (coherentOutput, none) ∧
      ((∀ g ∈ coherentOutput, 0 ≤ g.TargetIndex ∧ g.TargetIndex < g.Reports.length) ∧
      ∃ out, filterRxReports testParse coherentOutput "W5XYZ" = Outcome.ret (out, none) ∧
        (∀ g' ∈ out, 0 ≤ g'.TargetIndex ∧ g'.TargetIndex < g'.Reports.length ∧
          2 ≤ g'.Reports.length) ∧
        ∀ verbose, ∃ printed,
          PrintReportsAndStats out "W5XYZ" 43 verbose = Outcome.ret printed) :=
  ⟨by decide, by decide, by decide,
    pipeline_no_index_panic insertionSorter testParse pipelineInput "W5XYZ" 43
      coherentOutput (by decide) (by decide)⟩

/-- C31: the relative normalised SNR does not depend on the reference power. For all
reports `a` and `t` and all reference powers `r1` and `r2`, the `int8` difference
`SnrNorm_dB(a, r1) - SnrNorm_dB(t, r1)` equals the one taken with `r2`; both are the
`int8` value of `(a.Snr_dB - a.Power_dBm) - (t.Snr_dB - t.Power_dBm)`, congruent to it
modulo 256 and in the range of `int8`. Hence the samples that `PrintReportsAndStats`
collects for a group, and the aggregate over all groups, are the same for every
reference power. -/
theorem relativeSnrNorm_reference_free (a t : ReceptionReport) (r1 r2 : Int) :
    wrapInt8 (a.SnrNorm_dB r1 - t.SnrNorm_dB r1)
        = wrapInt8 (a.SnrNorm_dB r2 - t.SnrNorm_dB r2) ∧
      wrapInt8 (a.SnrNorm_dB r1 - t.SnrNorm_dB r1)
        = wrapInt8 ((a.Snr_dB - a.Power_dBm) - (t.Snr_dB - t.Power_dBm)) ∧
      (wrapInt8 (a.SnrNorm_dB r1 - t.SnrNorm_dB r1)
        - ((a.Snr_dB - a.Power_dBm) - (t.Snr_dB - t.Power_dBm))) % 256 = 0 ∧
      (-128 ≤ wrapInt8 (a.SnrNorm_dB r1 - t.SnrNorm_dB r1) ∧
        wrapInt8 (a.SnrNorm_dB r1 - t.SnrNorm_dB r1) ≤ 127) ∧
      (∀ g : ReceptionReportGroup, groupSamples r1 g = groupSamples r2 g) ∧
      ∀ gs : List ReceptionReportGroup, aggregateSamples r1 gs = aggregateSamples r2 gs := by
  have key : ∀ (x y : ReceptionReport) (r : Int),
      wrapInt8 (x.SnrNorm_dB r - y.SnrNorm_dB r)
        = wrapInt8 ((x.Snr_dB - x.Power_dBm) - (y.Snr_dB - y.Power_dBm)) := by
    intro x y r
    rw [snrNorm_dB_eq, snrNorm_dB_eq]
    unfold wrapInt8
    omega
  have hg : ∀ g : ReceptionReportGroup, groupSamples r1 g = groupSamples r2 g := by
    intro g
    unfold groupSamples
    cases indexReports g.Reports g.TargetIndex with
    | none => rfl
    | some targetReport =>
      dsimp only
      apply List.map_congr_left
      intro report _
      rw [key report targetReport r1, key report targetReport r2]
  refine ⟨by rw [key a t r1, key a t r2], key a t r1, ?_, ?_, hg, ?_⟩
  · rw [key a t r1]
    unfold wrapInt8
    omega
  · unfold wrapInt8
    omega
  · intro gs
    unfold aggregateSamples
    induction gs with
    | nil => rfl
    | cons g gs ih => rw [List.flatMap_cons, List.flatMap_cons, hg g, ih]

/-- C32: the branch "generated nil/empty report group" of `processRawRxReports` is not
reachable. For every input the traced loop returns what `processRawRxReports` returns;
every slice expression `rawRxReports[i:j]` it reaches has `i < j ≤ len(rawRxReports)`;
the function returns, and never with the error of that branch; and
`newReceptionReportGroup` on a non-empty slice, when it returns no error, returns a
group (not nil) that holds the slice, so at least one report. -/
theorem emptyGroup_branch_unreachable (S : SlicesSort) (parse : String → Option GoTime)
    (rawRxReports : List ReceptionReport) (targetCallsign : String) (normTxPwr_dBm : Int) :
    (processRawRxReportsTraced S parse rawRxReports targetCallsign normTxPwr_dBm).1
        = processRawRxReports S parse rawRxReports targetCallsign normTxPwr_dBm ∧
      (∀ p ∈ (processRawRxReportsTraced S parse rawRxReports targetCallsign normTxPwr_dBm).2,
        p.1 < p.2 ∧ p.2 ≤ rawRxReports.length) ∧
      (∃ gs err, processRawRxReports S parse rawRxReports targetCallsign normTxPwr_dBm
          = Outcome.ret (gs, err) ∧ err ≠ some Error.emptyGroup) ∧
      ∀ (reports : List ReceptionReport) (og : Option ReceptionReportGroup),
        reports ≠ [] →
        newReceptionReportGroup parse reports targetCallsign = (og, none) →
        ∃ g, og = some g ∧ g.Reports = reports ∧ 1 ≤ g.Reports.length := by
  refine ⟨processLoopTraced_fst S parse targetCallsign normTxPwr_dBm _ _ _ _ _ _, ?_, ?_, ?_⟩
  · intro p hp
    rcases processLoopTraced_bounds S parse targetCallsign normTxPwr_dBm rawRxReports.length
      _ rawRxReports 0 1 [] [] rfl (by decide) p hp with h | h
    · cases h
    · exact h
  · refine ⟨(buildGroups S parse targetCallsign normTxPwr_dBm (runs rawRxReports) []).1,
      (buildGroups S parse targetCallsign normTxPwr_dBm (runs rawRxReports) []).2,
      processRawRxReports_eq S parse rawRxReports targetCallsign normTxPwr_dBm, ?_⟩
    intro he
    exact buildGroups_ne_emptyGroup S parse targetCallsign normTxPwr_dBm (runs rawRxReports) []
      _ Error.emptyGroup (fun run hrun => runs_ne_nil hrun) (Prod.ext rfl he) rfl
  · intro reports og hne h
    obtain ⟨g, hg, hrep⟩ := newReceptionReportGroup_nonempty parse targetCallsign reports og hne h
    refine ⟨g, hg, hrep, ?_⟩
    rw [hrep]
    exact List.length_pos.2 hne

end Wspr
